import Mathlib

/-!
Verification of the Nex-t1 Heavy coordination engine.

A shallow embedding of the coordination engine of the Nex-t1 Heavy
multi-agent system: the per-role task dispatcher (`TaskDispatcherService`),
the publish/subscribe message bus (`MessageBusService`), the phase
orchestrator (`OrchestratorService`) and the state manager
(`StateManagerService`), together with theorems settling the spec's
claims about them.

Mutable JavaScript object graphs (the state manager's `SystemState` with
its nested maps and records) are embedded with an explicit heap: every
mutable object lives at an address, and field reads/writes go through the
heap, so aliasing created by object spread (`{ ...x }`) and by in-place
mutation is represented faithfully.
-/

namespace Nex

/-- Decidable equality for `Except` results (core does not derive it). -/
instance {ε α : Type _} [DecidableEq ε] [DecidableEq α] : DecidableEq (Except ε α) := fun a b =>
  match a, b with
  | .error x, .error y =>
    if h : x = y then .isTrue (by rw [h])
    else .isFalse (by intro hc; cases hc; exact h rfl)
  | .ok x, .ok y =>
    if h : x = y then .isTrue (by rw [h])
    else .isFalse (by intro hc; cases hc; exact h rfl)
  | .error _, .ok _ => .isFalse (by intro hc; cases hc)
  | .ok _, .error _ => .isFalse (by intro hc; cases hc)

/-- The closed set of agent roles (`AgentPersona` in
`src/interfaces/agent.interface.ts`). -/
inductive Persona where
  | tech_lead
  | product_engineer
  | qa_engineer
  | devops_specialist
  | doc_specialist
  | code_reviewer
deriving DecidableEq, Repr

/-- The fixed roster, in the order the source lists it
(`initializeQueues` in `task-dispatcher.service.ts` and
`initializeSystemState` in `state-manager.service.ts`). -/
def roster : List Persona :=
  [.tech_lead, .product_engineer, .qa_engineer,
   .devops_specialist, .doc_specialist, .code_reviewer]

/-- `DevelopmentPhase` from `src/interfaces/orchestrator.interface.ts`. -/
inductive Phase where
  | planning
  | scaffold
  | feature
  | test
  | review
  | deploy
deriving DecidableEq, Repr

/-- `Priority` from `src/interfaces/agent.interface.ts`. -/
inductive Priority where
  | LOW
  | MEDIUM
  | HIGH
  | CRITICAL
deriving DecidableEq, Repr

/-- `AgentState` from `src/interfaces/agent.interface.ts`. -/
inductive AgentLifeState where
  | idle
  | working
  | blocked
  | reviewing
  | completed
  | paused
deriving DecidableEq, Repr

/-! ## Task dispatcher (`src/core/tasks/task-dispatcher.service.ts`)

`dispatchTask` adds a BullMQ job for the task's assigned role with
`priority: this.priorityWeights[task.priority].weight`.  The numeric
weights are taken verbatim from the `priorityWeights` table
(lines 33–38 of the source). -/

/-- The `weight` field of `priorityWeights` in
`task-dispatcher.service.ts`: CRITICAL ↦ 1000, HIGH ↦ 100,
MEDIUM ↦ 10, LOW ↦ 1. -/
def priorityWeight : Priority → Nat
  | .CRITICAL => 1000
  | .HIGH => 100
  | .MEDIUM => 10
  | .LOW => 1

/-- A waiting BullMQ job in one role's queue: payload task id, the
numeric BullMQ priority assigned by `dispatchTask`, and a submission
sequence number (jobs are appended in arrival order). -/
structure Job where
  taskId : String
  bullPriority : Nat
  seq : Nat
deriving DecidableEq, Repr

/-- `dispatchTask` restricted to one role's queue: appends a job whose
BullMQ priority is `priorityWeights[task.priority].weight`. -/
def dispatchTask (queue : List Job) (taskId : String) (p : Priority) : List Job :=
  queue ++ [{ taskId := taskId, bullPriority := priorityWeight p, seq := queue.length }]

/-- Dispatch a list of `(taskId, priority)` pairs in order. -/
def dispatchAll (tasks : List (String × Priority)) : List Job :=
  tasks.foldl (fun q t => dispatchTask q t.1 t.2) []

/-- Whether BullMQ serves job `a` before job `b`.  Modelled from the
library's documented semantics: prioritized jobs are processed in
ascending numeric `priority` (1 is the highest priority, larger numbers
are lower), FIFO within an equal priority value. -/
def bullServesBefore (a b : Job) : Bool :=
  a.bullPriority < b.bullPriority ∨
    (a.bullPriority = b.bullPriority ∧ a.seq < b.seq)

/-- The next job BullMQ hands to the worker: the minimum under
`bullServesBefore`. -/
def nextJob : List Job → Option Job
  | [] => none
  | j :: js =>
    match nextJob js with
    | none => some j
    | some k => if bullServesBefore k j then some k else some j

theorem nextJob_mem : ∀ {q : List Job} {j : Job}, nextJob q = some j → j ∈ q := by
  intro q
  induction q with
  | nil => intro j h; simp [nextJob] at h
  | cons x xs ih =>
    intro j h
    simp only [nextJob] at h
    cases hx : nextJob xs with
    | none => rw [hx] at h; simp at h; simp [h]
    | some k =>
      rw [hx] at h
      by_cases hb : bullServesBefore k x
      · simp [hb] at h
        exact List.mem_cons_of_mem _ (h ▸ ih hx)
      · simp [hb] at h; simp [h]

/-- Fuelled driver for `execOrder` (structural recursion on the fuel so
that concrete runs reduce definitionally). -/
def execOrderFuel : Nat → List Job → List String
  | 0, _ => []
  | n + 1, queue =>
    match nextJob queue with
    | none => []
    | some j => j.taskId :: execOrderFuel n (queue.erase j)

/-- With `concurrency = 1`, the order in which the queued jobs execute:
repeatedly take `nextJob` (BullMQ's choice) and remove it from the
queue. -/
def execOrder (queue : List Job) : List String :=
  execOrderFuel queue.length queue

/-! ## Message bus (`src/core/communication/message-bus.service.ts`)

The bus keeps one Redis subscriber connection.  `setupRedisSubscriptions`
installs a single `pmessage` listener and psubscribes `agent:*`;
`subscribe` additionally psubscribes every pattern of the new
subscription on the same connection.  Redis delivers one `pmessage`
event per *distinct matching psubscribed pattern* (a psubscribed pattern
is held at most once per connection), and the listener calls
`handleIncomingMessage(parsedMessage, pattern)` — note that the fired
*pattern*, not the concrete channel, is what `matchPattern` is applied
to.  Callbacks and handlers are arbitrary caller code; the embedding
records for each one only whether invoking it throws. -/

/-- Render a `Persona` the way the TypeScript string union spells it. -/
def personaStr : Persona → String
  | .tech_lead => "tech_lead"
  | .product_engineer => "product_engineer"
  | .qa_engineer => "qa_engineer"
  | .devops_specialist => "devops_specialist"
  | .doc_specialist => "doc_specialist"
  | .code_reviewer => "code_reviewer"

/-- The `toAgent` field of `AgentMessage`: one role or a role list. -/
inductive Dest where
  | one (p : Persona)
  | many (ps : List Persona)
deriving DecidableEq, Repr

/-- `MessageType` from `src/interfaces/agent.interface.ts`. -/
inductive MsgType where
  | TASK
  | QUERY
  | RESPONSE
  | CRITIQUE
deriving DecidableEq, Repr

/-- An `AgentMessage` (payload abstracted to a string). -/
structure AgentMsg where
  fromAgent : Persona
  toAgent : Dest
  messageType : MsgType
  payload : String
  priority : Priority
deriving DecidableEq, Repr

/-- `getChannelName`: `agent:multicast` for a role-list destination,
otherwise `agent:<role>`. -/
def getChannelName (m : AgentMsg) : String :=
  match m.toAgent with
  | .many _ => "agent:multicast"
  | .one p => "agent:" ++ personaStr p

/-- Fuelled matcher for the regex `matchPattern` builds from a
subscription pattern: `*` becomes `[^:]*` (any run, possibly empty, of
non-colon characters), `?` becomes `.` (exactly one arbitrary
character), everything else is literal, anchored at both ends.  The
fuel only drives structural recursion; `pat.length + s.length + 1`
always suffices because each call shrinks `pat.length + s.length`. -/
def matchCharsF : Nat → List Char → List Char → Bool
  | 0, _, _ => false
  | _ + 1, [], [] => true
  | _ + 1, [], _ :: _ => false
  | n + 1, '*' :: ps, [] => matchCharsF n ps []
  | n + 1, '*' :: ps, c :: cs =>
      matchCharsF n ps (c :: cs) || (decide (c ≠ ':') && matchCharsF n ('*' :: ps) cs)
  | _ + 1, '?' :: _, [] => false
  | n + 1, '?' :: ps, _ :: cs => matchCharsF n ps cs
  | _ + 1, _ :: _, [] => false
  | n + 1, p :: ps, c :: cs => decide (p = c) && matchCharsF n ps cs

/-- `matchPattern(channel, pattern)` from the source (lines 292–297):
glob match of its *first* argument against the regex derived from the
*second*.  `handleIncomingMessage` passes the fired Redis pattern as
`channel`. -/
def matchPattern (channel pattern : String) : Bool :=
  matchCharsF (pattern.length + channel.length + 1) pattern.toList channel.toList

/-- Fuelled matcher for Redis psubscribe glob patterns, modelled from
Redis's documented semantics: `*` matches any run of characters
(colons included), `?` exactly one character, others literal. -/
def redisCharsF : Nat → List Char → List Char → Bool
  | 0, _, _ => false
  | _ + 1, [], [] => true
  | _ + 1, [], _ :: _ => false
  | n + 1, '*' :: ps, [] => redisCharsF n ps []
  | n + 1, '*' :: ps, c :: cs =>
      redisCharsF n ps (c :: cs) || redisCharsF n ('*' :: ps) cs
  | _ + 1, '?' :: _, [] => false
  | n + 1, '?' :: ps, _ :: cs => redisCharsF n ps cs
  | _ + 1, _ :: _, [] => false
  | n + 1, p :: ps, c :: cs => decide (p = c) && redisCharsF n ps cs

/-- Whether Redis fires psubscribed pattern `pattern` for a message
published on `channel`. -/
def redisMatch (pattern channel : String) : Bool :=
  redisCharsF (pattern.length + channel.length + 1) pattern.toList channel.toList

/-- A registered async handler (`registerHandler`); `throws` records
whether awaiting `handler.handler(message)` rejects. -/
structure Handler where
  pattern : String
  throws : Bool
deriving DecidableEq, Repr

/-- A `MessageSubscription`; `throws` records whether the callback
throws when invoked. -/
structure Subscription where
  agentId : String
  patterns : List String
  throws : Bool
deriving DecidableEq, Repr

/-- The bus's mutable state.  Handler/subscription ids are modelled as
the consecutive numbers `nextId` hands out (uuids in the source — only
their identity matters).  `redisPatterns` is the subscriber
connection's psubscription set in insertion order (a pattern is held at
most once). -/
structure MessageBus where
  messageHandlers : List (Nat × Handler)
  subscriptions : List (Nat × Subscription)
  messageHistory : List AgentMsg
  redisPatterns : List String
  nextId : Nat
deriving DecidableEq, Repr

/-- `maxHistorySize` (line 26 of the source). -/
def maxHistorySize : Nat := 1000

/-- The bus after `setupRedisSubscriptions`: no handlers, no
subscriptions, one psubscribed pattern `agent:*`. -/
def initBus : MessageBus :=
  { messageHandlers := [], subscriptions := [], messageHistory := [],
    redisPatterns := ["agent:*"], nextId := 0 }

/-- Redis `psubscribe`: adds the pattern to the connection's set
(adding an already-held pattern is a no-op). -/
def psubscribeOne (pats : List String) (p : String) : List String :=
  if p ∈ pats then pats else pats ++ [p]

/-- `subscribe(agentId, patterns, callback)`: stores the subscription
under a fresh id and psubscribes each pattern. -/
def subscribe (b : MessageBus) (agentId : String) (patterns : List String)
    (cbThrows : Bool) : Nat × MessageBus :=
  (b.nextId,
   { b with
     subscriptions :=
       b.subscriptions ++ [(b.nextId, { agentId, patterns, throws := cbThrows })],
     redisPatterns := patterns.foldl psubscribeOne b.redisPatterns,
     nextId := b.nextId + 1 })

/-- `registerHandler(pattern, handler)`. -/
def registerHandler (b : MessageBus) (pattern : String) (hThrows : Bool) :
    Nat × MessageBus :=
  (b.nextId,
   { b with
     messageHandlers := b.messageHandlers ++ [(b.nextId, { pattern, throws := hThrows })],
     nextId := b.nextId + 1 })

/-- Errors of the bus surface.  The embedding gives fallible operations
an `Except` result type; an operation whose source body contains no
`throw` always returns `.ok`. -/
inductive BusErr where
  | notFound
deriving DecidableEq, Repr

/-- `unsubscribe(subscriptionId)` (lines 104–112): if the id is known,
punsubscribe each of its patterns (removing them from the connection's
set) and delete the subscription; an unknown id falls through the
`if (subscription)` guard and the method returns silently — the source
contains no throw. -/
def unsubscribe (b : MessageBus) (sid : Nat) : Except BusErr MessageBus :=
  match b.subscriptions.lookup sid with
  | some sub =>
      .ok { b with
            redisPatterns :=
              sub.patterns.foldl (fun pats p => pats.filter (fun q => q ≠ p))
                b.redisPatterns,
            subscriptions := b.subscriptions.filter (fun e => e.1 ≠ sid) }
  | none => .ok b

/-- Observable events of one message delivery: handler invocations,
handler exceptions caught by the per-handler `try/catch`, subscription
callback invocations, and the `pmessage` listener's outer catch firing
(`Error processing message`). -/
inductive BusEvent where
  | handlerRun (hid : Nat)
  | handlerErrorLogged (hid : Nat)
  | subRun (sid : Nat)
  | processErrorLogged
deriving DecidableEq, Repr

/-- The subscription loop of `handleIncomingMessage` (lines 265–269):
each subscription whose pattern list matches the fired pattern has its
callback invoked, **without** a `try/catch` — a throwing callback
propagates to the `pmessage` listener's outer catch, so the remaining
subscriptions are skipped. -/
def runSubscriptionLoop : List (Nat × Subscription) → String → List BusEvent
  | [], _ => []
  | (sid, s) :: rest, pat =>
    if s.patterns.any (fun p => matchPattern pat p) then
      if s.throws then [.subRun sid, .processErrorLogged]
      else .subRun sid :: runSubscriptionLoop rest pat
    else runSubscriptionLoop rest pat

/-- `handleIncomingMessage(message, pattern)` (lines 251–276): first
every registered handler whose pattern matches the fired pattern runs
inside a `try/catch` (an exception is logged and the loop continues),
then the subscription loop runs. -/
def handleIncomingMessage (b : MessageBus) (firedPattern : String) : List BusEvent :=
  (b.messageHandlers.flatMap fun e =>
    if matchPattern firedPattern e.2.pattern then
      if e.2.throws then [.handlerRun e.1, .handlerErrorLogged e.1]
      else [.handlerRun e.1]
    else []) ++
  runSubscriptionLoop b.subscriptions firedPattern

/-- `addToHistory` (lines 285–290): push, drop the oldest past the cap. -/
def addToHistory (b : MessageBus) (m : AgentMsg) : MessageBus :=
  let h := b.messageHistory ++ [m]
  { b with messageHistory := if h.length > maxHistorySize then h.drop 1 else h }

/-- `publish(message)`: compute the channel, let Redis fire one
`pmessage` event per distinct psubscribed pattern matching the channel
(in the connection's insertion order), run `handleIncomingMessage` for
each, and record the message in the history. -/
def publish (b : MessageBus) (m : AgentMsg) : MessageBus × List BusEvent :=
  let channel := getChannelName m
  let fired := b.redisPatterns.filter (fun p => redisMatch p channel)
  (addToHistory b m, fired.flatMap (fun p => handleIncomingMessage b p))

/-- How many times delivery `events` invoked subscription `sid`. -/
def subRunCount (events : List BusEvent) (sid : Nat) : Nat :=
  events.countP fun e => decide (e = .subRun sid)

/-- The handler ids a delivery invoked, in order. -/
def handlerRunsOf (events : List BusEvent) : List Nat :=
  events.filterMap fun e => match e with | .handlerRun h => some h | _ => none

/-- The subscription ids a delivery invoked, in order. -/
def subRunsOf (events : List BusEvent) : List Nat :=
  events.filterMap fun e => match e with | .subRun s => some s | _ => none

/-- The subscription callbacks a delivery of `firedPattern` is expected
to reach, phrased independently of the loop: among the matching
subscriptions in registration order, all of them up to and including
the first whose callback throws. -/
def expectedSubRuns (subs : List (Nat × Subscription)) (pat : String) : List Nat :=
  let ms := subs.filter fun e => e.2.patterns.any fun p => matchPattern pat p
  (ms.takeWhile fun e => !e.2.throws).map Prod.fst ++
    (match ms.dropWhile (fun e => !e.2.throws) with
     | [] => []
     | t :: _ => [t.1])

/-- A message addressed to `qa_engineer`, published on channel
`agent:qa_engineer`. -/
def msgToQa : AgentMsg :=
  { fromAgent := Persona.tech_lead, toAgent := Dest.one Persona.qa_engineer,
    messageType := MsgType.QUERY, payload := "q", priority := Priority.MEDIUM }

/-- Fixture for C4's counterexample: two live subscriptions on one bus,
id 0 with the wildcard pattern `agent:*` and id 1 with the literal
pattern `agent:qa_engineer`; neither callback throws. -/
def c4Bus : MessageBus :=
  (subscribe (subscribe initBus "a1" ["agent:*"] false).2
    "a2" ["agent:qa_engineer"] false).2

/-- Fixture for C4's witness: a single subscription, id 0, with the
wildcard pattern `agent:*`. -/
def c4SoloBus : MessageBus :=
  (subscribe initBus "a1" ["agent:*"] false).2

/-- Fixture for C7's counterexample: subscription 0's callback throws,
subscription 1's does not; both match `agent:*` deliveries. -/
def c7Bus : MessageBus :=
  (subscribe (subscribe initBus "a1" ["agent:*"] true).2
    "a2" ["agent:*"] false).2

/-- Fixture for C10: a bus holding exactly one subscription, id 0. -/
def c10Bus : MessageBus :=
  (subscribe initBus "a1" ["agent:qa_engineer"] false).2

/-! ### Delivery-count lemmas -/

theorem subRunCount_append (a b : List BusEvent) (sid : Nat) :
    subRunCount (a ++ b) sid = subRunCount a sid + subRunCount b sid := by
  simp [subRunCount, List.countP_append]

theorem subRunCount_handlerPart (hs : List (Nat × Handler)) (pat : String) (sid : Nat) :
    subRunCount
      (hs.flatMap fun e =>
        if matchPattern pat e.2.pattern then
          if e.2.throws then [.handlerRun e.1, .handlerErrorLogged e.1]
          else [.handlerRun e.1]
        else []) sid = 0 := by
  rw [subRunCount, List.countP_eq_zero]
  intro a ha
  rw [List.mem_flatMap] at ha
  obtain ⟨e, -, hmem⟩ := ha
  by_cases h1 : matchPattern pat e.2.pattern <;>
    by_cases h2 : e.2.throws <;>
      simp [h1, h2] at hmem <;>
        first
          | (rcases hmem with h | h <;> simp [h])
          | simp [hmem]

theorem subRunCount_cons (a : BusEvent) (l : List BusEvent) (sid : Nat) :
    subRunCount (a :: l) sid =
      subRunCount l sid + (if a = .subRun sid then 1 else 0) := by
  by_cases h : a = .subRun sid <;> simp [subRunCount, List.countP_cons, h]

/-- A loop over subscriptions none of whose ids is `sid` never invokes
`sid`. -/
theorem runSubscriptionLoop_count_notmem (subs : List (Nat × Subscription))
    (pat : String) (sid : Nat) (h : sid ∉ subs.map Prod.fst) :
    subRunCount (runSubscriptionLoop subs pat) sid = 0 := by
  induction subs with
  | nil => rfl
  | cons e rest ih =>
    simp only [List.map_cons, List.mem_cons, not_or] at h
    obtain ⟨hne, hrest⟩ := h
    obtain ⟨k, s⟩ := e
    have h0 := ih hrest
    have hks : BusEvent.subRun k ≠ BusEvent.subRun sid := by
      intro hc; injection hc with hc; exact hne hc.symm
    simp only [runSubscriptionLoop]
    by_cases hm : (s.patterns.any fun p => matchPattern pat p) = true
    · rw [if_pos hm]
      by_cases ht : s.throws = true
      · rw [if_pos ht]
        simp [subRunCount, List.countP_cons, hks]
      · rw [if_neg ht, subRunCount_cons, if_neg hks, h0]
    · rw [if_neg hm]; exact h0

/-- When no callback throws, the loop invokes subscription `sid`
exactly once if its pattern list matches the fired pattern, else not at
all. -/
theorem runSubscriptionLoop_count (subs : List (Nat × Subscription))
    (pat : String) (sid : Nat) (sub : Subscription)
    (hl : subs.lookup sid = some sub)
    (hnodup : (subs.map Prod.fst).Nodup)
    (hnothrow : ∀ e ∈ subs, e.2.throws = false) :
    subRunCount (runSubscriptionLoop subs pat) sid =
      if sub.patterns.any (fun p => matchPattern pat p) then 1 else 0 := by
  induction subs with
  | nil => simp [List.lookup] at hl
  | cons e rest ih =>
    obtain ⟨k, s⟩ := e
    have hthrow : s.throws = false := hnothrow (k, s) (List.mem_cons_self _ _)
    simp only [List.map_cons, List.nodup_cons] at hnodup
    by_cases hk : sid = k
    · subst hk
      simp only [List.lookup, beq_self_eq_true] at hl
      have hsub : s = sub := by injection hl
      subst hsub
      simp only [runSubscriptionLoop, hthrow, Bool.false_eq_true, if_false]
      have h0 := runSubscriptionLoop_count_notmem rest pat sid hnodup.1
      by_cases hm : (s.patterns.any fun p => matchPattern pat p) = true
      · rw [if_pos hm, if_pos hm, subRunCount_cons, if_pos rfl, h0]
      · rw [if_neg hm, if_neg hm, h0]
    · have hl' : rest.lookup sid = some sub := by
        have hbe : (sid == k) = false := beq_eq_false_iff_ne.mpr hk
        simpa [List.lookup, hbe] using hl
      have ihr := ih hl' hnodup.2 (fun x hx => hnothrow x (List.mem_cons_of_mem _ hx))
      have hks : BusEvent.subRun k ≠ BusEvent.subRun sid := by
        intro hc; injection hc with hc; exact hk hc.symm
      simp only [runSubscriptionLoop, hthrow, Bool.false_eq_true, if_false]
      by_cases hm : (s.patterns.any fun p => matchPattern pat p) = true
      · rw [if_pos hm, subRunCount_cons, if_neg hks, ihr]; omega
      · rw [if_neg hm, ihr]

theorem subRunCount_handleIncoming (b : MessageBus) (pat : String)
    (sid : Nat) (sub : Subscription)
    (hl : b.subscriptions.lookup sid = some sub)
    (hnodup : (b.subscriptions.map Prod.fst).Nodup)
    (hnothrow : ∀ e ∈ b.subscriptions, e.2.throws = false) :
    subRunCount (handleIncomingMessage b pat) sid =
      if sub.patterns.any (fun p => matchPattern pat p) then 1 else 0 := by
  rw [handleIncomingMessage, subRunCount_append, subRunCount_handlerPart,
    runSubscriptionLoop_count b.subscriptions pat sid sub hl hnodup hnothrow]
  omega

theorem subRunCount_flatMap (b : MessageBus) (pats : List String)
    (sid : Nat) (sub : Subscription)
    (hl : b.subscriptions.lookup sid = some sub)
    (hnodup : (b.subscriptions.map Prod.fst).Nodup)
    (hnothrow : ∀ e ∈ b.subscriptions, e.2.throws = false) :
    subRunCount (pats.flatMap fun p => handleIncomingMessage b p) sid =
      pats.countP fun p => sub.patterns.any fun q => matchPattern p q := by
  induction pats with
  | nil => rfl
  | cons p ps ih =>
    rw [List.flatMap_cons, subRunCount_append,
      subRunCount_handleIncoming b p sid sub hl hnodup hnothrow, ih,
      List.countP_cons]
    by_cases hm : (sub.patterns.any fun q => matchPattern p q) = true
    · simp only [hm, if_true]
      omega
    · simp only [hm, if_false]
      omega

/-! ### Delivery-order lemmas (for C7) -/

theorem handlerRunsOf_append (a b : List BusEvent) :
    handlerRunsOf (a ++ b) = handlerRunsOf a ++ handlerRunsOf b := by
  simp [handlerRunsOf, List.filterMap_append]

theorem subRunsOf_append (a b : List BusEvent) :
    subRunsOf (a ++ b) = subRunsOf a ++ subRunsOf b := by
  simp [subRunsOf, List.filterMap_append]

/-- The handler loop of `handleIncomingMessage` runs every matching
handler exactly once, in registration order, whether or not any of them
throws. -/
theorem handlerRunsOf_handlerPart (hs : List (Nat × Handler)) (pat : String) :
    handlerRunsOf
      (hs.flatMap fun e =>
        if matchPattern pat e.2.pattern then
          if e.2.throws then [.handlerRun e.1, .handlerErrorLogged e.1]
          else [.handlerRun e.1]
        else []) =
      (hs.filter fun e => matchPattern pat e.2.pattern).map Prod.fst := by
  induction hs with
  | nil => rfl
  | cons e rest ih =>
    rw [List.flatMap_cons, handlerRunsOf_append, ih]
    by_cases hm : matchPattern pat e.2.pattern = true
    · by_cases ht : e.2.throws = true <;>
        simp [hm, ht, handlerRunsOf, List.filter_cons]
    · simp [hm, handlerRunsOf, List.filter_cons]

theorem subRunsOf_handlerPart (hs : List (Nat × Handler)) (pat : String) :
    subRunsOf
      (hs.flatMap fun e =>
        if matchPattern pat e.2.pattern then
          if e.2.throws then [.handlerRun e.1, .handlerErrorLogged e.1]
          else [.handlerRun e.1]
        else []) = [] := by
  induction hs with
  | nil => rfl
  | cons e rest ih =>
    rw [List.flatMap_cons, subRunsOf_append, ih]
    by_cases hm : matchPattern pat e.2.pattern = true
    · by_cases ht : e.2.throws = true <;> simp [hm, ht, subRunsOf]
    · simp [hm, subRunsOf]

theorem handlerRunsOf_subLoop (subs : List (Nat × Subscription)) (pat : String) :
    handlerRunsOf (runSubscriptionLoop subs pat) = [] := by
  induction subs with
  | nil => rfl
  | cons e rest ih =>
    obtain ⟨k, s⟩ := e
    simp only [runSubscriptionLoop]
    by_cases hm : (s.patterns.any fun p => matchPattern pat p) = true
    · rw [if_pos hm]
      by_cases ht : s.throws = true
      · rw [if_pos ht]; rfl
      · rw [if_neg ht]
        simpa [handlerRunsOf] using ih
    · rw [if_neg hm]; exact ih

/-- The subscription loop reaches exactly the matching subscriptions up
to and including the first one whose callback throws. -/
theorem subRunsOf_subLoop (subs : List (Nat × Subscription)) (pat : String) :
    subRunsOf (runSubscriptionLoop subs pat) = expectedSubRuns subs pat := by
  induction subs with
  | nil => rfl
  | cons e rest ih =>
    obtain ⟨k, s⟩ := e
    simp only [runSubscriptionLoop, expectedSubRuns]
    by_cases hm : (s.patterns.any fun p => matchPattern pat p) = true
    · rw [if_pos hm, List.filter_cons_of_pos (by simpa using hm)]
      by_cases ht : s.throws = true
      · rw [List.takeWhile_cons, List.dropWhile_cons]
        simp [ht, subRunsOf]
      · rw [List.takeWhile_cons, List.dropWhile_cons]
        simp only [ht, Bool.not_false, if_true]
        simp only [expectedSubRuns] at ih
        simp [subRunsOf] at ih ⊢
        exact ih
    · rw [if_neg hm, List.filter_cons_of_neg (by simpa using hm)]
      simpa [expectedSubRuns] using ih

/-! ## `requestResponse` (message-bus lines 183–226)

`requestResponse` creates a fresh reply channel, subscribes the Redis
subscriber to it, starts a `setTimeout(timeout)` timer whose callback
unsubscribes and rejects with `Request timeout after <t>ms`, and
installs a `message` listener that, on a message for the reply channel,
calls `clearTimeout`, unsubscribes and resolves with the payload.

The embedding is a state machine over the chronological sequence of
the two kinds of events that can reach this logic: the timer firing
(which `setTimeout` schedules at `timeoutMs` and `clearTimeout`
cancels) and a message arriving on a subscribed channel.  A promise
settles at most once: `resolve`/`reject` after settlement are no-ops. -/

/-- The mutable state of one in-flight `requestResponse` call. -/
structure ReqState where
  settled : Option (Except String String)
  timerActive : Bool
  subscribed : Bool
deriving DecidableEq, Repr

/-- An event delivered to the `requestResponse` promise executor. -/
inductive ReqEvent where
  | timerFired
  | message (channel : String) (payload : String)
deriving DecidableEq, Repr

/-- The rejection message built in the `setTimeout` callback. -/
def timeoutMessage (t : Nat) : String :=
  "Request timeout after " ++ toString t ++ "ms"

/-- State right after `requestResponse` subscribes and arms the timer. -/
def reqInit : ReqState :=
  { settled := none, timerActive := true, subscribed := true }

/-- One event step.  The timer callback unsubscribes and rejects; the
`message` listener checks the channel, clears the timer, unsubscribes
and resolves.  A cleared timer never fires; an unsubscribed channel
delivers no messages; a settled promise ignores both. -/
def reqStep (respChannel : String) (t : Nat) (s : ReqState) : ReqEvent → ReqState
  | .timerFired =>
    if s.timerActive then
      { settled := if s.settled.isSome then s.settled
                   else some (.error (timeoutMessage t)),
        timerActive := false, subscribed := false }
    else s
  | .message c payload =>
    if s.subscribed && (c == respChannel) then
      { settled := if s.settled.isSome then s.settled else some (.ok payload),
        timerActive := false, subscribed := false }
    else s

/-- Run the promise executor over a chronological event sequence. -/
def reqRun (respChannel : String) (t : Nat) (evs : List ReqEvent) : ReqState :=
  evs.foldl (reqStep respChannel t) reqInit

theorem reqStep_fixed (respChannel : String) (t : Nat) (s : ReqState)
    (ht : s.timerActive = false) (hs : s.subscribed = false) (e : ReqEvent) :
    reqStep respChannel t s e = s := by
  cases e with
  | timerFired => simp [reqStep, ht]
  | message c payload => simp [reqStep, hs]

theorem reqRun_fixed (respChannel : String) (t : Nat) (s : ReqState)
    (ht : s.timerActive = false) (hs : s.subscribed = false) (evs : List ReqEvent) :
    evs.foldl (reqStep respChannel t) s = s := by
  induction evs with
  | nil => rfl
  | cons e rest ih => rw [List.foldl_cons, reqStep_fixed respChannel t s ht hs e]; exact ih

/-! ## Orchestrator (`OrchestratorService`, `src/unnamed/part_011`)

The orchestrator holds `currentPhase`, an `activeAgents` status map, a
`taskQueue` array and a private `agents` map of `BaseAgent` instances.
Only the pieces `transitionPhase` touches are embedded.  Two source
facts the embedding keeps visible:

* `checkExitCriterion` is an async stub that always returns `true` in
  the shipped source; the embedding keeps the criterion evaluator as a
  parameter `crit` so that `validatePhaseTransition`'s control flow
  (first failing criterion aborts) is not vacuous.  `fun _ => true`
  recovers the shipped behaviour.
* `waitForTaskCompletion` polls `this.taskQueue` forever until it is
  empty, and nothing inside `transitionPhase` drains it, so a
  non-empty queue never returns; the embedding returns `none` for that
  diverging case.

`gracefullyStopAgent` waits up to 30 s for the agent to go idle and
then unconditionally awaits `agent.shutdown()`, which sets the agent's
state to `idle`; the bounded wait always terminates, so its effect is
`state := idle`. -/

/-- An `AgentStatus` record as produced by `BaseAgent.reportStatus`.
`currentLoadX10` is `Math.min(taskWeight / 10, 1.0)` scaled by ten to
stay in `Nat`. -/
structure AgentStatusR where
  state : AgentLifeState
  currentLoadX10 : Nat
  availability : Bool
  activeTaskCount : Nat
deriving DecidableEq, Repr

/-- The `BaseAgent` fields the orchestrator's transitions read or
write: lifecycle state and the priorities of the currently assigned
tasks (which `calculateCurrentLoad` weighs). -/
structure AgentInst where
  state : AgentLifeState
  currentTasks : List Priority
deriving DecidableEq, Repr

/-- The per-priority load weights of `calculateCurrentLoad` in
`base-agent.ts` (LOW 1, MEDIUM 2, HIGH 3, CRITICAL 4). -/
def loadWeight : Priority → Nat
  | .LOW => 1
  | .MEDIUM => 2
  | .HIGH => 3
  | .CRITICAL => 4

/-- `calculateCurrentLoad`, scaled by ten:
`min(Σ loadWeight, 10) = 10 · min(taskWeight/10, 1.0)`. -/
def calculateCurrentLoad (a : AgentInst) : Nat :=
  min (a.currentTasks.foldl (fun s p => s + loadWeight p) 0) 10

/-- `isAvailable` from `base-agent.ts`. -/
def isAvailable (a : AgentInst) : Bool :=
  a.state == .idle && a.currentTasks.length < 3

/-- `reportStatus` from `base-agent.ts` (identity fields omitted). -/
def reportStatus (a : AgentInst) : AgentStatusR :=
  { state := a.state, currentLoadX10 := calculateCurrentLoad a,
    availability := isAvailable a, activeTaskCount := a.currentTasks.length }

/-- A `PhaseConfig`. -/
structure PhaseConfigR where
  activeAgents : List Persona
  exitCriteria : List String
  deliverables : List String
deriving DecidableEq, Repr

/-- The `phaseConfigs` map built in `initializePhaseConfigs`,
`getPhaseExitCriteria` and `getPhaseDeliverables`, verbatim from the
source tables.  The source populates an entry for all six phases, so
`phaseConfigs.get` never misses and the map is total here. -/
def phaseConfigs : Phase → PhaseConfigR
  | .planning =>
    { activeAgents := [.tech_lead, .product_engineer],
      exitCriteria := ["requirements_documented", "architecture_defined"],
      deliverables := ["requirements.md", "architecture.md"] }
  | .scaffold =>
    { activeAgents := [.tech_lead, .devops_specialist],
      exitCriteria := ["project_structure_created", "ci_cd_configured"],
      deliverables := ["package.json", "tsconfig.json", ".github/workflows"] }
  | .feature =>
    { activeAgents := [.product_engineer, .code_reviewer],
      exitCriteria := ["features_implemented", "unit_tests_passing"],
      deliverables := ["src/", "tests/"] }
  | .test =>
    { activeAgents := [.qa_engineer, .product_engineer],
      exitCriteria := ["all_tests_passing", "coverage_target_met"],
      deliverables := ["test-report.html", "coverage-report.html"] }
  | .review =>
    { activeAgents := [.code_reviewer, .tech_lead, .qa_engineer],
      exitCriteria := ["code_review_approved", "security_scan_passed"],
      deliverables := ["review-report.md", "security-report.md"] }
  | .deploy =>
    { activeAgents := [.devops_specialist, .tech_lead],
      exitCriteria := ["deployment_successful", "health_checks_passing"],
      deliverables := ["deployment-manifest.yml", "release-notes.md"] }

/-- The source's `checkExitCriterion` stub: always `true`. -/
def checkExitCriterionStub : String → Bool := fun _ => true

/-- JS `Map.set` on an insertion-ordered association list: an existing
key keeps its position, a new key is appended. -/
def alSet {κ β : Type} [DecidableEq κ] (l : List (κ × β)) (k : κ) (v : β) :
    List (κ × β) :=
  if l.any (fun e => e.1 = k) then
    l.map fun e => if e.1 = k then (k, v) else e
  else l ++ [(k, v)]

/-- JS `Map.delete`. -/
def alErase {κ β : Type} [DecidableEq κ] (l : List (κ × β)) (k : κ) :
    List (κ × β) :=
  l.filter fun e => e.1 ≠ k

/-- The orchestrator state `transitionPhase` touches. -/
structure Orch where
  currentPhase : Phase
  activeAgents : List (Persona × AgentStatusR)
  taskQueue : List String
  agents : List (Persona × AgentInst)
deriving DecidableEq, Repr

/-- `deactivateCurrentAgents`: every registered agent that is not idle
is gracefully stopped (net effect `state := idle`), and every
registered persona is removed from `activeAgents`. -/
def deactivateCurrentAgents (o : Orch) : Orch :=
  { o with
    agents := o.agents.map fun e =>
      (e.1, if e.2.state ≠ .idle then { e.2 with state := .idle } else e.2),
    activeAgents := o.agents.foldl (fun acc e => alErase acc e.1) o.activeAgents }

/-- `activatePhaseAgents`: for each persona of the new phase,
`createOrGetAgent` returns the registered instance or throws
`Agent implementation not found`; on success the agent is initialized
(`state := idle`) and its fresh status stored in `activeAgents`.  The
first component carries the thrown error, the second the state reached
so far (a JS exception leaves prior mutations in place). -/
def activatePhaseAgents : Orch → List Persona → Option String × Orch
  | o, [] => (none, o)
  | o, p :: rest =>
    match o.agents.lookup p with
    | none => (some ("Agent implementation not found for persona: " ++ personaStr p), o)
    | some ag =>
      let ag' : AgentInst := { ag with state := .idle }
      activatePhaseAgents
        { o with agents := alSet o.agents p ag',
                 activeAgents := alSet o.activeAgents p (reportStatus ag') }
        rest

/-- `initializePhase(phase)` (lines 55–71): sets `currentPhase` first,
then deactivates, then activates the new phase's agents, then emits
`phase:initialized`.  The emitted orchestrator events are returned as
a trace. -/
def initializePhase (o : Orch) (ph : Phase) : Option String × Orch × List String :=
  let o1 := deactivateCurrentAgents { o with currentPhase := ph }
  match activatePhaseAgents o1 (phaseConfigs ph).activeAgents with
  | (some e, o2) => (some e, o2, [])
  | (none, o2) => (none, o2, ["phase:initialized"])

/-- `transitionPhase(toPhase)` (lines 73–100), with the criterion
evaluator as a parameter (see the section comment).  Returns `none`
when `waitForTaskCompletion` diverges on a non-empty queue; otherwise
the result (`.error` for a propagated exception), the reached state
and the emitted orchestrator event names in order. -/
def transitionPhase (o : Orch) (toPhase : Phase) (crit : String → Bool) :
    Option (Except String Bool × Orch × List String) :=
  if !((phaseConfigs o.currentPhase).exitCriteria.all crit) then
    some (.ok false, o, [])
  else if o.taskQueue.isEmpty then
    let ev1 := ["phase:report:generated", "phase:data:archived"]
    match initializePhase o toPhase with
    | (some e, o2, evI) => some (.error e, o2, ev1 ++ evI)
    | (none, o2, evI) => some (.ok true, o2, ev1 ++ evI ++ ["phase:transitioned"])
  else
    none

/-- Substring test (used to state that no emitted event is a snapshot
event). -/
def containsSub (s sub : String) : Bool :=
  (List.range (s.length + 1)).any fun i => sub.toList.isPrefixOf (s.toList.drop i)

/-- Fixture for C2: the orchestrator in phase `planning` with all six
agents registered and idle, the planning personas active, and an empty
task queue. -/
def c2Orch : Orch :=
  { currentPhase := .planning,
    activeAgents :=
      [(Persona.tech_lead, reportStatus { state := .idle, currentTasks := [] }),
       (Persona.product_engineer, reportStatus { state := .idle, currentTasks := [] })],
    taskQueue := [],
    agents := roster.map fun p => (p, { state := .idle, currentTasks := [] }) }

/-- The concrete run backing C2's counterexample. -/
def c2Run : Option (Except String Bool × Orch × List String) :=
  transitionPhase c2Orch Phase.scaffold checkExitCriterionStub

/-! ### Orchestrator lemmas -/

theorem lookup_map_values_isSome {κ β : Type} [DecidableEq κ]
    (l : List (κ × β)) (f : κ × β → β) (p : κ) :
    ((l.map fun e => (e.1, f e)).lookup p).isSome = (l.lookup p).isSome := by
  induction l with
  | nil => rfl
  | cons e rest ih =>
    simp only [List.map_cons, List.lookup]
    cases hpe : p == e.1 <;> simp [ih]

theorem alSet_fst {κ β : Type} [DecidableEq κ] (e : κ × β) (k : κ) (v : β) :
    (if e.1 = k then (k, v) else e).1 = e.1 := by
  by_cases h : e.1 = k <;> simp [h]

theorem lookup_keys_congr {κ β : Type} [DecidableEq κ]
    (l l' : List (κ × β)) (h : l.map Prod.fst = l'.map Prod.fst) (p : κ) :
    (l.lookup p).isSome = (l'.lookup p).isSome := by
  induction l generalizing l' with
  | nil =>
    cases l' with
    | nil => rfl
    | cons e' rest' => simp at h
  | cons e rest ih =>
    cases l' with
    | nil => simp at h
    | cons e' rest' =>
      simp only [List.map_cons, List.cons.injEq] at h
      obtain ⟨h1, h2⟩ := h
      simp only [List.lookup, h1]
      cases hpe : p == e'.1
      · exact ih rest' h2
      · rfl

theorem alSet_keys {κ β : Type} [DecidableEq κ] (l : List (κ × β)) (k : κ) (v : β) :
    (l.map fun e => if e.1 = k then (k, v) else e).map Prod.fst = l.map Prod.fst := by
  induction l with
  | nil => rfl
  | cons e rest ih => simp [alSet_fst, ih]

theorem lookup_append_isSome {κ β : Type} [DecidableEq κ]
    (l1 l2 : List (κ × β)) (p : κ) :
    (List.lookup p (l1 ++ l2)).isSome =
      ((List.lookup p l1).isSome || (List.lookup p l2).isSome) := by
  induction l1 with
  | nil => simp [List.lookup]
  | cons e rest ih =>
    simp only [List.cons_append, List.lookup]
    cases hpe : p == e.1
    · exact ih
    · rfl

theorem alSet_lookup_isSome {κ β : Type} [DecidableEq κ]
    (l : List (κ × β)) (k p : κ) (v : β) (h : (l.lookup p).isSome) :
    ((alSet l k v).lookup p).isSome := by
  unfold alSet
  by_cases hany : (l.any fun e => decide (e.1 = k)) = true
  · rw [if_pos hany, lookup_keys_congr _ l (alSet_keys l k v) p]
    exact h
  · rw [if_neg hany, lookup_append_isSome]
    simp [h]

theorem activatePhaseAgents_ok : ∀ (ps : List Persona) (o : Orch),
    (∀ p ∈ ps, (o.agents.lookup p).isSome) →
    ∃ o', activatePhaseAgents o ps = (none, o') ∧
      o'.currentPhase = o.currentPhase ∧ o'.taskQueue = o.taskQueue := by
  intro ps
  induction ps with
  | nil => exact fun o _ => ⟨o, rfl, rfl, rfl⟩
  | cons p rest ih =>
    intro o h
    have hp := h p (List.mem_cons_self _ _)
    obtain ⟨ag, hag⟩ := Option.isSome_iff_exists.mp hp
    obtain ⟨o', ho', hphase, hqueue⟩ :=
      ih { o with agents := alSet o.agents p { ag with state := .idle },
                  activeAgents := alSet o.activeAgents p
                    (reportStatus { ag with state := .idle }) }
        (fun q hq => alSet_lookup_isSome _ _ _ _ (h q (List.mem_cons_of_mem _ hq)))
    refine ⟨o', ?_, hphase, hqueue⟩
    simp only [activatePhaseAgents, hag]
    exact ho'

/-! ## State manager (`StateManagerService`, `src/unnamed/part_013`)

The service keeps one mutable `SystemState` object graph: a root object
with scalar fields (`id`, `phase`, `timestamp`), a `Map` of
`AgentStateData` objects, and nested plain objects (each agent's
`memory.shortTerm` / `memory.longTerm` / `metrics`, and the root's
`globalContext`).  The claims against this service are about aliasing
(shallow vs deep copies), so the embedding gives every mutable
JavaScript object an explicit heap address; field reads and in-place
writes go through the heap, and object spread (`{ ...x }`) copies the
top-level fields — including the *addresses* of nested objects — into
a freshly allocated object, exactly as in JavaScript.

Representation choices, all noted against the source:
* property values (`any` in TS) are strings (`String`); the claims never
  inspect value internals, and all modelled writes store primitives;
* `currentTasks` arrays are plain lists inside the agent object: no
  modelled operation mutates a task array in place (the only `push`
  sits in the disabled `setupEventListeners`), so array identity is
  unobservable;
* `uuid`s and `Date`s are counters (`nextId`, `clock`);
* Redis persistence is kept only where the service later reads it
  back: `persistSnapshot` stores the *serialized* (pure) snapshot
  state under its id, and `restoreSnapshot` reads it from there; the
  write-only `persistAgentState` / `persistGlobalContext` /
  `saveState` calls are dropped. -/

/-! Heap addresses are plain `Nat`s and property values plain
`String`s (kept unaliased so that `omega` sees the arithmetic). -/

/-- The mutable fields of an `AgentStateData` object.  `memory` and
`metrics` are addresses of the nested objects. -/
structure AgentObj where
  persona : Persona
  state : AgentLifeState
  memory : Nat
  currentTasks : List String
  metrics : Nat
  lastUpdated : Nat
deriving DecidableEq, Repr

/-- The `memory` object `{ shortTerm, longTerm }` (two record addresses). -/
structure MemObj where
  shortTerm : Nat
  longTerm : Nat
deriving DecidableEq, Repr

/-- The root `SystemState` object; `agents` and `globalContext` are
addresses. -/
structure SysObj where
  id : Nat
  phase : Phase
  agents : Nat
  globalContext : Nat
  timestamp : Nat
deriving DecidableEq, Repr

/-- A heap object: a string-keyed record, a memory pair, an agent, the
agents `Map`, or the root. -/
inductive Obj where
  | record (r : List (String × String))
  | mem (m : MemObj)
  | agent (a : AgentObj)
  | amap (m : List (Persona × Nat))
  | sys (s : SysObj)
deriving DecidableEq, Repr

/-- The heap. -/
abbrev Heap := Nat → Option Obj

/-- Empty heap. -/
def hempty : Heap := fun _ => none

/-- In-place write. -/
def hset (h : Heap) (a : Nat) (o : Obj) : Heap :=
  fun x => if x = a then some o else h x

/-- A pure (heap-free) reading of one agent's state — what
`JSON.stringify` would see. -/
structure PureAgent where
  persona : Persona
  state : AgentLifeState
  shortTerm : List (String × String)
  longTerm : List (String × String)
  currentTasks : List String
  metrics : List (String × String)
  lastUpdated : Nat
deriving DecidableEq, Repr

/-- A pure reading of a whole `SystemState`. -/
structure PureState where
  id : Nat
  phase : Phase
  agents : List (Persona × PureAgent)
  globalContext : List (String × String)
  timestamp : Nat
deriving DecidableEq, Repr

/-- Read one agent object (with its nested records) out of the heap. -/
def viewAgent (h : Heap) (a : Nat) : Option PureAgent :=
  match h a with
  | some (.agent ao) =>
    match h ao.memory with
    | some (.mem mo) =>
      match h mo.shortTerm with
      | some (.record st) =>
        match h mo.longTerm with
        | some (.record lt) =>
          match h ao.metrics with
          | some (.record mt) =>
            some { persona := ao.persona, state := ao.state, shortTerm := st,
                   longTerm := lt, currentTasks := ao.currentTasks, metrics := mt,
                   lastUpdated := ao.lastUpdated }
          | _ => none
        | _ => none
      | _ => none
    | _ => none
  | _ => none

/-- Read every entry of an agents map. -/
def viewAgents (h : Heap) : List (Persona × Nat) → Option (List (Persona × PureAgent))
  | [] => some []
  | e :: rest =>
    match viewAgent h e.2, viewAgents h rest with
    | some pa, some pas => some ((e.1, pa) :: pas)
    | _, _ => none

/-- Read a whole `SystemState` object graph out of the heap. -/
def viewState (h : Heap) (a : Nat) : Option PureState :=
  match h a with
  | some (.sys so) =>
    match h so.agents with
    | some (.amap am) =>
      match h so.globalContext with
      | some (.record gc) =>
        match viewAgents h am with
        | some pas => some { id := so.id, phase := so.phase, agents := pas,
                             globalContext := gc, timestamp := so.timestamp }
        | none => none
      | _ => none
    | _ => none
  | _ => none

/-- The addresses one agent's object graph occupies. -/
def agentFootprint (h : Heap) (a : Nat) : List Nat :=
  a :: (match h a with
        | some (.agent ao) =>
          ao.memory :: ao.metrics ::
            (match h ao.memory with
             | some (.mem mo) => [mo.shortTerm, mo.longTerm]
             | _ => [])
        | _ => [])

/-- The addresses a `SystemState` object graph occupies. -/
def stateFootprint (h : Heap) (a : Nat) : List Nat :=
  a :: (match h a with
        | some (.sys so) =>
          so.agents :: so.globalContext ::
            (match h so.agents with
             | some (.amap am) => am.flatMap fun e => agentFootprint h e.2
             | _ => [])
        | _ => [])

/-! ### Frame lemmas: views and footprints only depend on the heap
restricted to the footprint. -/

theorem viewAgent_frame (h h' : Heap) (a : Nat)
    (hag : ∀ x ∈ agentFootprint h a, h' x = h x) :
    viewAgent h' a = viewAgent h a ∧ agentFootprint h' a = agentFootprint h a := by
  have ha : h' a = h a := hag a (by simp [agentFootprint])
  cases hcase : h a with
  | none => simp [viewAgent, agentFootprint, ha, hcase]
  | some o =>
    cases o with
    | agent ao =>
      have hmem : h' ao.memory = h ao.memory :=
        hag ao.memory (by simp [agentFootprint, hcase])
      have hmet : h' ao.metrics = h ao.metrics :=
        hag ao.metrics (by simp [agentFootprint, hcase])
      cases hmemo : h ao.memory with
      | none => simp [viewAgent, agentFootprint, ha, hcase, hmem, hmemo]
      | some om =>
        cases om with
        | mem mo =>
          have hst : h' mo.shortTerm = h mo.shortTerm :=
            hag mo.shortTerm (by simp [agentFootprint, hcase, hmemo])
          have hlt : h' mo.longTerm = h mo.longTerm :=
            hag mo.longTerm (by simp [agentFootprint, hcase, hmemo])
          constructor
          · simp only [viewAgent, ha, hcase, hmem, hmemo, hst, hlt, hmet]
          · simp only [agentFootprint, ha, hcase, hmem, hmemo]
        | record r => simp [viewAgent, agentFootprint, ha, hcase, hmem, hmemo]
        | agent a2 => simp [viewAgent, agentFootprint, ha, hcase, hmem, hmemo]
        | amap m2 => simp [viewAgent, agentFootprint, ha, hcase, hmem, hmemo]
        | sys s2 => simp [viewAgent, agentFootprint, ha, hcase, hmem, hmemo]
    | record r => simp [viewAgent, agentFootprint, ha, hcase]
    | mem m => simp [viewAgent, agentFootprint, ha, hcase]
    | amap m => simp [viewAgent, agentFootprint, ha, hcase]
    | sys s => simp [viewAgent, agentFootprint, ha, hcase]

theorem viewAgents_frame (h h' : Heap) (am : List (Persona × Nat))
    (hag : ∀ e ∈ am, ∀ x ∈ agentFootprint h e.2, h' x = h x) :
    viewAgents h' am = viewAgents h am ∧
      (am.flatMap fun e => agentFootprint h' e.2) =
        (am.flatMap fun e => agentFootprint h e.2) := by
  induction am with
  | nil => exact ⟨rfl, rfl⟩
  | cons e rest ih =>
    obtain ⟨hv, hf⟩ := viewAgent_frame h h' e.2 (hag e (List.mem_cons_self _ _))
    obtain ⟨hvs, hfs⟩ := ih fun e' he' => hag e' (List.mem_cons_of_mem _ he')
    constructor
    · simp only [viewAgents, hv, hvs]
    · simp only [List.flatMap_cons, hf, hfs]

theorem viewState_frame (h h' : Heap) (a : Nat)
    (hag : ∀ x ∈ stateFootprint h a, h' x = h x) :
    viewState h' a = viewState h a ∧ stateFootprint h' a = stateFootprint h a := by
  have ha : h' a = h a := hag a (by simp [stateFootprint])
  cases hcase : h a with
  | none => simp [viewState, stateFootprint, ha, hcase]
  | some o =>
    cases o with
    | sys so =>
      have hagn : h' so.agents = h so.agents :=
        hag so.agents (by simp [stateFootprint, hcase])
      have hgc : h' so.globalContext = h so.globalContext :=
        hag so.globalContext (by simp [stateFootprint, hcase])
      cases hamc : h so.agents with
      | none => simp [viewState, stateFootprint, ha, hcase, hagn, hgc, hamc]
      | some oa =>
        cases oa with
        | amap am =>
          have hinner : ∀ e ∈ am, ∀ x ∈ agentFootprint h e.2, h' x = h x := by
            intro e he x hx
            refine hag x ?_
            simp only [stateFootprint, hcase, hamc]
            refine List.mem_cons_of_mem _ (List.mem_cons_of_mem _ (List.mem_cons_of_mem _ ?_))
            exact List.mem_flatMap.mpr ⟨e, he, hx⟩
          obtain ⟨hvs, hfs⟩ := viewAgents_frame h h' am hinner
          constructor
          · simp only [viewState, ha, hcase, hagn, hamc, hgc]
            cases hgcc : h so.globalContext with
            | none => rfl
            | some og =>
              cases og with
              | record gc => simp only [hvs]
              | mem m => rfl
              | agent a2 => rfl
              | amap m2 => rfl
              | sys s2 => rfl
          · simp only [stateFootprint, ha, hcase, hagn, hamc, hfs]
        | record r => simp [viewState, stateFootprint, ha, hcase, hagn, hgc, hamc]
        | mem m => simp [viewState, stateFootprint, ha, hcase, hagn, hgc, hamc]
        | agent a2 => simp [viewState, stateFootprint, ha, hcase, hagn, hgc, hamc]
        | sys s2 => simp [viewState, stateFootprint, ha, hcase, hagn, hgc, hamc]
    | record r => simp [viewState, stateFootprint, ha, hcase]
    | mem m => simp [viewState, stateFootprint, ha, hcase]
    | agent a2 => simp [viewState, stateFootprint, ha, hcase]
    | amap m => simp [viewState, stateFootprint, ha, hcase]

/-- An entry of a viewable agents map has a viewable agent. -/
theorem viewAgents_mem_isSome (h : Heap) (e : Persona × Nat) :
    ∀ (am : List (Persona × Nat)) (pas : List (Persona × PureAgent)),
      viewAgents h am = some pas → e ∈ am → (viewAgent h e.2).isSome := by
  intro am
  induction am with
  | nil =>
    intro pas _ he
    simp at he
  | cons e0 rest ih =>
    intro pas hvas he
    simp only [viewAgents] at hvas
    cases hv0 : viewAgent h e0.2 with
    | none => rw [hv0] at hvas; simp at hvas
    | some pa0 =>
      cases hvr : viewAgents h rest with
      | none => rw [hv0, hvr] at hvas; simp at hvas
      | some pasr =>
        rcases List.mem_cons.mp he with heq | hrest
        · rw [heq]; simp [hv0]
        · exact ih pasr hvr hrest

/-- A viewable agent has record objects at all three nested slots. -/
theorem viewAgent_parts (h : Heap) (x : Nat) (ao : AgentObj) (mo : MemObj)
    (hac : h x = some (.agent ao)) (hmo : h ao.memory = some (.mem mo))
    (hva : (viewAgent h x).isSome) :
    (∃ st, h mo.shortTerm = some (.record st)) ∧
    (∃ lt, h mo.longTerm = some (.record lt)) ∧
    (∃ mt, h ao.metrics = some (.record mt)) := by
  simp only [viewAgent, hac, hmo] at hva
  cases hst : h mo.shortTerm with
  | none => rw [hst] at hva; simp at hva
  | some ost =>
    rw [hst] at hva
    cases ost with
    | record st =>
      cases hlt : h mo.longTerm with
      | none => rw [hlt] at hva; simp at hva
      | some olt =>
        rw [hlt] at hva
        cases olt with
        | record lt =>
          cases hmt : h ao.metrics with
          | none => rw [hmt] at hva; simp at hva
          | some omt =>
            rw [hmt] at hva
            cases omt with
            | record mt => exact ⟨⟨st, rfl⟩, ⟨lt, rfl⟩, ⟨mt, rfl⟩⟩
            | mem m => simp at hva
            | agent a2 => simp at hva
            | amap m2 => simp at hva
            | sys s2 => simp at hva
        | mem m => simp at hva
        | agent a2 => simp at hva
        | amap m2 => simp at hva
        | sys s2 => simp at hva
    | mem m => simp at hva
    | agent a2 => simp at hva
    | amap m2 => simp at hva
    | sys s2 => simp at hva

/-- Every footprint address of a viewable state is allocated. -/
theorem footprint_dom (h : Heap) (a : Nat) (hv : (viewState h a).isSome) :
    ∀ x ∈ stateFootprint h a, (h x).isSome := by
  intro x hx
  cases hcase : h a with
  | none => simp [viewState, hcase] at hv
  | some o =>
    cases o with
    | sys so =>
      cases hamc : h so.agents with
      | none => simp [viewState, hcase, hamc] at hv
      | some oa =>
        cases oa with
        | amap am =>
          cases hgcc : h so.globalContext with
          | none => simp [viewState, hcase, hamc, hgcc] at hv
          | some og =>
            cases og with
            | record gc =>
              simp only [stateFootprint, hcase, hamc, List.mem_cons] at hx
              rcases hx with rfl | rfl | rfl | hx
              · simp [hcase]
              · simp [hamc]
              · simp [hgcc]
              · rw [List.mem_flatMap] at hx
                obtain ⟨e, he, hxe⟩ := hx
                have hpas : ∃ pas, viewAgents h am = some pas := by
                  simp only [viewState, hcase, hamc, hgcc] at hv
                  cases hvas : viewAgents h am with
                  | none => rw [hvas] at hv; simp at hv
                  | some pas => exact ⟨pas, rfl⟩
                obtain ⟨pas, hvas⟩ := hpas
                have hva := viewAgents_mem_isSome h e am pas hvas he
                cases hac : h e.2 with
                | none => simp [viewAgent, hac] at hva
                | some oe =>
                  cases oe with
                  | agent ao =>
                    cases hmo : h ao.memory with
                    | none => simp [viewAgent, hac, hmo] at hva
                    | some om =>
                      cases om with
                      | mem mo =>
                        simp only [agentFootprint, hac, hmo, List.mem_cons] at hxe
                        obtain ⟨⟨st0, hpst⟩, ⟨lt0, hplt⟩, ⟨mt0, hpmt⟩⟩ :=
                          viewAgent_parts h e.2 ao mo hac hmo hva
                        rcases hxe with rfl | rfl | rfl | hxe
                        · simp [hac]
                        · simp [hmo]
                        · simp [hpmt]
                        · simp only [List.mem_cons, List.not_mem_nil, or_false] at hxe
                          rcases hxe with rfl | rfl
                          · simp [hpst]
                          · simp [hplt]
                      | record r => simp [viewAgent, hac, hmo] at hva
                      | agent a2 => simp [viewAgent, hac, hmo] at hva
                      | amap m2 => simp [viewAgent, hac, hmo] at hva
                      | sys s2 => simp [viewAgent, hac, hmo] at hva
                  | record r => simp [viewAgent, hac] at hva
                  | mem m => simp [viewAgent, hac] at hva
                  | amap m2 => simp [viewAgent, hac] at hva
                  | sys s2 => simp [viewAgent, hac] at hva
            | mem m => simp [viewState, hcase, hamc, hgcc] at hv
            | agent a2 => simp [viewState, hcase, hamc, hgcc] at hv
            | amap m2 => simp [viewState, hcase, hamc, hgcc] at hv
            | sys s2 => simp [viewState, hcase, hamc, hgcc] at hv
        | record r => simp [viewState, hcase, hamc] at hv
        | mem m => simp [viewState, hcase, hamc] at hv
        | agent a2 => simp [viewState, hcase, hamc] at hv
        | sys s2 => simp [viewState, hcase, hamc] at hv
    | record r => simp [viewState, hcase] at hv
    | mem m => simp [viewState, hcase] at hv
    | agent a2 => simp [viewState, hcase] at hv
    | amap m => simp [viewState, hcase] at hv

/-! ### The service state and its operations -/

/-- A `StateSnapshot` record as held in `stateHistory`: its
`systemState` field is the *address* of the deep-cloned object graph. -/
structure SnapRec where
  id : Nat
  systemState : Nat
  createdAt : Nat
  reason : String
deriving DecidableEq, Repr

/-- The `StateManagerService` state: the heap, the allocation
watermark, the address of `currentState`, the in-memory
`stateHistory`, the serialized snapshots `persistSnapshot` wrote to
Redis (read back by `loadSnapshot`), and the uuid/Date counters. -/
structure SM where
  heap : Heap
  nextAddr : Nat
  current : Nat
  stateHistory : List SnapRec
  redisSnaps : List (Nat × PureState)
  nextId : Nat
  clock : Nat

/-- `maxHistorySize` (line 49 of the source). -/
def maxStateHistory : Nat := 100

/-- Allocate a fresh object. -/
def alloc (σ : SM) (o : Obj) : Nat × SM :=
  (σ.nextAddr, { σ with heap := hset σ.heap σ.nextAddr o, nextAddr := σ.nextAddr + 1 })

/-- `new Date()` / `Date.now()`. -/
def tick (σ : SM) : Nat × SM :=
  (σ.clock, { σ with clock := σ.clock + 1 })

/-- `uuidv4()`. -/
def freshId (σ : SM) : Nat × SM :=
  (σ.nextId, { σ with nextId := σ.nextId + 1 })

/-- Errors of the store surface.  The embedding gives fallible
operations an `Except` result; `corruptHeap` marks a dangling address,
which no state reachable from `initState` produces (the TS code would
crash there too). -/
inductive SMErr where
  | agentNotFound (p : Persona)
  | snapshotNotFound (sid : Nat)
  | corruptHeap
deriving DecidableEq, Repr

/-- The agent metrics record `initializeSystemState` creates (numeric
literals rendered as strings). -/
def initialMetrics : List (String × String) :=
  [("tasksCompleted", "0"), ("successRate", "1.0"), ("averageResponseTime", "0")]

/-- One iteration of `initializeSystemState`'s `personas.forEach`:
build the fresh `AgentStateData` object graph for `p`. -/
def initAgentData (σ : SM) (p : Persona) : Nat × SM :=
  let (st, σ1) := alloc σ (.record [])
  let (lt, σ2) := alloc σ1 (.record [])
  let (mo, σ3) := alloc σ2 (.mem { shortTerm := st, longTerm := lt })
  let (mt, σ4) := alloc σ3 (.record initialMetrics)
  let (t, σ5) := tick σ4
  alloc σ5 (.agent { persona := p, state := .idle, memory := mo,
                     currentTasks := [], metrics := mt, lastUpdated := t })

/-- Build the agents-map entries for a persona list. -/
def initAgents : SM → List Persona → List (Persona × Nat) × SM
  | σ, [] => ([], σ)
  | σ, p :: rest =>
    let (a, σ1) := initAgentData σ p
    let (tl, σ2) := initAgents σ1 rest
    ((p, a) :: tl, σ2)

/-- `initializeSystemState` (lines 221–257) starting from an empty
service: one `AgentStateData` per roster persona, phase `planning`,
empty global context. -/
def initState : SM :=
  let σ0 : SM := { heap := hempty, nextAddr := 0, current := 0,
                   stateHistory := [], redisSnaps := [], nextId := 0, clock := 0 }
  let (entries, σ1) := initAgents σ0 roster
  let (am, σ2) := alloc σ1 (.amap entries)
  let (gc, σ3) := alloc σ2 (.record [])
  let (i, σ4) := freshId σ3
  let (t, σ5) := tick σ4
  let (sysA, σ6) := alloc σ5 (.sys { id := i, phase := .planning, agents := am,
                                     globalContext := gc, timestamp := t })
  { σ6 with current := sysA }

/-- `getSystemState` (lines 81–83): `{ ...this.currentState }` — a
freshly allocated root object whose top-level fields (including the
`agents` and `globalContext` *addresses*) are copied from the live
root.  Returns the new object's address. -/
def getSystemState (σ : SM) : Except SMErr Nat × SM :=
  match σ.heap σ.current with
  | some (.sys so) =>
    let (a, σ1) := alloc σ (.sys so)
    (.ok a, σ1)
  | _ => (.error .corruptHeap, σ)

/-- The fields of `Partial<AgentStateData>` the embedding lets
`updateAgentState` override.  (Representative subset: any overridden
field behaves the same — the update builds a fresh object
spread-copying the old one, so unmentioned nested addresses stay
aliased.) -/
structure AgentUpd where
  state : Option AgentLifeState
  currentTasks : Option (List String)
deriving DecidableEq, Repr

/-- `updateAgentState(persona, updates)` (lines 89–114): throws
`Agent state not found` for an unknown persona; otherwise builds
`{ ...currentAgentState, ...updates, lastUpdated: new Date() }` — a
*fresh* agent object whose `memory`/`metrics` addresses alias the old
object's — and stores it in the shared agents map in place. -/
def updateAgentState (σ : SM) (p : Persona) (u : AgentUpd) : Except SMErr Unit × SM :=
  match σ.heap σ.current with
  | some (.sys so) =>
    match σ.heap so.agents with
    | some (.amap am) =>
      match am.lookup p with
      | none => (.error (.agentNotFound p), σ)
      | some aAddr =>
        match σ.heap aAddr with
        | some (.agent ao) =>
          let (t, σ1) := tick σ
          let ao' : AgentObj :=
            { persona := ao.persona,
              state := u.state.getD ao.state,
              memory := ao.memory,
              currentTasks := u.currentTasks.getD ao.currentTasks,
              metrics := ao.metrics,
              lastUpdated := t }
          let (na, σ2) := alloc σ1 (.agent ao')
          (.ok (), { σ2 with heap := hset σ2.heap so.agents (.amap (alSet am p na)) })
        | _ => (.error .corruptHeap, σ)
    | _ => (.error .corruptHeap, σ)
  | _ => (.error .corruptHeap, σ)

/-- `updateGlobalContext(key, value)` (lines 116–126):
`this.currentState.globalContext[key] = value` — an in-place write to
the shared context record. -/
def updateGlobalContext (σ : SM) (k : String) (v : String) : Except SMErr Unit × SM :=
  match σ.heap σ.current with
  | some (.sys so) =>
    match σ.heap so.globalContext with
    | some (.record r) =>
      (.ok (), { σ with heap := hset σ.heap so.globalContext (.record (alSet r k v)) })
    | _ => (.error .corruptHeap, σ)
  | _ => (.error .corruptHeap, σ)

/-- The two memory tiers. -/
inductive MemTier where
  | shortTerm
  | longTerm
deriving DecidableEq, Repr

/-- `updateAgentMemory(persona, memoryType, key, value)`
(lines 180–196): throws for an unknown persona; otherwise an in-place
write to the tier record plus an in-place `lastUpdated` touch on the
shared agent object. -/
def updateAgentMemory (σ : SM) (p : Persona) (tier : MemTier) (k : String)
    (v : String) : Except SMErr Unit × SM :=
  match σ.heap σ.current with
  | some (.sys so) =>
    match σ.heap so.agents with
    | some (.amap am) =>
      match am.lookup p with
      | none => (.error (.agentNotFound p), σ)
      | some aAddr =>
        match σ.heap aAddr with
        | some (.agent ao) =>
          match σ.heap ao.memory with
          | some (.mem mo) =>
            let tierAddr := match tier with
                            | .shortTerm => mo.shortTerm
                            | .longTerm => mo.longTerm
            match σ.heap tierAddr with
            | some (.record r) =>
              let (t, σ1) := tick σ
              let h1 := hset σ1.heap tierAddr (.record (alSet r k v))
              let h2 := hset h1 aAddr (.agent { ao with lastUpdated := t })
              (.ok (), { σ1 with heap := h2 })
            | _ => (.error .corruptHeap, σ)
          | _ => (.error .corruptHeap, σ)
        | _ => (.error .corruptHeap, σ)
    | _ => (.error .corruptHeap, σ)
  | _ => (.error .corruptHeap, σ)

/-- `clearShortTermMemory(persona)` (lines 211–219): silently a no-op
for an unknown persona; otherwise replaces `memory.shortTerm` with a
fresh empty record (in-place write to the shared memory object) and
touches `lastUpdated`. -/
def clearShortTermMemory (σ : SM) (p : Persona) : Except SMErr Unit × SM :=
  match σ.heap σ.current with
  | some (.sys so) =>
    match σ.heap so.agents with
    | some (.amap am) =>
      match am.lookup p with
      | none => (.ok (), σ)
      | some aAddr =>
        match σ.heap aAddr with
        | some (.agent ao) =>
          match σ.heap ao.memory with
          | some (.mem mo) =>
            let (t, σ1) := tick σ
            let (e, σ2) := alloc σ1 (.record [])
            let h1 := hset σ2.heap ao.memory (.mem { mo with shortTerm := e })
            let h2 := hset h1 aAddr (.agent { ao with lastUpdated := t })
            (.ok (), { σ2 with heap := h2 })
          | _ => (.error .corruptHeap, σ)
        | _ => (.error .corruptHeap, σ)
    | _ => (.error .corruptHeap, σ)
  | _ => (.error .corruptHeap, σ)

/-- Allocate a fresh copy of one agent's object graph from a pure
reading — the per-agent body of `deepCloneState` (lines 358–371):
fresh `shortTerm`/`longTerm`/`metrics` records, fresh memory object,
fresh `currentTasks` array, fresh agent object. -/
def materializeAgent (σ : SM) (pa : PureAgent) : Nat × SM :=
  let (st, σ1) := alloc σ (.record pa.shortTerm)
  let (lt, σ2) := alloc σ1 (.record pa.longTerm)
  let (mo, σ3) := alloc σ2 (.mem { shortTerm := st, longTerm := lt })
  let (mt, σ4) := alloc σ3 (.record pa.metrics)
  alloc σ4 (.agent { persona := pa.persona, state := pa.state, memory := mo,
                     currentTasks := pa.currentTasks, metrics := mt,
                     lastUpdated := pa.lastUpdated })

/-- Clone every agents-map entry. -/
def materializeAgents : SM → List (Persona × PureAgent) → List (Persona × Nat) × SM
  | σ, [] => ([], σ)
  | σ, e :: rest =>
    let (a, σ1) := materializeAgent σ e.2
    let (tl, σ2) := materializeAgents σ1 rest
    ((e.1, a) :: tl, σ2)

/-- Allocate a fresh copy of a whole `SystemState` graph from a pure
reading: the structural content of `deepCloneState` (lines 355–374) —
`{ ...state }` with a cloned `Map`, cloned nested records and copied
scalar fields. -/
def materializeState (σ : SM) (p : PureState) : Nat × SM :=
  let (es, σ1) := materializeAgents σ p.agents
  let (am, σ2) := alloc σ1 (.amap es)
  let (gc, σ3) := alloc σ2 (.record p.globalContext)
  alloc σ3 (.sys { id := p.id, phase := p.phase, agents := am,
                   globalContext := gc, timestamp := p.timestamp })

/-- `deepCloneState(this.currentState)`: read the live graph purely
and materialize a fresh, fully disjoint copy.  Returns the clone's
address together with the pure reading (which `persistSnapshot`
serializes). -/
def deepCloneState (σ : SM) (a : Nat) : Except SMErr (Nat × PureState) × SM :=
  match viewState σ.heap a with
  | none => (.error .corruptHeap, σ)
  | some p =>
    let (ca, σ1) := materializeState σ p
    (.ok (ca, p), σ1)

/-- `createSnapshot(reason)` (lines 141–158): deep-clone the live
state, push a `StateSnapshot` onto `stateHistory` (evicting the oldest
past `maxHistorySize`), persist the serialized snapshot to Redis under
its id, and return the id. -/
def createSnapshot (σ : SM) (reason : String) : Except SMErr Nat × SM :=
  match deepCloneState σ σ.current with
  | (.error e, σ1) => (.error e, σ1)
  | (.ok (ca, p), σ1) =>
    let (sid, σ2) := freshId σ1
    let (t, σ3) := tick σ2
    let snap : SnapRec := { id := sid, systemState := ca, createdAt := t, reason }
    let hist := σ3.stateHistory ++ [snap]
    (.ok sid,
     { σ3 with
       stateHistory := if hist.length > maxStateHistory then hist.drop 1 else hist,
       redisSnaps := alSet σ3.redisSnaps sid p })

/-- Render a `Phase` the way the TypeScript string union spells it. -/
def phaseStr : Phase → String
  | .planning => "planning"
  | .scaffold => "scaffold"
  | .feature => "feature"
  | .test => "test"
  | .review => "review"
  | .deploy => "deploy"

/-- `setPhase(phase)` (lines 128–139): remembers the previous phase,
**mutates the live root's `phase` field first**, and only then creates
the snapshot (whose reason string carries the previous phase). -/
def setPhase (σ : SM) (ph : Phase) : Except SMErr Unit × SM :=
  match σ.heap σ.current with
  | some (.sys so) =>
    let σ1 : SM := { σ with heap := hset σ.heap σ.current (.sys { so with phase := ph }) }
    match createSnapshot σ1 ("phase_transition_" ++ phaseStr so.phase ++ "_to_" ++ phaseStr ph) with
    | (.ok _, σ2) => (.ok (), σ2)
    | (.error e, σ2) => (.error e, σ2)
  | _ => (.error .corruptHeap, σ)

/-- `restoreSnapshot(snapshotId)` (lines 160–174): `loadSnapshot`
reads the serialized snapshot back from Redis (throwing
`Snapshot not found` when absent), deserializes it and deep-clones it
into a fresh graph that becomes the live state. -/
def restoreSnapshot (σ : SM) (sid : Nat) : Except SMErr Unit × SM :=
  match σ.redisSnaps.lookup sid with
  | none => (.error (.snapshotNotFound sid), σ)
  | some p =>
    let (a, σ1) := materializeState σ p
    (.ok (), { σ1 with current := a })

/-- One mutating call of the Store's API surface. -/
inductive ApiOp where
  | updAgent (p : Persona) (u : AgentUpd)
  | updMemory (p : Persona) (tier : MemTier) (k : String) (v : String)
  | clearShort (p : Persona)
  | updContext (k : String) (v : String)
  | setPh (ph : Phase)
  | snap (reason : String)
  | restore (sid : Nat)
deriving DecidableEq, Repr

/-- Apply one API call (a thrown error leaves the state as the call
left it, which for every operation above is unchanged, since each
throws before mutating). -/
def applyOp (σ : SM) : ApiOp → SM
  | .updAgent p u => (updateAgentState σ p u).2
  | .updMemory p tier k v => (updateAgentMemory σ p tier k v).2
  | .clearShort p => (clearShortTermMemory σ p).2
  | .updContext k v => (updateGlobalContext σ k v).2
  | .setPh ph => (setPhase σ ph).2
  | .snap reason => (createSnapshot σ reason).2
  | .restore sid => (restoreSnapshot σ sid).2

/-- Apply a sequence of API calls. -/
def applyOps (σ : SM) (ops : List ApiOp) : SM :=
  ops.foldl applyOp σ

/-- The roster personas present in the live agents map (`none` on a
corrupt heap). -/
def agentsKeys (σ : SM) : Option (List Persona) :=
  match σ.heap σ.current with
  | some (.sys so) =>
    match σ.heap so.agents with
    | some (.amap am) => some (am.map Prod.fst)
    | _ => none
  | _ => none

/-! ### Well-formedness, bounds, and basic heap lemmas -/

/-- All addresses at or above the allocation watermark are free. -/
def heapBound (σ : SM) : Prop :=
  ∀ a, σ.nextAddr ≤ a → σ.heap a = none

/-- The live state is viewable and the watermark is honest. -/
def Good (σ : SM) : Prop :=
  (viewState σ.heap σ.current).isSome ∧ heapBound σ

/-- The addresses the live `SystemState` graph occupies. -/
def liveFootprint (σ : SM) : List Nat :=
  stateFootprint σ.heap σ.current

theorem hset_lookup_eq (h : Heap) (a : Nat) (o : Obj) : hset h a o a = some o := by
  simp [hset]

theorem hset_lookup_ne (h : Heap) (a : Nat) (o : Obj) {x : Nat} (hx : x ≠ a) :
    hset h a o x = h x := by
  simp [hset, hx]

theorem lookup_mem {κ β : Type} [DecidableEq κ] :
    ∀ (l : List (κ × β)) (p : κ) (v : β), l.lookup p = some v → (p, v) ∈ l := by
  intro l
  induction l with
  | nil => intro p v h; simp [List.lookup] at h
  | cons e rest ih =>
    intro p v h
    by_cases hpe : p = e.1
    · subst hpe
      simp only [List.lookup, beq_self_eq_true] at h
      have hv : e.2 = v := by injection h
      rw [← hv]
      simp
    · have hbe : (p == e.1) = false := beq_eq_false_iff_ne.mpr hpe
      simp only [List.lookup, hbe] at h
      exact List.mem_cons_of_mem _ (ih p v h)

/-- Two addresses holding objects of different kinds differ. -/
theorem ne_of_heap_kinds {h : Heap} {x y : Nat} {ox oy : Obj}
    (hx : h x = some ox) (hy : h y = some oy) (hk : ox ≠ oy) : x ≠ y := by
  intro he
  rw [he, hy] at hx
  injection hx with h1
  exact hk h1.symm

/-- Unpack the live-view success into the root derefs. -/
theorem viewState_unpack {h : Heap} {c : Nat}
    (hv : (viewState h c).isSome) :
    ∃ so am gc pas, h c = some (.sys so) ∧ h so.agents = some (.amap am) ∧
      h so.globalContext = some (.record gc) ∧ viewAgents h am = some pas ∧
      viewState h c = some { id := so.id, phase := so.phase, agents := pas,
                             globalContext := gc, timestamp := so.timestamp } := by
  cases hcase : h c with
  | none => simp [viewState, hcase] at hv
  | some o =>
    cases o with
    | sys so =>
      cases hamc : h so.agents with
      | none => simp [viewState, hcase, hamc] at hv
      | some oa =>
        cases oa with
        | amap am =>
          cases hgcc : h so.globalContext with
          | none => simp [viewState, hcase, hamc, hgcc] at hv
          | some og =>
            cases og with
            | record gc =>
              cases hvas : viewAgents h am with
              | none => simp [viewState, hcase, hamc, hgcc, hvas] at hv
              | some pas =>
                refine ⟨so, am, gc, pas, rfl, hamc, hgcc, hvas, ?_⟩
                simp only [viewState, hcase, hamc, hgcc, hvas]
            | mem m => simp [viewState, hcase, hamc, hgcc] at hv
            | agent a2 => simp [viewState, hcase, hamc, hgcc] at hv
            | amap m2 => simp [viewState, hcase, hamc, hgcc] at hv
            | sys s2 => simp [viewState, hcase, hamc, hgcc] at hv
        | record r => simp [viewState, hcase, hamc] at hv
        | mem m => simp [viewState, hcase, hamc] at hv
        | agent a2 => simp [viewState, hcase, hamc] at hv
        | sys s2 => simp [viewState, hcase, hamc] at hv
    | record r => simp [viewState, hcase] at hv
    | mem m => simp [viewState, hcase] at hv
    | agent a2 => simp [viewState, hcase] at hv
    | amap m => simp [viewState, hcase] at hv

/-- In a bounded state, every live-footprint address is below the
watermark. -/
theorem live_lt (σ : SM) (hG : Good σ) :
    ∀ x ∈ liveFootprint σ, x < σ.nextAddr := by
  intro x hx
  have hdom := footprint_dom σ.heap σ.current hG.1 x hx
  by_contra hge
  rw [hG.2 x (by omega)] at hdom
  simp at hdom

/-! ### `materialize*` specifications -/

theorem materializeAgent_parts (σ : SM) (pa : PureAgent) :
    (materializeAgent σ pa).1 = σ.nextAddr + 4 ∧
    (materializeAgent σ pa).2.nextAddr = σ.nextAddr + 5 ∧
    viewAgent (materializeAgent σ pa).2.heap (materializeAgent σ pa).1 = some pa ∧
    agentFootprint (materializeAgent σ pa).2.heap (materializeAgent σ pa).1 =
      [σ.nextAddr + 4, σ.nextAddr + 2, σ.nextAddr + 3, σ.nextAddr, σ.nextAddr + 1] ∧
    (∀ x, x < σ.nextAddr → (materializeAgent σ pa).2.heap x = σ.heap x) ∧
    (materializeAgent σ pa).2.current = σ.current ∧
    (materializeAgent σ pa).2.stateHistory = σ.stateHistory ∧
    (materializeAgent σ pa).2.redisSnaps = σ.redisSnaps ∧
    (materializeAgent σ pa).2.nextId = σ.nextId ∧
    (materializeAgent σ pa).2.clock = σ.clock := by
  have h4 : ¬(σ.nextAddr = σ.nextAddr + 1 + 1 + 1 + 1) := by omega
  have h3 : ¬(σ.nextAddr = σ.nextAddr + 1 + 1 + 1) := by omega
  have h2 : ¬(σ.nextAddr = σ.nextAddr + 1 + 1) := by omega
  refine ⟨rfl, rfl, ?_, ?_, ?_, rfl, rfl, rfl, rfl, rfl⟩
  · simp [materializeAgent, alloc, hset, viewAgent]
    rw [if_neg h4, if_neg h3, if_neg h2]
  · simp [materializeAgent, alloc, hset, agentFootprint]
  · intro x hx
    have n0 : ¬(x = σ.nextAddr) := by omega
    have n1 : ¬(x = σ.nextAddr + 1) := by omega
    have n2 : ¬(x = σ.nextAddr + 1 + 1) := by omega
    have n3 : ¬(x = σ.nextAddr + 1 + 1 + 1) := by omega
    have n4 : ¬(x = σ.nextAddr + 1 + 1 + 1 + 1) := by omega
    simp only [materializeAgent, alloc, hset]
    rw [if_neg n4, if_neg n3, if_neg n2, if_neg n1, if_neg n0]

theorem materializeAgents_parts (σ : SM) (pas : List (Persona × PureAgent)) :
    ((materializeAgents σ pas).1.map Prod.fst = pas.map Prod.fst) ∧
    σ.nextAddr ≤ (materializeAgents σ pas).2.nextAddr ∧
    (∀ x, x < σ.nextAddr → (materializeAgents σ pas).2.heap x = σ.heap x) ∧
    viewAgents (materializeAgents σ pas).2.heap (materializeAgents σ pas).1 = some pas ∧
    (∀ e ∈ (materializeAgents σ pas).1,
      ∀ x ∈ agentFootprint (materializeAgents σ pas).2.heap e.2,
        σ.nextAddr ≤ x ∧ x < (materializeAgents σ pas).2.nextAddr) ∧
    (materializeAgents σ pas).2.current = σ.current ∧
    (materializeAgents σ pas).2.stateHistory = σ.stateHistory ∧
    (materializeAgents σ pas).2.redisSnaps = σ.redisSnaps ∧
    (materializeAgents σ pas).2.nextId = σ.nextId ∧
    (materializeAgents σ pas).2.clock = σ.clock := by
  induction pas generalizing σ with
  | nil =>
    refine ⟨rfl, le_refl _, fun x _ => rfl, rfl, ?_, rfl, rfl, rfl, rfl, rfl⟩
    intro e he
    simp [materializeAgents] at he
  | cons e rest ih =>
    obtain ⟨ha1, ha2, ha3, ha4, ha5, hc1, hc2, hc3, hc4, hc5⟩ :=
      materializeAgent_parts σ e.2
    obtain ⟨ih1, ih2, ih3, ih4, ih5, ihc1, ihc2, ihc3, ihc4, ihc5⟩ :=
      ih (materializeAgent σ e.2).2
    have hbord : (materializeAgent σ e.2).2.nextAddr = σ.nextAddr + 5 := ha2
    have hfr : ∀ x ∈ agentFootprint (materializeAgent σ e.2).2.heap (materializeAgent σ e.2).1,
        (materializeAgents (materializeAgent σ e.2).2 rest).2.heap x =
          (materializeAgent σ e.2).2.heap x := by
      intro x hx
      rw [ha4] at hx
      simp only [List.mem_cons, List.not_mem_nil, or_false] at hx
      refine ih3 x ?_
      rw [hbord]
      rcases hx with rfl | rfl | rfl | rfl | rfl <;> omega
    obtain ⟨hfv, hff⟩ :=
      viewAgent_frame (materializeAgent σ e.2).2.heap
        (materializeAgents (materializeAgent σ e.2).2 rest).2.heap
        (materializeAgent σ e.2).1 hfr
    refine ⟨?_, ?_, ?_, ?_, ?_, ?_, ?_, ?_, ?_, ?_⟩
    · show ((e.1, (materializeAgent σ e.2).1) ::
          (materializeAgents (materializeAgent σ e.2).2 rest).1).map Prod.fst =
        (e :: rest).map Prod.fst
      simp [ih1]
    · show σ.nextAddr ≤ (materializeAgents (materializeAgent σ e.2).2 rest).2.nextAddr
      rw [hbord] at ih2
      omega
    · intro x hx
      show (materializeAgents (materializeAgent σ e.2).2 rest).2.heap x = σ.heap x
      rw [ih3 x (by rw [hbord]; omega), ha5 x hx]
    · show viewAgents (materializeAgents (materializeAgent σ e.2).2 rest).2.heap
          ((e.1, (materializeAgent σ e.2).1) ::
            (materializeAgents (materializeAgent σ e.2).2 rest).1) =
        some (e :: rest)
      simp only [viewAgents, hfv, ha3, ih4]
    · intro f hf x hx
      have hf2 : f ∈ (e.1, (materializeAgent σ e.2).1) ::
          (materializeAgents (materializeAgent σ e.2).2 rest).1 := hf
      show σ.nextAddr ≤ x ∧ x < (materializeAgents (materializeAgent σ e.2).2 rest).2.nextAddr
      rcases List.mem_cons.mp hf2 with heq | hrest
      · have hx2 : x ∈ agentFootprint
            (materializeAgents (materializeAgent σ e.2).2 rest).2.heap
            (materializeAgent σ e.2).1 := by
          rw [heq] at hx
          exact hx
        rw [hff, ha4] at hx2
        simp only [List.mem_cons, List.not_mem_nil, or_false] at hx2
        have hb2 := ih2
        rw [hbord] at hb2
        rcases hx2 with rfl | rfl | rfl | rfl | rfl <;> constructor <;> omega
      · have hb := ih5 f hrest x hx
        rw [hbord] at hb
        refine ⟨by omega, hb.2⟩
    · show (materializeAgents (materializeAgent σ e.2).2 rest).2.current = σ.current
      rw [ihc1, hc1]
    · show (materializeAgents (materializeAgent σ e.2).2 rest).2.stateHistory = σ.stateHistory
      rw [ihc2, hc2]
    · show (materializeAgents (materializeAgent σ e.2).2 rest).2.redisSnaps = σ.redisSnaps
      rw [ihc3, hc3]
    · show (materializeAgents (materializeAgent σ e.2).2 rest).2.nextId = σ.nextId
      rw [ihc4, hc4]
    · show (materializeAgents (materializeAgent σ e.2).2 rest).2.clock = σ.clock
      rw [ihc5, hc5]

theorem materializeState_parts (σ : SM) (p : PureState) :
    viewState (materializeState σ p).2.heap (materializeState σ p).1 = some p ∧
    (∀ x, x < σ.nextAddr → (materializeState σ p).2.heap x = σ.heap x) ∧
    σ.nextAddr ≤ (materializeState σ p).2.nextAddr ∧
    (∀ x ∈ stateFootprint (materializeState σ p).2.heap (materializeState σ p).1,
       σ.nextAddr ≤ x ∧ x < (materializeState σ p).2.nextAddr) ∧
    (materializeState σ p).2.current = σ.current ∧
    (materializeState σ p).2.stateHistory = σ.stateHistory ∧
    (materializeState σ p).2.redisSnaps = σ.redisSnaps ∧
    (materializeState σ p).2.nextId = σ.nextId ∧
    (materializeState σ p).2.clock = σ.clock ∧
    σ.nextAddr ≤ (materializeState σ p).1 := by
  obtain ⟨ih1, ih2, ih3, ih4, ih5, ihc1, ihc2, ihc3, ihc4, ihc5⟩ :=
    materializeAgents_parts σ p.agents
  have hH : (materializeState σ p).2.heap =
      hset (hset (hset (materializeAgents σ p.agents).2.heap
          (materializeAgents σ p.agents).2.nextAddr
          (.amap (materializeAgents σ p.agents).1))
        ((materializeAgents σ p.agents).2.nextAddr + 1) (.record p.globalContext))
      ((materializeAgents σ p.agents).2.nextAddr + 1 + 1)
      (.sys { id := p.id, phase := p.phase,
              agents := (materializeAgents σ p.agents).2.nextAddr,
              globalContext := (materializeAgents σ p.agents).2.nextAddr + 1,
              timestamp := p.timestamp }) := rfl
  have hroot : (materializeState σ p).1 =
      (materializeAgents σ p.agents).2.nextAddr + 1 + 1 := rfl
  have hnext : (materializeState σ p).2.nextAddr =
      (materializeAgents σ p.agents).2.nextAddr + 1 + 1 + 1 := rfl
  have hm2 : (materializeState σ p).2.heap
      ((materializeAgents σ p.agents).2.nextAddr + 1 + 1) =
      some (.sys { id := p.id, phase := p.phase,
                   agents := (materializeAgents σ p.agents).2.nextAddr,
                   globalContext := (materializeAgents σ p.agents).2.nextAddr + 1,
                   timestamp := p.timestamp }) := by
    rw [hH, hset_lookup_eq]
  have hm0 : (materializeState σ p).2.heap (materializeAgents σ p.agents).2.nextAddr =
      some (.amap (materializeAgents σ p.agents).1) := by
    rw [hH, hset_lookup_ne _ _ _ (by omega), hset_lookup_ne _ _ _ (by omega),
      hset_lookup_eq]
  have hm1 : (materializeState σ p).2.heap ((materializeAgents σ p.agents).2.nextAddr + 1) =
      some (.record p.globalContext) := by
    rw [hH, hset_lookup_ne _ _ _ (by omega), hset_lookup_eq]
  have hlow : ∀ x, x < (materializeAgents σ p.agents).2.nextAddr →
      (materializeState σ p).2.heap x = (materializeAgents σ p.agents).2.heap x := by
    intro x hx
    rw [hH, hset_lookup_ne _ _ _ (by omega), hset_lookup_ne _ _ _ (by omega),
      hset_lookup_ne _ _ _ (by omega)]
  have hfr : ∀ e ∈ (materializeAgents σ p.agents).1,
      ∀ x ∈ agentFootprint (materializeAgents σ p.agents).2.heap e.2,
        (materializeState σ p).2.heap x = (materializeAgents σ p.agents).2.heap x := by
    intro e he x hx
    exact hlow x (ih5 e he x hx).2
  obtain ⟨hvs, hfs⟩ :=
    viewAgents_frame (materializeAgents σ p.agents).2.heap (materializeState σ p).2.heap
      (materializeAgents σ p.agents).1 hfr
  refine ⟨?_, ?_, ?_, ?_, ?_, ?_, ?_, ?_, ?_, ?_⟩
  · rw [hroot]
    simp only [viewState, hm2, hm0, hm1, hvs, ih4]
  · intro x hx
    rw [hlow x (by omega), ih3 x hx]
  · rw [hnext]; omega
  · intro x hx
    rw [hroot] at hx
    simp only [stateFootprint, hm2, hm0, List.mem_cons] at hx
    rw [hnext]
    rcases hx with rfl | rfl | rfl | hx
    · omega
    · omega
    · omega
    · rw [List.mem_flatMap] at hx
      obtain ⟨e, he, hxe⟩ := hx
      obtain ⟨-, hfe⟩ := viewAgent_frame (materializeAgents σ p.agents).2.heap
        (materializeState σ p).2.heap e.2 (hfr e he)
      rw [hfe] at hxe
      have := ih5 e he x hxe
      omega
  · show (materializeAgents σ p.agents).2.current = σ.current
    exact ihc1
  · show (materializeAgents σ p.agents).2.stateHistory = σ.stateHistory
    exact ihc2
  · show (materializeAgents σ p.agents).2.redisSnaps = σ.redisSnaps
    exact ihc3
  · show (materializeAgents σ p.agents).2.nextId = σ.nextId
    exact ihc4
  · show (materializeAgents σ p.agents).2.clock = σ.clock
    exact ihc5
  · rw [hroot]; omega

/-! ### Per-operation step facts

`OpStep σ σ'` gathers what every Store API call guarantees: the result
is well-formed and bounded, the watermark is monotone, no address
outside the live footprint and below the watermark is written, the new
live footprint stays inside the old one plus fresh addresses, and the
roster invariant is preserved. -/

/-- The roster invariant: the live agents map is keyed exactly by the
roster, and so is every snapshot persisted to Redis. -/
def RosterInv (σ : SM) : Prop :=
  agentsKeys σ = some roster ∧
    ∀ e ∈ σ.redisSnaps, e.2.agents.map Prod.fst = roster

structure OpStep (σ σ' : SM) : Prop where
  good : Good σ'
  mono : σ.nextAddr ≤ σ'.nextAddr
  frame : ∀ x, x ∉ liveFootprint σ → x < σ.nextAddr → σ'.heap x = σ.heap x
  liveSub : ∀ x ∈ liveFootprint σ', x ∈ liveFootprint σ ∨ σ.nextAddr ≤ x
  roster : RosterInv σ → RosterInv σ'

theorem opStep_refl (σ : SM) (hG : Good σ) : OpStep σ σ :=
  ⟨hG, le_refl _, fun _ _ _ => rfl, fun _ hx => Or.inl hx, fun h => h⟩

theorem opStep_trans {σ σ' σ'' : SM} (h1 : OpStep σ σ') (h2 : OpStep σ' σ'') :
    OpStep σ σ'' := by
  refine ⟨h2.good, le_trans h1.mono h2.mono, ?_, ?_, fun h => h2.roster (h1.roster h)⟩
  · intro x hx hlt
    have hx' : x ∉ liveFootprint σ' := by
      intro hmem
      rcases h1.liveSub x hmem with hin | hge
      · exact hx hin
      · omega
    rw [h2.frame x hx' (by have := h1.mono; omega), h1.frame x hx hlt]
  · intro x hx
    rcases h2.liveSub x hx with hin | hge
    · rcases h1.liveSub x hin with hin' | hge'
      · exact Or.inl hin'
      · exact Or.inr hge'
    · exact Or.inr (by have := h1.mono; omega)

/-- Keys survive a pure reading of the agents map. -/
theorem viewAgents_keys (h : Heap) :
    ∀ (am : List (Persona × Nat)) (pas : List (Persona × PureAgent)),
      viewAgents h am = some pas → pas.map Prod.fst = am.map Prod.fst := by
  intro am
  induction am with
  | nil => intro pas hv; simp [viewAgents] at hv; simp [← hv]
  | cons e rest ih =>
    intro pas hv
    simp only [viewAgents] at hv
    cases hv0 : viewAgent h e.2 with
    | none => rw [hv0] at hv; simp at hv
    | some pa =>
      cases hvr : viewAgents h rest with
      | none => rw [hv0, hvr] at hv; simp at hv
      | some pasr =>
        rw [hv0, hvr] at hv
        simp only [Option.some.injEq] at hv
        rw [← hv]
        simp [ih pasr hvr]

/-- Membership in `alSet` comes from the old list or is the new pair. -/
theorem alSet_mem_sub {κ β : Type} [DecidableEq κ]
    (l : List (κ × β)) (k : κ) (v : β) :
    ∀ e ∈ alSet l k v, e ∈ l ∨ e = (k, v) := by
  intro e he
  unfold alSet at he
  by_cases hany : (l.any fun e => decide (e.1 = k)) = true
  · rw [if_pos hany] at he
    rw [List.mem_map] at he
    obtain ⟨e0, he0, heq⟩ := he
    by_cases h0 : e0.1 = k
    · rw [if_pos h0] at heq
      exact Or.inr heq.symm
    · rw [if_neg h0] at heq
      exact Or.inl (heq ▸ he0)
  · rw [if_neg hany, List.mem_append] at he
    rcases he with he | he
    · exact Or.inl he
    · simp at he
      exact Or.inr he

/-- Writes below the watermark preserve boundedness. -/
theorem heapBound_hset (h : Heap) (N : Nat) (hb : ∀ x, N ≤ x → h x = none)
    (a : Nat) (o : Obj) (ha : a < N) : ∀ x, N ≤ x → hset h a o x = none := by
  intro x hx
  rw [hset_lookup_ne _ _ _ (by omega)]
  exact hb x hx

/-- Kind-compatible heap rewrites.  `F` marks the freshly allocated
addresses an operation may redirect a memory object's `shortTerm` to.
The clauses cover every write the Store performs: record contents may
change in place; an agent object may be replaced by one with the same
`memory`/`metrics` addresses; a memory object may be replaced keeping
`longTerm` and sending `shortTerm` either unchanged or to a fresh
record; the agents map object and the root keep their structure
(`setPhase` only changes the root's scalar fields). -/
structure HeapCompat (h h' : Heap) (F : Nat → Prop) : Prop where
  rec' : ∀ y r, h y = some (.record r) → ∃ r', h' y = some (.record r')
  agent : ∀ y a, h y = some (.agent a) →
    ∃ a', h' y = some (.agent a') ∧ a'.memory = a.memory ∧ a'.metrics = a.metrics
  mem : ∀ y m, h y = some (.mem m) →
    ∃ m', h' y = some (.mem m') ∧ m'.longTerm = m.longTerm ∧
      (m'.shortTerm = m.shortTerm ∨
        (F m'.shortTerm ∧ ∃ r, h' m'.shortTerm = some (.record r)))
  amap : ∀ y m, h y = some (.amap m) → h' y = some (.amap m)
  sys : ∀ y s, h y = some (.sys s) →
    ∃ s', h' y = some (.sys s') ∧ s'.agents = s.agents ∧
      s'.globalContext = s.globalContext
  none' : ∀ y, h y = none → h' y = none ∨ ∃ r, h' y = some (.record r)

theorem viewAgent_isSome_compat {h h' : Heap} {F : Nat → Prop}
    (hc : HeapCompat h h' F) (x : Nat)
    (hva : (viewAgent h x).isSome) : (viewAgent h' x).isSome := by
  cases hx : h x with
  | none => simp [viewAgent, hx] at hva
  | some o =>
    cases o with
    | agent ao =>
      cases hmo : h ao.memory with
      | none => simp [viewAgent, hx, hmo] at hva
      | some om =>
        cases om with
        | mem mo =>
          obtain ⟨⟨st0, hst⟩, ⟨lt0, hlt⟩, ⟨mt0, hmt⟩⟩ :=
            viewAgent_parts h x ao mo hx hmo hva
          obtain ⟨ao', hao', haom, haomt⟩ := hc.agent x ao hx
          obtain ⟨mo', hmo', hmol, hmos⟩ := hc.mem ao.memory mo hmo
          obtain ⟨lt', hlt'⟩ := hc.rec' mo.longTerm lt0 hlt
          obtain ⟨mt', hmt'⟩ := hc.rec' ao.metrics mt0 hmt
          obtain ⟨st', hst'⟩ : ∃ r, h' mo'.shortTerm = some (.record r) := by
            rcases hmos with heq | ⟨-, hfr⟩
            · rw [heq]
              exact hc.rec' mo.shortTerm st0 hst
            · exact hfr
          simp only [viewAgent, hao', haom, hmo', hst', hmol, hlt', haomt, hmt']
          rfl
        | record r => simp [viewAgent, hx, hmo] at hva
        | agent a2 => simp [viewAgent, hx, hmo] at hva
        | amap m2 => simp [viewAgent, hx, hmo] at hva
        | sys s2 => simp [viewAgent, hx, hmo] at hva
    | record r => simp [viewAgent, hx] at hva
    | mem m => simp [viewAgent, hx] at hva
    | amap m => simp [viewAgent, hx] at hva
    | sys s => simp [viewAgent, hx] at hva

theorem viewAgents_isSome_compat {h h' : Heap} {F : Nat → Prop}
    (hc : HeapCompat h h' F) :
    ∀ (am : List (Persona × Nat)),
      (viewAgents h am).isSome → (viewAgents h' am).isSome := by
  intro am
  induction am with
  | nil => intro _; simp [viewAgents]
  | cons e rest ih =>
    intro hv
    simp only [viewAgents] at hv ⊢
    cases hv0 : viewAgent h e.2 with
    | none => rw [hv0] at hv; simp at hv
    | some pa =>
      cases hvr : viewAgents h rest with
      | none => rw [hv0, hvr] at hv; simp at hv
      | some pasr =>
        have h1 := viewAgent_isSome_compat hc e.2 (by rw [hv0]; rfl)
        have h2 := ih (by rw [hvr]; rfl)
        obtain ⟨pa', hpa'⟩ := Option.isSome_iff_exists.mp h1
        obtain ⟨pas', hpas'⟩ := Option.isSome_iff_exists.mp h2
        rw [hpa', hpas']
        rfl

theorem viewState_isSome_compat {h h' : Heap} {F : Nat → Prop}
    (hc : HeapCompat h h' F) (c : Nat)
    (hv : (viewState h c).isSome) : (viewState h' c).isSome := by
  obtain ⟨so, am, gc, pas, hcs, hamc, hgcc, hvas, -⟩ := viewState_unpack hv
  obtain ⟨s', hs', hsa, hsg⟩ := hc.sys c so hcs
  have ham' : h' so.agents = some (.amap am) := hc.amap so.agents am hamc
  obtain ⟨gc', hgc'⟩ := hc.rec' so.globalContext gc hgcc
  have hvas' := viewAgents_isSome_compat hc am (by rw [hvas]; rfl)
  obtain ⟨pas', hpas'⟩ := Option.isSome_iff_exists.mp hvas'
  simp only [viewState, hs', hsa, hsg, ham', hgc', hpas']
  rfl

theorem agentFootprint_sub_compat {h h' : Heap} {F : Nat → Prop}
    (hc : HeapCompat h h' F) (x : Nat) :
    ∀ z ∈ agentFootprint h' x, z ∈ agentFootprint h x ∨ F z := by
  intro z hz
  simp only [agentFootprint, List.mem_cons] at hz
  rcases hz with rfl | hz
  · exact Or.inl (by simp [agentFootprint])
  cases hx' : h' x with
  | none => rw [hx'] at hz; simp at hz
  | some o' =>
    cases o' with
    | agent ao' =>
      have hx : ∃ ao, h x = some (.agent ao) ∧ ao'.memory = ao.memory ∧
          ao'.metrics = ao.metrics := by
        cases hxo : h x with
        | none =>
          rcases hc.none' x hxo with hn | ⟨r, hr⟩
          · rw [hn] at hx'; cases hx'
          · rw [hr] at hx'
            cases (by injection hx' : Obj.record r = Obj.agent ao')
        | some o =>
          cases o with
          | agent ao =>
            obtain ⟨a2, ha2, ham, hamt⟩ := hc.agent x ao hxo
            rw [hx'] at ha2
            have heq : ao' = a2 := by injection ha2 with h1; injection h1
            exact ⟨ao, rfl, by rw [heq, ham], by rw [heq, hamt]⟩
          | record r =>
            obtain ⟨r', hr'⟩ := hc.rec' x r hxo
            rw [hx'] at hr'
            cases (by injection hr' : Obj.agent ao' = Obj.record r')
          | mem m =>
            obtain ⟨m', hm', -, -⟩ := hc.mem x m hxo
            rw [hx'] at hm'
            cases (by injection hm' : Obj.agent ao' = Obj.mem m')
          | amap m =>
            have hm' := hc.amap x m hxo
            rw [hx'] at hm'
            cases (by injection hm' : Obj.agent ao' = Obj.amap m)
          | sys s =>
            obtain ⟨s', hs', -, -⟩ := hc.sys x s hxo
            rw [hx'] at hs'
            cases (by injection hs' : Obj.agent ao' = Obj.sys s')
      obtain ⟨ao, hxo, ham, hamt⟩ := hx
      rw [hx'] at hz
      simp only [List.mem_cons] at hz
      rcases hz with rfl | rfl | hz
      · exact Or.inl (by rw [ham]; simp [agentFootprint, hxo])
      · exact Or.inl (by rw [hamt]; simp [agentFootprint, hxo])
      · cases hmo' : h' ao'.memory with
        | none => rw [hmo'] at hz; simp at hz
        | some om' =>
          cases om' with
          | mem mo' =>
            rw [hmo'] at hz
            simp only [List.mem_cons, List.not_mem_nil, or_false] at hz
            have hmo : ∃ mo, h ao.memory = some (.mem mo) ∧
                mo'.longTerm = mo.longTerm ∧
                (mo'.shortTerm = mo.shortTerm ∨ F mo'.shortTerm) := by
              rw [ham] at hmo'
              cases hmoo : h ao.memory with
              | none =>
                rcases hc.none' ao.memory hmoo with hn | ⟨r, hr⟩
                · rw [hn] at hmo'; cases hmo'
                · rw [hr] at hmo'
                  cases (by injection hmo' : Obj.record r = Obj.mem mo')
              | some om =>
                cases om with
                | mem mo =>
                  obtain ⟨m2, hm2, hml, hms⟩ := hc.mem ao.memory mo hmoo
                  rw [hmo'] at hm2
                  have heq : mo' = m2 := by injection hm2 with h1; injection h1
                  refine ⟨mo, rfl, by rw [heq, hml], ?_⟩
                  rcases hms with hL | ⟨hF, -⟩
                  · exact Or.inl (by rw [heq, hL])
                  · exact Or.inr (by rw [heq]; exact hF)
                | record r =>
                  obtain ⟨r', hr'⟩ := hc.rec' ao.memory r hmoo
                  rw [hmo'] at hr'
                  cases (by injection hr' : Obj.mem mo' = Obj.record r')
                | agent a2 =>
                  obtain ⟨a3, ha3, -, -⟩ := hc.agent ao.memory a2 hmoo
                  rw [hmo'] at ha3
                  cases (by injection ha3 : Obj.mem mo' = Obj.agent a3)
                | amap m =>
                  have hm' := hc.amap ao.memory m hmoo
                  rw [hmo'] at hm'
                  cases (by injection hm' : Obj.mem mo' = Obj.amap m)
                | sys s =>
                  obtain ⟨s', hs', -, -⟩ := hc.sys ao.memory s hmoo
                  rw [hmo'] at hs'
                  cases (by injection hs' : Obj.mem mo' = Obj.sys s')
            obtain ⟨mo, hmoo, hml, hms⟩ := hmo
            rcases hz with rfl | rfl
            · rcases hms with hL | hF
              · exact Or.inl (by rw [hL]; simp [agentFootprint, hxo, hmoo])
              · exact Or.inr hF
            · exact Or.inl (by rw [hml]; simp [agentFootprint, hxo, hmoo])
          | record r => rw [hmo'] at hz; simp at hz
          | agent a2 => rw [hmo'] at hz; simp at hz
          | amap m => rw [hmo'] at hz; simp at hz
          | sys s => rw [hmo'] at hz; simp at hz
    | record r => rw [hx'] at hz; simp at hz
    | mem m => rw [hx'] at hz; simp at hz
    | amap m => rw [hx'] at hz; simp at hz
    | sys s => rw [hx'] at hz; simp at hz

theorem stateFootprint_sub_compat {h h' : Heap} {F : Nat → Prop}
    (hc : HeapCompat h h' F) (c : Nat)
    (hv : (viewState h c).isSome) :
    ∀ z ∈ stateFootprint h' c, z ∈ stateFootprint h c ∨ F z := by
  obtain ⟨so, am, gc, pas, hcs, hamc, hgcc, -, -⟩ := viewState_unpack hv
  obtain ⟨s', hs', hsa, hsg⟩ := hc.sys c so hcs
  have ham' : h' so.agents = some (.amap am) := hc.amap so.agents am hamc
  intro z hz
  simp only [stateFootprint, hs', hsa, hsg, ham', List.mem_cons] at hz
  rcases hz with rfl | rfl | rfl | hz
  · exact Or.inl (by simp [stateFootprint])
  · exact Or.inl (by simp [stateFootprint, hcs])
  · exact Or.inl (by simp [stateFootprint, hcs])
  · rw [List.mem_flatMap] at hz
    obtain ⟨e, he, hze⟩ := hz
    rcases agentFootprint_sub_compat hc e.2 z hze with hin | hF
    · refine Or.inl ?_
      simp only [stateFootprint, hcs, hamc, List.mem_cons]
      refine Or.inr (Or.inr (Or.inr ?_))
      exact List.mem_flatMap.mpr ⟨e, he, hin⟩
    · exact Or.inr hF

/-- Invert a successful `agentsKeys` read. -/
theorem agentsKeys_unpack {σ : SM} {ks : List Persona}
    (hk : agentsKeys σ = some ks) :
    ∃ so am, σ.heap σ.current = some (.sys so) ∧
      σ.heap so.agents = some (.amap am) ∧ ks = am.map Prod.fst := by
  cases hcs : σ.heap σ.current with
  | none => simp [agentsKeys, hcs] at hk
  | some o =>
    cases o with
    | sys so =>
      cases hamc : σ.heap so.agents with
      | none => simp [agentsKeys, hcs, hamc] at hk
      | some oa =>
        cases oa with
        | amap am =>
          simp only [agentsKeys, hcs, hamc, Option.some.injEq] at hk
          exact ⟨so, am, rfl, hamc, hk.symm⟩
        | record r => simp [agentsKeys, hcs, hamc] at hk
        | mem m => simp [agentsKeys, hcs, hamc] at hk
        | agent a2 => simp [agentsKeys, hcs, hamc] at hk
        | sys s2 => simp [agentsKeys, hcs, hamc] at hk
    | record r => simp [agentsKeys, hcs] at hk
    | mem m => simp [agentsKeys, hcs] at hk
    | agent a2 => simp [agentsKeys, hcs] at hk
    | amap m => simp [agentsKeys, hcs] at hk

/-- Under a compat rewrite with unchanged `current`, the live agents
map keys are unchanged. -/
theorem agentsKeys_compat {σ σ' : SM} {F : Nat → Prop}
    (hc : HeapCompat σ.heap σ'.heap F) (hcur : σ'.current = σ.current)
    {ks : List Persona} (hk : agentsKeys σ = some ks) : agentsKeys σ' = some ks := by
  obtain ⟨so, am, hcs, hamc, hks⟩ := agentsKeys_unpack hk
  obtain ⟨s', hs', hsa, -⟩ := hc.sys σ.current so hcs
  have ham' := hc.amap so.agents am hamc
  rw [hks]
  simp only [agentsKeys, hcur, hs', hsa, ham']

/-! ### Unpacking and compat-instance builders -/

/-- Unpack a viewable agent into its lookups and footprint shape. -/
theorem viewAgent_unpack {h : Heap} {x : Nat} (hva : (viewAgent h x).isSome) :
    ∃ ao mo st lt mt, h x = some (.agent ao) ∧ h ao.memory = some (.mem mo) ∧
      h mo.shortTerm = some (.record st) ∧ h mo.longTerm = some (.record lt) ∧
      h ao.metrics = some (.record mt) ∧
      agentFootprint h x = [x, ao.memory, ao.metrics, mo.shortTerm, mo.longTerm] ∧
      viewAgent h x = some { persona := ao.persona, state := ao.state, shortTerm := st,
                             longTerm := lt, currentTasks := ao.currentTasks,
                             metrics := mt, lastUpdated := ao.lastUpdated } := by
  cases hx : h x with
  | none => simp [viewAgent, hx] at hva
  | some o =>
    cases o with
    | agent ao =>
      cases hmo : h ao.memory with
      | none => simp [viewAgent, hx, hmo] at hva
      | some om =>
        cases om with
        | mem mo =>
          obtain ⟨⟨st, hst⟩, ⟨lt, hlt⟩, ⟨mt, hmt⟩⟩ := viewAgent_parts h x ao mo hx hmo hva
          refine ⟨ao, mo, st, lt, mt, rfl, hmo, hst, hlt, hmt, ?_, ?_⟩
          · simp [agentFootprint, hx, hmo]
          · simp only [viewAgent, hx, hmo, hst, hlt, hmt]
        | record r => simp [viewAgent, hx, hmo] at hva
        | agent a2 => simp [viewAgent, hx, hmo] at hva
        | amap m2 => simp [viewAgent, hx, hmo] at hva
        | sys s2 => simp [viewAgent, hx, hmo] at hva
    | record r => simp [viewAgent, hx] at hva
    | mem m => simp [viewAgent, hx] at hva
    | amap m => simp [viewAgent, hx] at hva
    | sys s => simp [viewAgent, hx] at hva

/-- A map whose entries are all viewable is viewable. -/
theorem viewAgents_isSome_of (h : Heap) :
    ∀ am : List (Persona × Nat), (∀ e ∈ am, (viewAgent h e.2).isSome) →
      (viewAgents h am).isSome := by
  intro am
  induction am with
  | nil => intro _; simp [viewAgents]
  | cons e rest ih =>
    intro hall
    obtain ⟨pa, hpa⟩ := Option.isSome_iff_exists.mp (hall e (List.mem_cons_self _ _))
    obtain ⟨pas, hpas⟩ := Option.isSome_iff_exists.mp
      (ih fun e' he' => hall e' (List.mem_cons_of_mem _ he'))
    simp only [viewAgents, hpa, hpas]
    rfl

/-- In-place rewrite of an existing record's contents. -/
theorem heapCompat_write_record (h : Heap) (g : Nat)
    (r0 r' : List (String × String)) (hg : h g = some (.record r0))
    (F : Nat → Prop) : HeapCompat h (hset h g (.record r')) F := by
  refine ⟨?_, ?_, ?_, ?_, ?_, ?_⟩
  · intro y r hy
    by_cases hyg : y = g
    · subst hyg
      exact ⟨r', hset_lookup_eq _ _ _⟩
    · exact ⟨r, by rw [hset_lookup_ne _ _ _ hyg, hy]⟩
  · intro y a hy
    have hne : y ≠ g := ne_of_heap_kinds hy hg (by simp)
    exact ⟨a, by rw [hset_lookup_ne _ _ _ hne, hy], rfl, rfl⟩
  · intro y m hy
    have hne : y ≠ g := ne_of_heap_kinds hy hg (by simp)
    exact ⟨m, by rw [hset_lookup_ne _ _ _ hne, hy], rfl, Or.inl rfl⟩
  · intro y m hy
    have hne : y ≠ g := ne_of_heap_kinds hy hg (by simp)
    rw [hset_lookup_ne _ _ _ hne]
    exact hy
  · intro y s hy
    have hne : y ≠ g := ne_of_heap_kinds hy hg (by simp)
    exact ⟨s, by rw [hset_lookup_ne _ _ _ hne, hy], rfl, rfl⟩
  · intro y hy
    have hne : y ≠ g := by
      intro he
      rw [he, hg] at hy
      cases hy
    exact Or.inl (by rw [hset_lookup_ne _ _ _ hne, hy])

/-- Replacing the root with one that keeps `agents`/`globalContext`. -/
theorem heapCompat_write_sys (h : Heap) (c : Nat) (s0 s' : SysObj)
    (hg : h c = some (.sys s0)) (hsa : s'.agents = s0.agents)
    (hsg : s'.globalContext = s0.globalContext)
    (F : Nat → Prop) : HeapCompat h (hset h c (.sys s')) F := by
  refine ⟨?_, ?_, ?_, ?_, ?_, ?_⟩
  · intro y r hy
    have hne : y ≠ c := ne_of_heap_kinds hy hg (by simp)
    exact ⟨r, by rw [hset_lookup_ne _ _ _ hne, hy]⟩
  · intro y a hy
    have hne : y ≠ c := ne_of_heap_kinds hy hg (by simp)
    exact ⟨a, by rw [hset_lookup_ne _ _ _ hne, hy], rfl, rfl⟩
  · intro y m hy
    have hne : y ≠ c := ne_of_heap_kinds hy hg (by simp)
    exact ⟨m, by rw [hset_lookup_ne _ _ _ hne, hy], rfl, Or.inl rfl⟩
  · intro y m hy
    have hne : y ≠ c := ne_of_heap_kinds hy hg (by simp)
    rw [hset_lookup_ne _ _ _ hne]
    exact hy
  · intro y s hy
    by_cases hyc : y = c
    · have hs : s = s0 := by
        rw [hyc] at hy
        have h12 : some (Obj.sys s) = some (Obj.sys s0) := hy.symm.trans hg
        simpa using h12
      refine ⟨s', by rw [hyc]; exact hset_lookup_eq _ _ _, ?_, ?_⟩
      · rw [hsa, hs]
      · rw [hsg, hs]
    · exact ⟨s, by rw [hset_lookup_ne _ _ _ hyc, hy], rfl, rfl⟩
  · intro y hy
    have hne : y ≠ c := by
      intro he
      rw [he, hg] at hy
      cases hy
    exact Or.inl (by rw [hset_lookup_ne _ _ _ hne, hy])

/-- Replacing an agent object keeping its `memory`/`metrics` addresses. -/
theorem heapCompat_write_agent (h : Heap) (aA : Nat) (ao0 ao' : AgentObj)
    (hg : h aA = some (.agent ao0)) (hm : ao'.memory = ao0.memory)
    (hmt : ao'.metrics = ao0.metrics)
    (F : Nat → Prop) : HeapCompat h (hset h aA (.agent ao')) F := by
  refine ⟨?_, ?_, ?_, ?_, ?_, ?_⟩
  · intro y r hy
    have hne : y ≠ aA := ne_of_heap_kinds hy hg (by simp)
    exact ⟨r, by rw [hset_lookup_ne _ _ _ hne, hy]⟩
  · intro y a hy
    by_cases hym2 : y = aA
    · have ha : a = ao0 := by
        rw [hym2] at hy
        have h12 : some (Obj.agent a) = some (Obj.agent ao0) := hy.symm.trans hg
        simpa using h12
      refine ⟨ao', by rw [hym2]; exact hset_lookup_eq _ _ _, ?_, ?_⟩
      · rw [hm, ha]
      · rw [hmt, ha]
    · exact ⟨a, by rw [hset_lookup_ne _ _ _ hym2, hy], rfl, rfl⟩
  · intro y m hy
    have hne : y ≠ aA := ne_of_heap_kinds hy hg (by simp)
    exact ⟨m, by rw [hset_lookup_ne _ _ _ hne, hy], rfl, Or.inl rfl⟩
  · intro y m hy
    have hne : y ≠ aA := ne_of_heap_kinds hy hg (by simp)
    rw [hset_lookup_ne _ _ _ hne]
    exact hy
  · intro y s hy
    have hne : y ≠ aA := ne_of_heap_kinds hy hg (by simp)
    exact ⟨s, by rw [hset_lookup_ne _ _ _ hne, hy], rfl, rfl⟩
  · intro y hy
    have hne : y ≠ aA := by
      intro he
      rw [he, hg] at hy
      cases hy
    exact Or.inl (by rw [hset_lookup_ne _ _ _ hne, hy])

/-- Allocating a record at a free address. -/
theorem heapCompat_alloc_record (h : Heap) (g : Nat)
    (r' : List (String × String)) (hg : h g = none)
    (F : Nat → Prop) : HeapCompat h (hset h g (.record r')) F := by
  have hne : ∀ (y : Nat) (o : Obj), h y = some o → y ≠ g := by
    intro y o hy he
    rw [he, hg] at hy
    cases hy
  refine ⟨?_, ?_, ?_, ?_, ?_, ?_⟩
  · intro y r hy
    exact ⟨r, by rw [hset_lookup_ne _ _ _ (hne y _ hy), hy]⟩
  · intro y a hy
    exact ⟨a, by rw [hset_lookup_ne _ _ _ (hne y _ hy), hy], rfl, rfl⟩
  · intro y m hy
    exact ⟨m, by rw [hset_lookup_ne _ _ _ (hne y _ hy), hy], rfl, Or.inl rfl⟩
  · intro y m hy
    rw [hset_lookup_ne _ _ _ (hne y _ hy)]
    exact hy
  · intro y s hy
    exact ⟨s, by rw [hset_lookup_ne _ _ _ (hne y _ hy), hy], rfl, rfl⟩
  · intro y hy
    by_cases hyg : y = g
    · subst hyg
      exact Or.inr ⟨r', hset_lookup_eq _ _ _⟩
    · exact Or.inl (by rw [hset_lookup_ne _ _ _ hyg, hy])

/-- Redirecting a memory object's `shortTerm` to a fresh record. -/
theorem heapCompat_write_mem_short (h : Heap) (mA e : Nat) (mo : MemObj)
    (re : List (String × String))
    (hg : h mA = some (.mem mo)) (hrec : h e = some (.record re))
    (hem : e ≠ mA) (F : Nat → Prop) (hFe : F e) :
    HeapCompat h (hset h mA (.mem { mo with shortTerm := e })) F := by
  refine ⟨?_, ?_, ?_, ?_, ?_, ?_⟩
  · intro y r hy
    have hne : y ≠ mA := ne_of_heap_kinds hy hg (by simp)
    exact ⟨r, by rw [hset_lookup_ne _ _ _ hne, hy]⟩
  · intro y a hy
    have hne : y ≠ mA := ne_of_heap_kinds hy hg (by simp)
    exact ⟨a, by rw [hset_lookup_ne _ _ _ hne, hy], rfl, rfl⟩
  · intro y m hy
    by_cases hym : y = mA
    · have hmeq : m = mo := by
        rw [hym] at hy
        have h12 : some (Obj.mem m) = some (Obj.mem mo) := hy.symm.trans hg
        simpa using h12
      refine ⟨{ mo with shortTerm := e }, by rw [hym]; exact hset_lookup_eq _ _ _,
        by rw [hmeq], ?_⟩
      refine Or.inr ⟨hFe, re, ?_⟩
      show hset h mA (.mem { mo with shortTerm := e }) e = some (.record re)
      rw [hset_lookup_ne _ _ _ hem, hrec]
    · exact ⟨m, by rw [hset_lookup_ne _ _ _ hym, hy], rfl, Or.inl rfl⟩
  · intro y m hy
    have hne : y ≠ mA := ne_of_heap_kinds hy hg (by simp)
    rw [hset_lookup_ne _ _ _ hne]
    exact hy
  · intro y s hy
    have hne : y ≠ mA := ne_of_heap_kinds hy hg (by simp)
    exact ⟨s, by rw [hset_lookup_ne _ _ _ hne, hy], rfl, rfl⟩
  · intro y hy
    have hne : y ≠ mA := by
      intro he2
      rw [he2, hg] at hy
      cases hy
    exact Or.inl (by rw [hset_lookup_ne _ _ _ hne, hy])

theorem heapCompat_trans {h h1 h2 : Heap} {F1 F2 : Nat → Prop}
    (c1 : HeapCompat h h1 F1) (c2 : HeapCompat h1 h2 F2) :
    HeapCompat h h2 (fun x => F1 x ∨ F2 x) := by
  refine ⟨?_, ?_, ?_, ?_, ?_, ?_⟩
  · intro y r hy
    obtain ⟨r1, hr1⟩ := c1.rec' y r hy
    exact c2.rec' y r1 hr1
  · intro y a hy
    obtain ⟨a1, ha1, ham, hamt⟩ := c1.agent y a hy
    obtain ⟨a2, ha2, ham2, hamt2⟩ := c2.agent y a1 ha1
    exact ⟨a2, ha2, by rw [ham2, ham], by rw [hamt2, hamt]⟩
  · intro y m hy
    obtain ⟨m1, hm1, hml1, hms1⟩ := c1.mem y m hy
    obtain ⟨m2, hm2, hml2, hms2⟩ := c2.mem y m1 hm1
    refine ⟨m2, hm2, by rw [hml2, hml1], ?_⟩
    rcases hms2 with heq2 | ⟨hF2, r2, hr2⟩
    · rcases hms1 with heq1 | ⟨hF1, r1, hr1⟩
      · exact Or.inl (heq2.trans heq1)
      · obtain ⟨r2, hr2x⟩ := c2.rec' m1.shortTerm r1 hr1
        refine Or.inr ⟨Or.inl (by rw [heq2]; exact hF1), r2, ?_⟩
        rw [heq2]
        exact hr2x
    · exact Or.inr ⟨Or.inr hF2, r2, hr2⟩
  · intro y m hy
    exact c2.amap y m (c1.amap y m hy)
  · intro y s hy
    obtain ⟨s1, hs1, hsa1, hsg1⟩ := c1.sys y s hy
    obtain ⟨s2, hs2, hsa2, hsg2⟩ := c2.sys y s1 hs1
    exact ⟨s2, hs2, by rw [hsa2, hsa1], by rw [hsg2, hsg1]⟩
  · intro y hy
    rcases c1.none' y hy with hn | ⟨r, hr⟩
    · exact c2.none' y hn
    · obtain ⟨r2, hr2⟩ := c2.rec' y r hr
      exact Or.inr ⟨r2, hr2⟩

theorem heapCompat_mono {h h' : Heap} {F G : Nat → Prop}
    (c : HeapCompat h h' F) (hFG : ∀ x, F x → G x) : HeapCompat h h' G := by
  refine ⟨c.rec', c.agent, ?_, c.amap, c.sys, c.none'⟩
  intro y m hy
  obtain ⟨m2, hm2, hml, hms⟩ := c.mem y m hy
  refine ⟨m2, hm2, hml, ?_⟩
  rcases hms with heq | ⟨hF, hr⟩
  · exact Or.inl heq
  · exact Or.inr ⟨hFG _ hF, hr⟩

/-! ### Live-footprint membership and the root write -/

theorem mem_liveFootprint_root (σ : SM) : σ.current ∈ liveFootprint σ := by
  simp [liveFootprint, stateFootprint]

theorem mem_stateFootprint_agents {h : Heap} {c : Nat} {so : SysObj}
    (hcs : h c = some (.sys so)) : so.agents ∈ stateFootprint h c := by
  simp [stateFootprint, hcs]

theorem mem_stateFootprint_gc {h : Heap} {c : Nat} {so : SysObj}
    (hcs : h c = some (.sys so)) : so.globalContext ∈ stateFootprint h c := by
  simp [stateFootprint, hcs]

theorem mem_stateFootprint_of_agent {h : Heap} {c : Nat} {so : SysObj}
    {am : List (Persona × Nat)} (hcs : h c = some (.sys so))
    (hamc : h so.agents = some (.amap am)) {e : Persona × Nat} (he : e ∈ am) :
    ∀ x ∈ agentFootprint h e.2, x ∈ stateFootprint h c := by
  intro x hx
  simp only [stateFootprint, hcs, hamc, List.mem_cons]
  exact Or.inr (Or.inr (Or.inr (List.mem_flatMap.mpr ⟨e, he, hx⟩)))

/-- An in-place write of the root's scalar `phase` field changes the
pure view by exactly that field. -/
theorem viewState_set_root {h : Heap} {c : Nat} {so : SysObj} {p0 : PureState}
    (hcs : h c = some (.sys so)) (hv : viewState h c = some p0) (ph : Phase) :
    viewState (hset h c (.sys { so with phase := ph })) c =
      some { p0 with phase := ph } := by
  obtain ⟨so2, am, gc, pas, hcs2, hamc, hgcc, hvas, hveq⟩ :=
    viewState_unpack (h := h) (c := c) (by rw [hv]; rfl)
  have hso : so2 = so := by
    have h12 : some (Obj.sys so2) = some (Obj.sys so) := hcs2.symm.trans hcs
    simpa using h12
  subst hso
  have hp0 : p0 = { id := so2.id, phase := so2.phase, agents := pas,
                    globalContext := gc, timestamp := so2.timestamp } := by
    rw [hv] at hveq
    simpa using hveq
  have hc2 : hset h c (.sys { so2 with phase := ph }) c =
      some (.sys { so2 with phase := ph }) := hset_lookup_eq _ _ _
  have hagne : so2.agents ≠ c := ne_of_heap_kinds hamc hcs (by simp)
  have hgcne : so2.globalContext ≠ c := ne_of_heap_kinds hgcc hcs (by simp)
  have ham2 : hset h c (.sys { so2 with phase := ph }) so2.agents =
      some (.amap am) := by
    rw [hset_lookup_ne _ _ _ hagne]
    exact hamc
  have hgc2 : hset h c (.sys { so2 with phase := ph }) so2.globalContext =
      some (.record gc) := by
    rw [hset_lookup_ne _ _ _ hgcne]
    exact hgcc
  have hvas2 : viewAgents (hset h c (.sys { so2 with phase := ph })) am = some pas := by
    have hfr : ∀ e ∈ am, ∀ x ∈ agentFootprint h e.2,
        hset h c (.sys { so2 with phase := ph }) x = h x := by
      intro e he x hx
      have hva := viewAgents_mem_isSome h e am pas hvas he
      obtain ⟨ao, mo, st, lt, mt, hac, hmo2, hst, hlt, hmt, hfp, -⟩ := viewAgent_unpack hva
      rw [hfp] at hx
      have hxne : x ≠ c := by
        simp only [List.mem_cons, List.not_mem_nil, or_false] at hx
        rcases hx with rfl | rfl | rfl | rfl | rfl
        · exact ne_of_heap_kinds hac hcs (by simp)
        · exact ne_of_heap_kinds hmo2 hcs (by simp)
        · exact ne_of_heap_kinds hmt hcs (by simp)
        · exact ne_of_heap_kinds hst hcs (by simp)
        · exact ne_of_heap_kinds hlt hcs (by simp)
      exact hset_lookup_ne _ _ _ hxne
    exact ((viewAgents_frame h (hset h c (.sys { so2 with phase := ph })) am hfr).1).trans hvas
  simp only [viewState, hc2, ham2, hgc2, hvas2]
  rw [hp0]

/-- `updateGlobalContext` is an in-place write to the live context
record: one OpStep. -/
theorem step_updContext (σ : SM) (k v : String) (hG : Good σ) :
    OpStep σ (updateGlobalContext σ k v).2 := by
  obtain ⟨so, am, gc, pas, hcs, hamc, hgcc, hvas, hveq⟩ := viewState_unpack hG.1
  have hstep : (updateGlobalContext σ k v).2 =
      { σ with heap := hset σ.heap so.globalContext (.record (alSet gc k v)) } := by
    simp only [updateGlobalContext, hcs, hgcc]
  rw [hstep]
  have hcomp : HeapCompat σ.heap (hset σ.heap so.globalContext (.record (alSet gc k v)))
      (fun x => σ.nextAddr ≤ x) :=
    heapCompat_write_record σ.heap so.globalContext gc (alSet gc k v) hgcc _
  have hgclive : so.globalContext ∈ liveFootprint σ := mem_stateFootprint_gc hcs
  have hgclt : so.globalContext < σ.nextAddr := live_lt σ hG so.globalContext hgclive
  refine ⟨⟨?_, ?_⟩, le_refl _, ?_, ?_, ?_⟩
  · exact viewState_isSome_compat hcomp σ.current hG.1
  · intro x hx
    exact heapBound_hset σ.heap σ.nextAddr hG.2 so.globalContext _ hgclt x hx
  · intro x hnl hlt2
    have hxne : x ≠ so.globalContext := fun he => hnl (he ▸ hgclive)
    exact hset_lookup_ne _ _ _ hxne
  · intro x hx
    exact stateFootprint_sub_compat hcomp σ.current hG.1 x hx
  · intro hR
    have hcur : ({ σ with
        heap := hset σ.heap so.globalContext (.record (alSet gc k v)) } : SM).current =
        σ.current := rfl
    exact ⟨agentsKeys_compat hcomp hcur hR.1, hR.2⟩

/-! ### High extension of the materializers, and the snapshot / setPhase steps -/

theorem materializeAgent_high (σ : SM) (pa : PureAgent) :
    ∀ x, (materializeAgent σ pa).2.nextAddr ≤ x →
      (materializeAgent σ pa).2.heap x = σ.heap x := by
  intro x hx
  have h5 : (materializeAgent σ pa).2.nextAddr = σ.nextAddr + 5 := rfl
  rw [h5] at hx
  have n0 : ¬(x = σ.nextAddr) := by omega
  have n1 : ¬(x = σ.nextAddr + 1) := by omega
  have n2 : ¬(x = σ.nextAddr + 1 + 1) := by omega
  have n3 : ¬(x = σ.nextAddr + 1 + 1 + 1) := by omega
  have n4 : ¬(x = σ.nextAddr + 1 + 1 + 1 + 1) := by omega
  simp only [materializeAgent, alloc, hset]
  rw [if_neg n4, if_neg n3, if_neg n2, if_neg n1, if_neg n0]

theorem materializeAgents_high (σ : SM) (pas : List (Persona × PureAgent)) :
    ∀ x, (materializeAgents σ pas).2.nextAddr ≤ x →
      (materializeAgents σ pas).2.heap x = σ.heap x := by
  induction pas generalizing σ with
  | nil => intro x _; rfl
  | cons e rest ih =>
    intro x hx
    have hmono := (materializeAgents_parts (materializeAgent σ e.2).2 rest).2.1
    have h1 : (materializeAgents σ (e :: rest)).2 =
        (materializeAgents (materializeAgent σ e.2).2 rest).2 := rfl
    rw [h1] at hx ⊢
    rw [ih (materializeAgent σ e.2).2 x hx]
    exact materializeAgent_high σ e.2 x (le_trans hmono hx)

theorem materializeState_high (σ : SM) (p : PureState) :
    ∀ x, (materializeState σ p).2.nextAddr ≤ x →
      (materializeState σ p).2.heap x = σ.heap x := by
  intro x hx
  have hnext : (materializeState σ p).2.nextAddr =
      (materializeAgents σ p.agents).2.nextAddr + 1 + 1 + 1 := rfl
  have hH : (materializeState σ p).2.heap =
      hset (hset (hset (materializeAgents σ p.agents).2.heap
          (materializeAgents σ p.agents).2.nextAddr
          (.amap (materializeAgents σ p.agents).1))
        ((materializeAgents σ p.agents).2.nextAddr + 1) (.record p.globalContext))
      ((materializeAgents σ p.agents).2.nextAddr + 1 + 1)
      (.sys { id := p.id, phase := p.phase,
              agents := (materializeAgents σ p.agents).2.nextAddr,
              globalContext := (materializeAgents σ p.agents).2.nextAddr + 1,
              timestamp := p.timestamp }) := rfl
  rw [hnext] at hx
  rw [hH, hset_lookup_ne _ _ _ (by omega), hset_lookup_ne _ _ _ (by omega),
    hset_lookup_ne _ _ _ (by omega)]
  exact materializeAgents_high σ p.agents x (by omega)

/-- `createSnapshot` only allocates fresh addresses: one OpStep. -/
theorem step_snap (σ : SM) (reason : String) (hG : Good σ) :
    OpStep σ (createSnapshot σ reason).2 := by
  obtain ⟨p, hp⟩ := Option.isSome_iff_exists.mp hG.1
  have hdc : deepCloneState σ σ.current =
      (.ok ((materializeState σ p).1, p), (materializeState σ p).2) := by
    unfold deepCloneState
    rw [hp]
  obtain ⟨m1, m2, m3, m4, m5, m6, m7, m8, m9, m10⟩ := materializeState_parts σ p
  have hPH : (createSnapshot σ reason).2.heap = (materializeState σ p).2.heap := by
    unfold createSnapshot
    rw [hdc]
    rfl
  have hPN : (createSnapshot σ reason).2.nextAddr = (materializeState σ p).2.nextAddr := by
    unfold createSnapshot
    rw [hdc]
    rfl
  have hPC : (createSnapshot σ reason).2.current = (materializeState σ p).2.current := by
    unfold createSnapshot
    rw [hdc]
    rfl
  have hPR : (createSnapshot σ reason).2.redisSnaps =
      alSet (materializeState σ p).2.redisSnaps (materializeState σ p).2.nextId p := by
    unfold createSnapshot
    rw [hdc]
    rfl
  have hfr : ∀ x ∈ stateFootprint σ.heap σ.current,
      (materializeState σ p).2.heap x = σ.heap x := by
    intro x hx
    exact m2 x (live_lt σ hG x hx)
  obtain ⟨hveq, hfeq⟩ := viewState_frame σ.heap (materializeState σ p).2.heap σ.current hfr
  refine ⟨⟨?_, ?_⟩, ?_, ?_, ?_, ?_⟩
  · show (viewState (createSnapshot σ reason).2.heap (createSnapshot σ reason).2.current).isSome
    rw [hPH, hPC, m5, hveq, hp]
    rfl
  · intro x hx
    rw [hPN] at hx
    rw [hPH, materializeState_high σ p x hx]
    exact hG.2 x (le_trans m3 hx)
  · rw [hPN]
    exact m3
  · intro x hnl hlt
    rw [hPH]
    exact m2 x hlt
  · intro x hx
    have hx2 : x ∈ stateFootprint (createSnapshot σ reason).2.heap
        (createSnapshot σ reason).2.current := hx
    rw [hPH, hPC, m5, hfeq] at hx2
    exact Or.inl hx2
  · intro hR
    constructor
    · obtain ⟨so, am, hcs, hamc, hks⟩ := agentsKeys_unpack hR.1
      have hcs2 : (createSnapshot σ reason).2.heap (createSnapshot σ reason).2.current =
          some (.sys so) := by
        rw [hPH, hPC, m5, hfr σ.current (by simp [stateFootprint])]
        exact hcs
      have ham2 : (createSnapshot σ reason).2.heap so.agents = some (.amap am) := by
        rw [hPH, hfr so.agents (mem_stateFootprint_agents hcs)]
        exact hamc
      show agentsKeys (createSnapshot σ reason).2 = some roster
      simp only [agentsKeys, hcs2, ham2]
      rw [← hks]
    · intro e he
      rw [hPR] at he
      rcases alSet_mem_sub _ _ _ e he with hin | heq
      · rw [m7] at hin
        exact hR.2 e hin
      · obtain ⟨so, am, gc, pas, hcs, hamc, hgcc, hvas, hveq2⟩ := viewState_unpack hG.1
        have hpp : p = { id := so.id, phase := so.phase, agents := pas,
                         globalContext := gc, timestamp := so.timestamp } := by
          have h12 := hp.symm.trans hveq2
          simpa using h12
        have hak : agentsKeys σ = some (am.map Prod.fst) := by
          simp [agentsKeys, hcs, hamc]
        have haroster : am.map Prod.fst = roster := by
          have h13 := hak.symm.trans hR.1
          simpa using h13
        rw [heq]
        show p.agents.map Prod.fst = roster
        rw [hpp]
        show pas.map Prod.fst = roster
        rw [viewAgents_keys σ.heap am pas hvas]
        exact haroster

/-- `setPhase` = in-place root write, then a snapshot: one OpStep. -/
theorem step_setPh (σ : SM) (ph : Phase) (hG : Good σ) :
    OpStep σ (setPhase σ ph).2 := by
  obtain ⟨so, am, gc, pas, hcs, hamc, hgcc, hvas, hveq⟩ := viewState_unpack hG.1
  have hstep : (setPhase σ ph).2 =
      (createSnapshot
        { σ with heap := hset σ.heap σ.current (.sys { so with phase := ph }) }
        ("phase_transition_" ++ phaseStr so.phase ++ "_to_" ++ phaseStr ph)).2 := by
    simp only [setPhase, hcs]
    cases hcc : createSnapshot
        { σ with heap := hset σ.heap σ.current (.sys { so with phase := ph }) }
        ("phase_transition_" ++ phaseStr so.phase ++ "_to_" ++ phaseStr ph) with
    | mk r σ2 =>
      cases r with
      | ok u => rfl
      | error e2 => rfl
  have hclt : σ.current < σ.nextAddr := live_lt σ hG σ.current (mem_liveFootprint_root σ)
  have hG1 : Good { σ with heap := hset σ.heap σ.current (.sys { so with phase := ph }) } := by
    refine ⟨?_, ?_⟩
    · show (viewState (hset σ.heap σ.current (.sys { so with phase := ph })) σ.current).isSome
      rw [viewState_set_root hcs hveq ph]
      rfl
    · intro x hx
      exact heapBound_hset σ.heap σ.nextAddr hG.2 σ.current _ hclt x hx
  have hcomp : HeapCompat σ.heap (hset σ.heap σ.current (.sys { so with phase := ph }))
      (fun x => σ.nextAddr ≤ x) :=
    heapCompat_write_sys σ.heap σ.current so { so with phase := ph } hcs rfl rfl _
  have hs1 : OpStep σ { σ with heap := hset σ.heap σ.current (.sys { so with phase := ph }) } := by
    refine ⟨hG1, le_refl _, ?_, ?_, ?_⟩
    · intro x hnl hlt
      have hxne : x ≠ σ.current := fun he => hnl (he ▸ mem_liveFootprint_root σ)
      exact hset_lookup_ne _ _ _ hxne
    · intro x hx
      exact stateFootprint_sub_compat hcomp σ.current hG.1 x hx
    · intro hR
      have hcur : ({ σ with
          heap := hset σ.heap σ.current (.sys { so with phase := ph }) } : SM).current =
          σ.current := rfl
      exact ⟨agentsKeys_compat hcomp hcur hR.1, hR.2⟩
  have hs2 := step_snap { σ with heap := hset σ.heap σ.current (.sys { so with phase := ph }) }
    ("phase_transition_" ++ phaseStr so.phase ++ "_to_" ++ phaseStr ph) hG1
  rw [hstep]
  exact opStep_trans hs1 hs2

/-- `restoreSnapshot` either throws (unknown id, state unchanged) or
materializes a fresh graph as the new live state: one OpStep. -/
theorem step_restore (σ : SM) (sid : Nat) (hG : Good σ) :
    OpStep σ (restoreSnapshot σ sid).2 := by
  cases hlu : σ.redisSnaps.lookup sid with
  | none =>
    have hstep : (restoreSnapshot σ sid).2 = σ := by
      simp only [restoreSnapshot, hlu]
    rw [hstep]
    exact opStep_refl σ hG
  | some p =>
    have hstep : (restoreSnapshot σ sid).2 =
        { (materializeState σ p).2 with current := (materializeState σ p).1 } := by
      simp only [restoreSnapshot, hlu]
    obtain ⟨m1, m2, m3, m4, m5, m6, m7, m8, m9, m10⟩ := materializeState_parts σ p
    rw [hstep]
    refine ⟨⟨?_, ?_⟩, ?_, ?_, ?_, ?_⟩
    · show (viewState (materializeState σ p).2.heap (materializeState σ p).1).isSome
      rw [m1]
      rfl
    · intro x hx
      have hx2 : (materializeState σ p).2.nextAddr ≤ x := hx
      show (materializeState σ p).2.heap x = none
      rw [materializeState_high σ p x hx2]
      exact hG.2 x (le_trans m3 hx2)
    · exact m3
    · intro x hnl hlt
      exact m2 x hlt
    · intro x hx
      exact Or.inr (m4 x hx).1
    · intro hR
      constructor
      · have hpmem : (sid, p) ∈ σ.redisSnaps := lookup_mem _ _ _ hlu
        have hpk : p.agents.map Prod.fst = roster := hR.2 (sid, p) hpmem
        have hHx : (materializeState σ p).2.heap =
            hset (hset (hset (materializeAgents σ p.agents).2.heap
                (materializeAgents σ p.agents).2.nextAddr
                (.amap (materializeAgents σ p.agents).1))
              ((materializeAgents σ p.agents).2.nextAddr + 1) (.record p.globalContext))
            ((materializeAgents σ p.agents).2.nextAddr + 1 + 1)
            (.sys { id := p.id, phase := p.phase,
                    agents := (materializeAgents σ p.agents).2.nextAddr,
                    globalContext := (materializeAgents σ p.agents).2.nextAddr + 1,
                    timestamp := p.timestamp }) := rfl
        have hm2x : (materializeState σ p).2.heap
            ((materializeAgents σ p.agents).2.nextAddr + 1 + 1) =
            some (.sys { id := p.id, phase := p.phase,
                         agents := (materializeAgents σ p.agents).2.nextAddr,
                         globalContext := (materializeAgents σ p.agents).2.nextAddr + 1,
                         timestamp := p.timestamp }) := by
          rw [hHx, hset_lookup_eq]
        have hm0x : (materializeState σ p).2.heap (materializeAgents σ p.agents).2.nextAddr =
            some (.amap (materializeAgents σ p.agents).1) := by
          rw [hHx, hset_lookup_ne _ _ _ (by omega), hset_lookup_ne _ _ _ (by omega),
            hset_lookup_eq]
        have hkeys1 := (materializeAgents_parts σ p.agents).1
        have hroot : (materializeState σ p).1 =
            (materializeAgents σ p.agents).2.nextAddr + 1 + 1 := rfl
        show agentsKeys { (materializeState σ p).2 with
            current := (materializeState σ p).1 } = some roster
        simp only [agentsKeys, hroot, hm2x, hm0x]
        rw [hkeys1, hpk]
      · intro e he
        have he2 : e ∈ σ.redisSnaps := by
          have he3 : e ∈ (materializeState σ p).2.redisSnaps := he
          rw [m7] at he3
          exact he3
        exact hR.2 e he2

/-- A record rewrite plus an agent-object replacement, both at live
addresses: the shared shape of `updateAgentMemory`'s success path. -/
theorem step_two_writes (σ : SM) (hG : Good σ) (tA aAddr : Nat)
    (r0 r' : List (String × String)) (ao : AgentObj) (t : Nat)
    (hrt : σ.heap tA = some (.record r0)) (hag : σ.heap aAddr = some (.agent ao))
    (htlive : tA ∈ liveFootprint σ) (halive : aAddr ∈ liveFootprint σ) :
    OpStep σ { σ with
      heap := hset (hset σ.heap tA (.record r')) aAddr
        (.agent { ao with lastUpdated := t }),
      clock := σ.clock + 1 } := by
  have hcomp1 := heapCompat_write_record σ.heap tA r0 r' hrt (fun x => σ.nextAddr ≤ x)
  have hag1 : hset σ.heap tA (.record r') aAddr = some (.agent ao) := by
    rw [hset_lookup_ne _ _ _ (ne_of_heap_kinds hag hrt (by simp))]
    exact hag
  have hcomp2 := heapCompat_write_agent (hset σ.heap tA (.record r')) aAddr ao
    { ao with lastUpdated := t } hag1 rfl rfl (fun x => σ.nextAddr ≤ x)
  have hcomp := heapCompat_mono (heapCompat_trans hcomp1 hcomp2)
    (fun x hx => hx.elim id id)
  have htlt := live_lt σ hG tA htlive
  have halt := live_lt σ hG aAddr halive
  refine ⟨⟨?_, ?_⟩, le_refl _, ?_, ?_, ?_⟩
  · exact viewState_isSome_compat hcomp σ.current hG.1
  · intro x hx
    exact heapBound_hset _ σ.nextAddr
      (heapBound_hset _ σ.nextAddr hG.2 tA _ htlt) aAddr _ halt x hx
  · intro x hnl hlt
    have hxa : x ≠ aAddr := fun he => hnl (he ▸ halive)
    have hxt : x ≠ tA := fun he => hnl (he ▸ htlive)
    show hset (hset σ.heap tA (.record r')) aAddr
      (.agent { ao with lastUpdated := t }) x = σ.heap x
    rw [hset_lookup_ne _ _ _ hxa, hset_lookup_ne _ _ _ hxt]
  · intro x hx
    exact stateFootprint_sub_compat hcomp σ.current hG.1 x hx
  · intro hR
    have hcur : ({ σ with
        heap := hset (hset σ.heap tA (.record r')) aAddr
          (.agent { ao with lastUpdated := t }),
        clock := σ.clock + 1 } : SM).current = σ.current := rfl
    exact ⟨agentsKeys_compat hcomp hcur hR.1, hR.2⟩

/-- `updateAgentMemory` throws (unknown persona, unchanged) or does an
in-place tier write plus a `lastUpdated` touch: one OpStep. -/
theorem step_updMemory (σ : SM) (p : Persona) (tier : MemTier) (k v : String)
    (hG : Good σ) : OpStep σ (updateAgentMemory σ p tier k v).2 := by
  obtain ⟨so, am, gc, pas, hcs, hamc, hgcc, hvas, hveq⟩ := viewState_unpack hG.1
  cases hlu : am.lookup p with
  | none =>
    have hstep : (updateAgentMemory σ p tier k v).2 = σ := by
      simp only [updateAgentMemory, hcs, hamc, hlu]
    rw [hstep]
    exact opStep_refl σ hG
  | some aAddr =>
    have hemem : (p, aAddr) ∈ am := lookup_mem _ _ _ hlu
    have hva := viewAgents_mem_isSome σ.heap (p, aAddr) am pas hvas hemem
    obtain ⟨ao, mo, st, lt, mt, hac, hmo, hst, hlt, hmt, hfp, hview⟩ := viewAgent_unpack hva
    have hac2 : σ.heap aAddr = some (.agent ao) := hac
    have halive : aAddr ∈ liveFootprint σ :=
      mem_stateFootprint_of_agent hcs hamc hemem aAddr (by rw [hfp]; simp)
    have hstlive : mo.shortTerm ∈ liveFootprint σ :=
      mem_stateFootprint_of_agent hcs hamc hemem mo.shortTerm (by rw [hfp]; simp)
    have hltlive : mo.longTerm ∈ liveFootprint σ :=
      mem_stateFootprint_of_agent hcs hamc hemem mo.longTerm (by rw [hfp]; simp)
    cases tier with
    | shortTerm =>
      have hstep : (updateAgentMemory σ p MemTier.shortTerm k v).2 =
          { σ with
            heap := hset (hset σ.heap mo.shortTerm (.record (alSet st k v))) aAddr
              (.agent { ao with lastUpdated := σ.clock }),
            clock := σ.clock + 1 } := by
        simp only [updateAgentMemory, hcs, hamc, hlu, hac2, hmo, hst, tick]
      rw [hstep]
      exact step_two_writes σ hG mo.shortTerm aAddr st (alSet st k v) ao σ.clock
        hst hac2 hstlive halive
    | longTerm =>
      have hstep : (updateAgentMemory σ p MemTier.longTerm k v).2 =
          { σ with
            heap := hset (hset σ.heap mo.longTerm (.record (alSet lt k v))) aAddr
              (.agent { ao with lastUpdated := σ.clock }),
            clock := σ.clock + 1 } := by
        simp only [updateAgentMemory, hcs, hamc, hlu, hac2, hmo, hlt, tick]
      rw [hstep]
      exact step_two_writes σ hG mo.longTerm aAddr lt (alSet lt k v) ao σ.clock
        hlt hac2 hltlive halive

/-- `clearShortTermMemory` is a silent no-op for an unknown persona;
otherwise it allocates a fresh empty record, redirects `shortTerm` in
place and touches `lastUpdated`: one OpStep. -/
theorem step_clearShort (σ : SM) (p : Persona) (hG : Good σ) :
    OpStep σ (clearShortTermMemory σ p).2 := by
  obtain ⟨so, am, gc, pas, hcs, hamc, hgcc, hvas, hveq⟩ := viewState_unpack hG.1
  cases hlu : am.lookup p with
  | none =>
    have hstep : (clearShortTermMemory σ p).2 = σ := by
      simp only [clearShortTermMemory, hcs, hamc, hlu]
    rw [hstep]
    exact opStep_refl σ hG
  | some aAddr =>
    have hemem : (p, aAddr) ∈ am := lookup_mem _ _ _ hlu
    have hva := viewAgents_mem_isSome σ.heap (p, aAddr) am pas hvas hemem
    obtain ⟨ao, mo, st, lt, mt, hac, hmo, hst, hlt, hmt, hfp, hview⟩ := viewAgent_unpack hva
    have hac2 : σ.heap aAddr = some (.agent ao) := hac
    have halive : aAddr ∈ liveFootprint σ :=
      mem_stateFootprint_of_agent hcs hamc hemem aAddr (by rw [hfp]; simp)
    have hmlive : ao.memory ∈ liveFootprint σ :=
      mem_stateFootprint_of_agent hcs hamc hemem ao.memory (by rw [hfp]; simp)
    have halt := live_lt σ hG aAddr halive
    have hmlt := live_lt σ hG ao.memory hmlive
    have hfree : σ.heap σ.nextAddr = none := hG.2 σ.nextAddr (le_refl _)
    have hstep : (clearShortTermMemory σ p).2 =
        { σ with
          heap := hset (hset (hset σ.heap σ.nextAddr (.record []))
              ao.memory (.mem { mo with shortTerm := σ.nextAddr })) aAddr
            (.agent { ao with lastUpdated := σ.clock }),
          nextAddr := σ.nextAddr + 1, clock := σ.clock + 1 } := by
      simp only [clearShortTermMemory, hcs, hamc, hlu, hac2, hmo, tick, alloc]
    rw [hstep]
    have hc0 := heapCompat_alloc_record σ.heap σ.nextAddr [] hfree (fun x => σ.nextAddr ≤ x)
    have hmo1 : hset σ.heap σ.nextAddr (.record []) ao.memory = some (.mem mo) := by
      rw [hset_lookup_ne _ _ _ (by omega)]
      exact hmo
    have hrec1 : hset σ.heap σ.nextAddr (.record []) σ.nextAddr = some (.record []) :=
      hset_lookup_eq _ _ _
    have hc1 := heapCompat_write_mem_short (hset σ.heap σ.nextAddr (.record []))
      ao.memory σ.nextAddr mo [] hmo1 hrec1 (by omega) (fun x => σ.nextAddr ≤ x) (le_refl _)
    have hamem : aAddr ≠ ao.memory := ne_of_heap_kinds hac2 hmo (by simp)
    have hag2 : hset (hset σ.heap σ.nextAddr (.record []))
        ao.memory (.mem { mo with shortTerm := σ.nextAddr }) aAddr = some (.agent ao) := by
      rw [hset_lookup_ne _ _ _ hamem, hset_lookup_ne _ _ _ (by omega)]
      exact hac2
    have hc2 := heapCompat_write_agent
      (hset (hset σ.heap σ.nextAddr (.record []))
        ao.memory (.mem { mo with shortTerm := σ.nextAddr }))
      aAddr ao { ao with lastUpdated := σ.clock } hag2 rfl rfl (fun x => σ.nextAddr ≤ x)
    have hcomp := heapCompat_mono (heapCompat_trans (heapCompat_trans hc0 hc1) hc2)
      (fun x hx => hx.elim (fun hy => hy.elim id id) id)
    refine ⟨⟨?_, ?_⟩, ?_, ?_, ?_, ?_⟩
    · exact viewState_isSome_compat hcomp σ.current hG.1
    · intro x hx
      have hx2 : σ.nextAddr + 1 ≤ x := hx
      show hset (hset (hset σ.heap σ.nextAddr (.record []))
          ao.memory (.mem { mo with shortTerm := σ.nextAddr })) aAddr
        (.agent { ao with lastUpdated := σ.clock }) x = none
      rw [hset_lookup_ne _ _ _ (by omega), hset_lookup_ne _ _ _ (by omega),
        hset_lookup_ne _ _ _ (by omega)]
      exact hG.2 x (by omega)
    · show σ.nextAddr ≤ σ.nextAddr + 1
      omega
    · intro x hnl hlt
      have hxa : x ≠ aAddr := fun he => hnl (he ▸ halive)
      have hxm : x ≠ ao.memory := fun he => hnl (he ▸ hmlive)
      show hset (hset (hset σ.heap σ.nextAddr (.record []))
          ao.memory (.mem { mo with shortTerm := σ.nextAddr })) aAddr
        (.agent { ao with lastUpdated := σ.clock }) x = σ.heap x
      rw [hset_lookup_ne _ _ _ hxa, hset_lookup_ne _ _ _ hxm,
        hset_lookup_ne _ _ _ (by omega)]
    · intro x hx
      exact stateFootprint_sub_compat hcomp σ.current hG.1 x hx
    · intro hR
      have hcur : ({ σ with
          heap := hset (hset (hset σ.heap σ.nextAddr (.record []))
              ao.memory (.mem { mo with shortTerm := σ.nextAddr })) aAddr
            (.agent { ao with lastUpdated := σ.clock }),
          nextAddr := σ.nextAddr + 1, clock := σ.clock + 1 } : SM).current = σ.current := rfl
      exact ⟨agentsKeys_compat hcomp hcur hR.1, hR.2⟩

/-- Allocating a fresh agent object that aliases the old one's
`memory`/`metrics` and pointing the shared agents map at it in place:
the shape of `updateAgentState`'s success path. -/
theorem step_agent_replace (σ : SM) (hG : Good σ)
    (so : SysObj) (am : List (Persona × Nat)) (gc : List (String × String))
    (pas : List (Persona × PureAgent)) (p : Persona) (aAddr : Nat) (ao ao' : AgentObj)
    (hcs : σ.heap σ.current = some (.sys so))
    (hamc : σ.heap so.agents = some (.amap am))
    (hgcc : σ.heap so.globalContext = some (.record gc))
    (hvas : viewAgents σ.heap am = some pas)
    (hemem : (p, aAddr) ∈ am)
    (hm : ao'.memory = ao.memory) (hmt : ao'.metrics = ao.metrics)
    (hac2 : σ.heap aAddr = some (.agent ao)) :
    OpStep σ { σ with
      heap := hset (hset σ.heap σ.nextAddr (.agent ao')) so.agents
        (.amap (alSet am p σ.nextAddr)),
      nextAddr := σ.nextAddr + 1, clock := σ.clock + 1 } := by
  have hva := viewAgents_mem_isSome σ.heap (p, aAddr) am pas hvas hemem
  obtain ⟨ao2, mo, st, lt, mt, hac3, hmo, hst, hlt, hmt2, hfp, hview⟩ := viewAgent_unpack hva
  have hao : ao2 = ao := by
    have h12 : some (Obj.agent ao2) = some (Obj.agent ao) := hac3.symm.trans hac2
    simpa using h12
  subst hao
  have hclive := mem_liveFootprint_root σ
  have hglive : so.agents ∈ liveFootprint σ := mem_stateFootprint_agents hcs
  have hgclive : so.globalContext ∈ liveFootprint σ := mem_stateFootprint_gc hcs
  have hmlive : ao2.memory ∈ liveFootprint σ :=
    mem_stateFootprint_of_agent hcs hamc hemem ao2.memory (by rw [hfp]; simp)
  have hmtlive : ao2.metrics ∈ liveFootprint σ :=
    mem_stateFootprint_of_agent hcs hamc hemem ao2.metrics (by rw [hfp]; simp)
  have hstlive : mo.shortTerm ∈ liveFootprint σ :=
    mem_stateFootprint_of_agent hcs hamc hemem mo.shortTerm (by rw [hfp]; simp)
  have hltlive : mo.longTerm ∈ liveFootprint σ :=
    mem_stateFootprint_of_agent hcs hamc hemem mo.longTerm (by rw [hfp]; simp)
  have hclt := live_lt σ hG σ.current hclive
  have hglt := live_lt σ hG so.agents hglive
  have hnane : ∀ (y : Nat) (o : Obj), σ.heap y = some o → y ≠ σ.nextAddr := by
    intro y o hy he
    rw [he, hG.2 σ.nextAddr (le_refl _)] at hy
    cases hy
  set h2 : Heap := hset (hset σ.heap σ.nextAddr (.agent ao')) so.agents
    (.amap (alSet am p σ.nextAddr)) with hh2
  have hcg : σ.current ≠ so.agents := ne_of_heap_kinds hcs hamc (by simp)
  have h2c : h2 σ.current = some (.sys so) := by
    rw [hh2, hset_lookup_ne _ _ _ hcg, hset_lookup_ne _ _ _ (hnane _ _ hcs)]
    exact hcs
  have h2g : h2 so.agents = some (.amap (alSet am p σ.nextAddr)) := by
    rw [hh2]
    exact hset_lookup_eq _ _ _
  have hgcg : so.globalContext ≠ so.agents := ne_of_heap_kinds hgcc hamc (by simp)
  have h2gc : h2 so.globalContext = some (.record gc) := by
    rw [hh2, hset_lookup_ne _ _ _ hgcg, hset_lookup_ne _ _ _ (hnane _ _ hgcc)]
    exact hgcc
  have hold : ∀ e ∈ am, viewAgent h2 e.2 = viewAgent σ.heap e.2 ∧
      agentFootprint h2 e.2 = agentFootprint σ.heap e.2 := by
    intro e he
    apply viewAgent_frame
    intro x hx
    have hva2 := viewAgents_mem_isSome σ.heap e am pas hvas he
    obtain ⟨ao3, mo3, st3, lt3, mt3, hac4, hmo4, hst4, hlt4, hmt4, hfp4, -⟩ :=
      viewAgent_unpack hva2
    rw [hfp4] at hx
    simp only [List.mem_cons, List.not_mem_nil, or_false] at hx
    have hxg : x ≠ so.agents := by
      rcases hx with rfl | rfl | rfl | rfl | rfl
      · exact ne_of_heap_kinds hac4 hamc (by simp)
      · exact ne_of_heap_kinds hmo4 hamc (by simp)
      · exact ne_of_heap_kinds hmt4 hamc (by simp)
      · exact ne_of_heap_kinds hst4 hamc (by simp)
      · exact ne_of_heap_kinds hlt4 hamc (by simp)
    have hxna : x ≠ σ.nextAddr := by
      rcases hx with rfl | rfl | rfl | rfl | rfl
      · exact hnane _ _ hac4
      · exact hnane _ _ hmo4
      · exact hnane _ _ hmt4
      · exact hnane _ _ hst4
      · exact hnane _ _ hlt4
    rw [hh2, hset_lookup_ne _ _ _ hxg, hset_lookup_ne _ _ _ hxna]
  have h2na : h2 σ.nextAddr = some (.agent ao') := by
    rw [hh2, hset_lookup_ne _ _ _ (Ne.symm (hnane _ _ hamc))]
    exact hset_lookup_eq _ _ _
  have h2mem : h2 ao2.memory = some (.mem mo) := by
    rw [hh2, hset_lookup_ne _ _ _ (ne_of_heap_kinds hmo hamc (by simp)),
      hset_lookup_ne _ _ _ (hnane _ _ hmo)]
    exact hmo
  have h2st : h2 mo.shortTerm = some (.record st) := by
    rw [hh2, hset_lookup_ne _ _ _ (ne_of_heap_kinds hst hamc (by simp)),
      hset_lookup_ne _ _ _ (hnane _ _ hst)]
    exact hst
  have h2lt : h2 mo.longTerm = some (.record lt) := by
    rw [hh2, hset_lookup_ne _ _ _ (ne_of_heap_kinds hlt hamc (by simp)),
      hset_lookup_ne _ _ _ (hnane _ _ hlt)]
    exact hlt
  have h2mt : h2 ao2.metrics = some (.record mt) := by
    rw [hh2, hset_lookup_ne _ _ _ (ne_of_heap_kinds hmt2 hamc (by simp)),
      hset_lookup_ne _ _ _ (hnane _ _ hmt2)]
    exact hmt2
  have h2vnew : viewAgent h2 σ.nextAddr =
      some { persona := ao'.persona, state := ao'.state, shortTerm := st,
             longTerm := lt, currentTasks := ao'.currentTasks, metrics := mt,
             lastUpdated := ao'.lastUpdated } := by
    simp only [viewAgent, h2na, hm, h2mem, h2st, h2lt, hmt, h2mt]
  have h2fnew : agentFootprint h2 σ.nextAddr =
      [σ.nextAddr, ao2.memory, ao2.metrics, mo.shortTerm, mo.longTerm] := by
    simp only [agentFootprint, h2na, hm, hmt, h2mem]
  have hvall : ∀ e ∈ alSet am p σ.nextAddr, (viewAgent h2 e.2).isSome := by
    intro e he
    rcases alSet_mem_sub am p σ.nextAddr e he with hin | heqe
    · rw [(hold e hin).1]
      exact viewAgents_mem_isSome σ.heap e am pas hvas hin
    · rw [heqe]
      show (viewAgent h2 σ.nextAddr).isSome
      rw [h2vnew]
      rfl
  have hvas2 := viewAgents_isSome_of h2 (alSet am p σ.nextAddr) hvall
  obtain ⟨pas2, hpas2⟩ := Option.isSome_iff_exists.mp hvas2
  refine ⟨⟨?_, ?_⟩, ?_, ?_, ?_, ?_⟩
  · show (viewState h2 σ.current).isSome
    simp only [viewState, h2c, h2g, h2gc, hpas2]
    rfl
  · intro x hx
    have hx2 : σ.nextAddr + 1 ≤ x := hx
    show h2 x = none
    rw [hh2, hset_lookup_ne _ _ _ (by omega), hset_lookup_ne _ _ _ (by omega)]
    exact hG.2 x (by omega)
  · show σ.nextAddr ≤ σ.nextAddr + 1
    omega
  · intro x hnl hlt
    have hxg : x ≠ so.agents := fun he => hnl (he ▸ hglive)
    show h2 x = σ.heap x
    rw [hh2, hset_lookup_ne _ _ _ hxg, hset_lookup_ne _ _ _ (by omega)]
  · intro x hx
    have hx2 : x ∈ stateFootprint h2 σ.current := hx
    simp only [stateFootprint, h2c, h2g, List.mem_cons] at hx2
    rcases hx2 with rfl | rfl | rfl | hx2
    · exact Or.inl hclive
    · exact Or.inl hglive
    · exact Or.inl hgclive
    · rw [List.mem_flatMap] at hx2
      obtain ⟨e, he, hxe⟩ := hx2
      rcases alSet_mem_sub am p σ.nextAddr e he with hin | heqe
      · rw [(hold e hin).2] at hxe
        exact Or.inl (mem_stateFootprint_of_agent hcs hamc hin x hxe)
      · rw [heqe] at hxe
        have hxe2 : x ∈ agentFootprint h2 σ.nextAddr := hxe
        rw [h2fnew] at hxe2
        simp only [List.mem_cons, List.not_mem_nil, or_false] at hxe2
        rcases hxe2 with rfl | rfl | rfl | rfl | rfl
        · exact Or.inr (le_refl _)
        · exact Or.inl hmlive
        · exact Or.inl hmtlive
        · exact Or.inl hstlive
        · exact Or.inl hltlive
  · intro hR
    constructor
    · show agentsKeys { σ with
          heap := h2, nextAddr := σ.nextAddr + 1, clock := σ.clock + 1 } = some roster
      simp only [agentsKeys, h2c, h2g]
      have hany : (am.any fun e => decide (e.1 = p)) = true := by
        rw [List.any_eq_true]
        exact ⟨(p, aAddr), hemem, by simp⟩
      have hkeys : (alSet am p σ.nextAddr).map Prod.fst = am.map Prod.fst := by
        unfold alSet
        rw [if_pos hany]
        exact alSet_keys am p σ.nextAddr
      rw [hkeys]
      have hak : agentsKeys σ = some (am.map Prod.fst) := by
        simp [agentsKeys, hcs, hamc]
      have h13 := hak.symm.trans hR.1
      simpa using h13
    · intro e he
      exact hR.2 e he

/-- `updateAgentState` throws (unknown persona, unchanged) or replaces
the persona's entry with a fresh spread-copied agent object: one OpStep. -/
theorem step_updAgent (σ : SM) (p : Persona) (u : AgentUpd) (hG : Good σ) :
    OpStep σ (updateAgentState σ p u).2 := by
  obtain ⟨so, am, gc, pas, hcs, hamc, hgcc, hvas, hveq⟩ := viewState_unpack hG.1
  cases hlu : am.lookup p with
  | none =>
    have hstep : (updateAgentState σ p u).2 = σ := by
      simp only [updateAgentState, hcs, hamc, hlu]
    rw [hstep]
    exact opStep_refl σ hG
  | some aAddr =>
    have hemem : (p, aAddr) ∈ am := lookup_mem _ _ _ hlu
    have hva := viewAgents_mem_isSome σ.heap (p, aAddr) am pas hvas hemem
    obtain ⟨ao, mo, st, lt, mt, hac, hmo, hst, hlt, hmt, hfp, hview⟩ := viewAgent_unpack hva
    have hac2 : σ.heap aAddr = some (.agent ao) := hac
    have hstep : (updateAgentState σ p u).2 =
        { σ with
          heap := hset (hset σ.heap σ.nextAddr
              (.agent { persona := ao.persona, state := u.state.getD ao.state,
                        memory := ao.memory,
                        currentTasks := u.currentTasks.getD ao.currentTasks,
                        metrics := ao.metrics, lastUpdated := σ.clock }))
            so.agents (.amap (alSet am p σ.nextAddr)),
          nextAddr := σ.nextAddr + 1, clock := σ.clock + 1 } := by
      simp only [updateAgentState, hcs, hamc, hlu, hac2, tick, alloc]
    rw [hstep]
    exact step_agent_replace σ hG so am gc pas p aAddr ao
      { persona := ao.persona, state := u.state.getD ao.state, memory := ao.memory,
        currentTasks := u.currentTasks.getD ao.currentTasks, metrics := ao.metrics,
        lastUpdated := σ.clock }
      hcs hamc hgcc hvas hemem rfl rfl hac2

/-- Every Store API call is one OpStep. -/
theorem op_step (σ : SM) (op : ApiOp) (hG : Good σ) : OpStep σ (applyOp σ op) := by
  cases op with
  | updAgent p u => exact step_updAgent σ p u hG
  | updMemory p tier k v => exact step_updMemory σ p tier k v hG
  | clearShort p => exact step_clearShort σ p hG
  | updContext k v => exact step_updContext σ k v hG
  | setPh ph => exact step_setPh σ ph hG
  | snap reason => exact step_snap σ reason hG
  | restore sid => exact step_restore σ sid hG

/-- Steps compose over any call sequence. -/
theorem ops_step (σ : SM) (ops : List ApiOp) (hG : Good σ) :
    OpStep σ (applyOps σ ops) := by
  induction ops generalizing σ with
  | nil => exact opStep_refl σ hG
  | cons op rest ih =>
    have h1 := op_step σ op hG
    have h2 := ih (applyOp σ op) h1.good
    exact opStep_trans h1 h2

/-- The freshly initialized service is well-formed and bounded. -/
theorem good_init : Good initState := by
  constructor
  · decide
  · intro x hx
    have h33 : (33 : Nat) ≤ x := hx
    show initState.heap x = none
    simp only [initState, initAgents, initAgentData, alloc, tick, freshId, roster,
      hset, hempty]
    repeat rw [if_neg (by omega)]

/-- The freshly initialized service satisfies the roster invariant. -/
theorem rosterInv_init : RosterInv initState := by
  constructor
  · decide
  · intro e he
    have he2 : e ∈ ([] : List (Nat × PureState)) := he
    exact absurd he2 (List.not_mem_nil e)

/-- Two roots holding the same `SystemState` object view identically. -/
theorem viewState_congr_root {h : Heap} {a b : Nat} {so : SysObj}
    (ha : h a = some (.sys so)) (hb : h b = some (.sys so)) :
    viewState h a = viewState h b := by
  simp only [viewState, ha, hb]

/-- Two roots holding the same `SystemState` object have the same
footprint tail. -/
theorem stateFootprint_congr_root {h : Heap} {a b : Nat} {so : SysObj}
    (ha : h a = some (.sys so)) (hb : h b = some (.sys so)) :
    ∀ x ∈ stateFootprint h a, x = a ∨ x ∈ stateFootprint h b := by
  intro x hx
  simp only [stateFootprint, ha, hb, List.mem_cons] at hx ⊢
  rcases hx with rfl | h
  · exact Or.inl rfl
  · exact Or.inr (Or.inr h)

/-- The components of a successful `createSnapshot`. -/
theorem createSnapshot_proj (σ : SM) (reason : String) (p : PureState)
    (hp : viewState σ.heap σ.current = some p) :
    (createSnapshot σ reason).2.heap = (materializeState σ p).2.heap ∧
    (createSnapshot σ reason).2.nextAddr = (materializeState σ p).2.nextAddr ∧
    (createSnapshot σ reason).2.current = (materializeState σ p).2.current ∧
    (createSnapshot σ reason).2.redisSnaps =
      alSet (materializeState σ p).2.redisSnaps (materializeState σ p).2.nextId p ∧
    (createSnapshot σ reason).1 = .ok (materializeState σ p).2.nextId := by
  have hdc : deepCloneState σ σ.current =
      (.ok ((materializeState σ p).1, p), (materializeState σ p).2) := by
    unfold deepCloneState
    rw [hp]
  unfold createSnapshot
  rw [hdc]
  exact ⟨rfl, rfl, rfl, rfl, rfl⟩

/-- Pushing onto a history capped at `maxStateHistory` keeps the new
record last. -/
theorem hist_push_getLast (l : List SnapRec) (s : SnapRec) :
    (if (l ++ [s]).length > maxStateHistory then (l ++ [s]).drop 1
     else l ++ [s]).getLast? = some s := by
  by_cases hlen : (l ++ [s]).length > maxStateHistory
  · rw [if_pos hlen]
    cases l with
    | nil => simp [maxStateHistory] at hlen
    | cons y ys =>
      show (ys ++ [s]).getLast? = some s
      exact List.getLast?_concat _
  · rw [if_neg hlen]
    exact List.getLast?_concat _

/-- The snapshot record a successful `createSnapshot` appends to
`stateHistory`. -/
theorem createSnapshot_last (σ : SM) (reason : String) (p : PureState)
    (hp : viewState σ.heap σ.current = some p) :
    (createSnapshot σ reason).2.stateHistory.getLast? =
      some { id := (materializeState σ p).2.nextId,
             systemState := (materializeState σ p).1,
             createdAt := (materializeState σ p).2.clock, reason := reason } := by
  have hdc : deepCloneState σ σ.current =
      (.ok ((materializeState σ p).1, p), (materializeState σ p).2) := by
    unfold deepCloneState
    rw [hp]
  have h1 : (createSnapshot σ reason).2.stateHistory =
      (fun (l : List SnapRec) (s : SnapRec) =>
        if (l ++ [s]).length > maxStateHistory then (l ++ [s]).drop 1 else l ++ [s])
      (materializeState σ p).2.stateHistory
      { id := (materializeState σ p).2.nextId, systemState := (materializeState σ p).1,
        createdAt := (materializeState σ p).2.clock, reason := reason } := by
    unfold createSnapshot
    rw [hdc]
    rfl
  rw [h1]
  exact hist_push_getLast _ _

/-! ## Claim theorems -/

/-- C1 (code_bug).  The spec's scenario: enqueue `T1(LOW)`,
`T2(CRITICAL)`, `T3(MEDIUM)` in that order with concurrency 1.  The
claim (and the code's own intent, per the `priorityWeights` table
giving CRITICAL the largest weight and the shortest `maxWaitTime`)
is execution order `T2, T3, T1`.  But BullMQ serves the *lowest*
numeric priority first, and `dispatchTask` passes CRITICAL ↦ 1000 and
LOW ↦ 1, so the code executes `T1, T3, T2` — the exact reverse. -/
theorem C1_priority_order_inverted :
    execOrder (dispatchAll [("T1", .LOW), ("T2", .CRITICAL), ("T3", .MEDIUM)]) =
      ["T1", "T3", "T2"] ∧
    execOrder (dispatchAll [("T1", .LOW), ("T2", .CRITICAL), ("T3", .MEDIUM)]) ≠
      ["T2", "T3", "T1"] := by
  constructor
  · rfl
  · decide

/-- C2 (corrected).  `transitionPhase` is atomic on the failure side:
if any exit criterion of the current phase fails, it returns `false`
with the orchestrator state unchanged and no events emitted.  On the
success side — all criteria pass, the task queue is empty (otherwise
the drain loop never returns) and every persona of the target phase
has a registered agent instance — it completes the current phase
(emitting the report and archive events), initializes the target
phase's agents, updates the phase and returns `true`.  No snapshot of
system state is taken anywhere in the transition (the original claim's
"snapshots state" has no counterpart in the code; see the
counterexample). -/
theorem C2_transitionPhase_atomic (o : Orch) (toPhase : Phase) (crit : String → Bool) :
    ((phaseConfigs o.currentPhase).exitCriteria.all crit = false →
      transitionPhase o toPhase crit = some (.ok false, o, [])) ∧
    ((phaseConfigs o.currentPhase).exitCriteria.all crit = true →
      o.taskQueue = [] →
      (∀ p ∈ (phaseConfigs toPhase).activeAgents, (o.agents.lookup p).isSome) →
      ∃ o', transitionPhase o toPhase crit =
          some (.ok true, o', ["phase:report:generated", "phase:data:archived",
            "phase:initialized", "phase:transitioned"]) ∧
        o'.currentPhase = toPhase) := by
  constructor
  · intro h
    simp [transitionPhase, h]
  · intro hcrit hqueue hagents
    have hlook : ∀ p ∈ (phaseConfigs toPhase).activeAgents,
        (((deactivateCurrentAgents { o with currentPhase := toPhase }).agents).lookup p).isSome := by
      intro p hp
      have := hagents p hp
      simpa [deactivateCurrentAgents, lookup_map_values_isSome] using this
    obtain ⟨o', ho', hphase, -⟩ :=
      activatePhaseAgents_ok (phaseConfigs toPhase).activeAgents _ hlook
    rw [hqueue] at ho'
    refine ⟨o', ?_, ?_⟩
    · simp only [transitionPhase, hcrit, Bool.not_true, Bool.false_eq_true, if_false,
        hqueue, List.isEmpty_nil, if_true, initializePhase, ho']
      rfl
    · rw [hphase]
      rw [hqueue]
      rfl

/-- C2 witness: at the concrete planning-state fixture with the
source's always-true criterion stub, the transition to `scaffold`
succeeds and the reached state's phase is `scaffold`. -/
theorem C2_transitionPhase_atomic_witness :
    (phaseConfigs c2Orch.currentPhase).exitCriteria.all checkExitCriterionStub = true ∧
    (c2Run.map fun r => r.2.1.currentPhase) = some Phase.scaffold := by
  constructor
  · decide
  · obtain ⟨o', heq, hph⟩ :=
      (C2_transitionPhase_atomic c2Orch Phase.scaffold checkExitCriterionStub).2
        (by decide) rfl (by decide)
    rw [show c2Run = transitionPhase c2Orch Phase.scaffold checkExitCriterionStub from rfl,
      heq]
    simp [hph]

/-- C2 counterexample.  A successful transition (all criteria pass,
agents registered, queue empty) returns `true` and emits exactly
`phase:report:generated`, `phase:data:archived`, `phase:initialized`,
`phase:transitioned` — no event in the trace mentions a snapshot, and
the orchestrator holds no snapshot store, so the claimed "snapshots
state" step does not happen. -/
theorem C2_no_snapshot_on_success :
    (c2Run.map fun r => (r.1, r.2.2)) =
      some (Except.ok true, ["phase:report:generated", "phase:data:archived",
        "phase:initialized", "phase:transitioned"]) ∧
    (c2Run.map fun r => r.2.2.all fun e => !(containsSub e "snapshot")) = some true := by
  constructor
  · decide
  · decide

/-- C4 (corrected) counterexample.  Two live subscriptions: id 0 with
pattern `agent:*`, id 1 with pattern `agent:qa_engineer`.  A message
published to channel `agent:qa_engineer` matches subscription 0's
pattern (under the bus's own `matchPattern`, `*` = one non-colon
segment), yet its callback is invoked twice: Redis fires one
`pmessage` per matching psubscribed pattern (`agent:*` and
`agent:qa_engineer` both match the channel), and
`handleIncomingMessage` matches subscription 0's pattern against both
fired patterns. -/
theorem C4_wildcard_double_delivery :
    matchPattern (getChannelName msgToQa) "agent:*" = true ∧
    subRunCount (publish c4Bus msgToQa).2 0 = 2 ∧
    subRunCount (publish c4Bus msgToQa).2 0 ≠ 1 := by
  refine ⟨by decide, by decide, by decide⟩

/-- C4 (corrected).  For every published message and every live
subscription (no callback throwing), the callback is invoked once per
*distinct psubscribed Redis pattern* that (a) Redis-matches the
message's destination channel and (b) `matchPattern`-matches one of
the subscription's patterns.  With a single subscription whose only
pattern coincides with the bus's default `agent:*` psubscription, this
count is 1 — the spec's scenario — but overlapping psubscribed
patterns can drive it above 1 (see the counterexample). -/
theorem C4_delivery_count (b : MessageBus) (m : AgentMsg)
    (sid : Nat) (sub : Subscription)
    (hl : b.subscriptions.lookup sid = some sub)
    (hnodup : (b.subscriptions.map Prod.fst).Nodup)
    (hnothrow : ∀ e ∈ b.subscriptions, e.2.throws = false) :
    subRunCount (publish b m).2 sid =
      (b.redisPatterns.filter fun p => redisMatch p (getChannelName m)).countP
        fun p => sub.patterns.any fun q => matchPattern p q := by
  exact subRunCount_flatMap b _ sid sub hl hnodup hnothrow

/-- C4 witness: the spec's scenario on the single-subscription
fixture — one wildcard subscription, a message to `qa_engineer`,
callback fired exactly once. -/
theorem C4_delivery_count_witness :
    subRunCount (publish c4SoloBus msgToQa).2 0 = 1 := by
  have h := C4_delivery_count c4SoloBus msgToQa 0
    { agentId := "a1", patterns := ["agent:*"], throws := false }
    (by decide) (by decide) (by decide)
  rw [h]
  decide

/-- C7 (corrected).  Per incoming delivery: every registered handler
whose pattern matches runs exactly once, in order, regardless of any
handler throwing (each runs inside its own `try/catch`); the
subscription callbacks, however, run without a `try/catch`, so the
matching subscriptions are reached only up to and including the first
whose callback throws — a throwing callback aborts delivery to the
remaining subscriptions (the exception is only caught by the
`pmessage` listener's outer logger). -/
theorem C7_handler_isolated_subscription_aborts (b : MessageBus) (pat : String) :
    handlerRunsOf (handleIncomingMessage b pat) =
      (b.messageHandlers.filter fun e => matchPattern pat e.2.pattern).map Prod.fst ∧
    subRunsOf (handleIncomingMessage b pat) = expectedSubRuns b.subscriptions pat := by
  constructor
  · rw [handleIncomingMessage, handlerRunsOf_append, handlerRunsOf_handlerPart,
      handlerRunsOf_subLoop, List.append_nil]
  · rw [handleIncomingMessage, subRunsOf_append, subRunsOf_handlerPart,
      List.nil_append, subRunsOf_subLoop]

/-- C7 counterexample.  Subscriptions 0 (callback throws) and 1 (does
not) both match a `qa_engineer` delivery; subscription 0 is invoked,
its exception propagates past the loop, and subscription 1 is never
invoked — refuting "does not prevent the remaining … subscription
callbacks from being invoked". -/
theorem C7_throwing_subscription_blocks_next :
    matchPattern (getChannelName msgToQa) "agent:*" = true ∧
    subRunCount (publish c7Bus msgToQa).2 0 = 1 ∧
    subRunCount (publish c7Bus msgToQa).2 1 = 0 := by
  refine ⟨by decide, by decide, by decide⟩

/-- C9 (confirmed).  `requestResponse`'s reply/timer race: if the
`setTimeout` timer (scheduled at `timeoutMs`) fires first, the promise
rejects with the `Request timeout after <t>ms` error and stays
rejected whatever arrives later — it cannot hang once the timer
fires; if a reply on the reply channel arrives first, the promise
resolves with that payload and the timer is cancelled
(`clearTimeout`), so a later timer event changes nothing.  Whichever
of reply and timer settles first wins. -/
theorem C9_requestResponse_race (rc : String) (t : Nat) :
    (∀ evs : List ReqEvent,
      (reqRun rc t (.timerFired :: evs)).settled = some (.error (timeoutMessage t))) ∧
    (∀ (payload : String) (evs : List ReqEvent),
      (reqRun rc t (.message rc payload :: evs)).settled = some (.ok payload) ∧
      (reqRun rc t (.message rc payload :: evs)).timerActive = false) := by
  constructor
  · intro evs
    have hstep : reqStep rc t reqInit .timerFired =
        { settled := some (.error (timeoutMessage t)),
          timerActive := false, subscribed := false } := by
      simp [reqStep, reqInit]
    rw [reqRun, List.foldl_cons, hstep, reqRun_fixed rc t _ rfl rfl]
  · intro payload evs
    have hstep : reqStep rc t reqInit (.message rc payload) =
        { settled := some (.ok payload),
          timerActive := false, subscribed := false } := by
      simp [reqStep, reqInit]
    rw [reqRun, List.foldl_cons, hstep, reqRun_fixed rc t _ rfl rfl]
    exact ⟨rfl, rfl⟩

/-- C10 (corrected) counterexample.  `c10Bus` holds the single
subscription id 0; id 99 was never issued.  `unsubscribe 99` does not
fail with a NotFound error — the source's `if (subscription)` guard
just falls through — and returns with the bus unchanged. -/
theorem C10_unknown_id_no_error :
    c10Bus.subscriptions.lookup 99 = none ∧
    unsubscribe c10Bus 99 = .ok c10Bus := by
  refine ⟨by decide, by decide⟩

/-- C10 (corrected).  Calling `unsubscribe` with a subscription id
that was never returned by `subscribe` (or was already removed) is a
silent no-op: no error of any kind is raised and the bus — its
subscription set and its psubscribed patterns — is unchanged. -/
theorem C10_unknown_unsubscribe_silent (b : MessageBus) (sid : Nat)
    (h : b.subscriptions.lookup sid = none) :
    unsubscribe b sid = .ok b := by
  simp [unsubscribe, h]

/-- C10 witness: unsubscribing the never-issued id 5 on the concrete
one-subscription bus returns ok with the bus unchanged. -/
theorem C10_unknown_unsubscribe_silent_witness :
    unsubscribe c10Bus 5 = .ok c10Bus :=
  C10_unknown_unsubscribe_silent c10Bus 5 (by decide)

/-- C8 (confirmed).  At every reachable state of the State Store -
right after `initializeSystemState` and after any sequence of
`updateAgentState`, `updateAgentMemory`, `clearShortTermMemory`,
`updateGlobalContext`, `setPhase`, `createSnapshot` and
`restoreSnapshot` calls - the live agents map is keyed exactly by the
six roster personas, in roster order: exactly one `AgentStateData`
entry per roster persona and no entry for anything else.  Unknown-
persona calls throw (or no-op) before touching the map, in-place
updates replace but never add or remove entries, and `restoreSnapshot`
rebuilds the map from a persisted snapshot whose keys were the roster. -/
theorem C8_roster_exact_at_every_reachable_state (ops : List ApiOp) :
    agentsKeys (applyOps initState ops) = some roster :=
  ((ops_step initState ops good_init).roster rosterInv_init).1

/-- C6 (confirmed).  Once `createSnapshot(reason)` has appended its
snapshot record, any subsequent sequence of Store API calls leaves the
retained snapshot's `systemState` graph - its entire pure reading:
phase, agents map with per-agent state, memory tiers, currentTasks,
metrics, and globalContext - unchanged: `deepCloneState` materializes
a fully disjoint copy on fresh addresses, and every later operation
writes only inside the live footprint or onto fresh addresses. -/
theorem C6_snapshot_deep_copy_isolation (pre ops : List ApiOp) (reason : String)
    (snap : SnapRec)
    (hsnap : (createSnapshot (applyOps initState pre) reason).2.stateHistory.getLast? =
      some snap) :
    (viewState (createSnapshot (applyOps initState pre) reason).2.heap
      snap.systemState).isSome ∧
    viewState (applyOps (createSnapshot (applyOps initState pre) reason).2 ops).heap
        snap.systemState =
      viewState (createSnapshot (applyOps initState pre) reason).2.heap
        snap.systemState := by
  have hG : Good (applyOps initState pre) := (ops_step initState pre good_init).good
  revert hG hsnap
  generalize applyOps initState pre = σ
  intro hsnap hG
  obtain ⟨p, hp⟩ := Option.isSome_iff_exists.mp hG.1
  obtain ⟨m1, m2, m3, m4, m5, m6, m7, m8, m9, m10⟩ := materializeState_parts σ p
  obtain ⟨hPH, hPN, hPC, hPR, hPok⟩ := createSnapshot_proj σ reason p hp
  have hlast := createSnapshot_last σ reason p hp
  have hca : snap.systemState = (materializeState σ p).1 := by
    have h12 := hsnap.symm.trans hlast
    have h13 : snap = { id := (materializeState σ p).2.nextId,
                        systemState := (materializeState σ p).1,
                        createdAt := (materializeState σ p).2.clock,
                        reason := reason } := by
      simpa using h12
    rw [h13]
  have hfr : ∀ x ∈ stateFootprint σ.heap σ.current,
      (materializeState σ p).2.heap x = σ.heap x := fun x hx => m2 x (live_lt σ hG x hx)
  obtain ⟨hveq, hfeq⟩ := viewState_frame σ.heap (materializeState σ p).2.heap σ.current hfr
  constructor
  · rw [hPH, hca, m1]
    rfl
  · have hG1 : Good (createSnapshot σ reason).2 := (step_snap σ reason hG).good
    have hT := ops_step (createSnapshot σ reason).2 ops hG1
    have hfr2 : ∀ x ∈ stateFootprint (createSnapshot σ reason).2.heap snap.systemState,
        (applyOps (createSnapshot σ reason).2 ops).heap x =
          (createSnapshot σ reason).2.heap x := by
      intro x hx
      rw [hPH, hca] at hx
      have hbx := m4 x hx
      refine hT.frame x ?_ ?_
      · intro hmem
        have hmem2 : x ∈ stateFootprint (createSnapshot σ reason).2.heap
            (createSnapshot σ reason).2.current := hmem
        rw [hPH, hPC, m5, hfeq] at hmem2
        have hlt2 := live_lt σ hG x hmem2
        omega
      · rw [hPN]
        exact hbx.2
    exact (viewState_frame (createSnapshot σ reason).2.heap
      (applyOps (createSnapshot σ reason).2 ops).heap snap.systemState hfr2).1

/-- A concrete run of C6: snapshot the fresh store, then mutate the
context, the phase (which itself snapshots), an agent and its
short-term memory - the retained snapshot's view is intact. -/
theorem C6_snapshot_deep_copy_isolation_witness :
    ((createSnapshot (applyOps initState []) "r").2.stateHistory.getLast? =
      some { id := 1, systemState := 65, createdAt := 7, reason := "r" }) ∧
    (viewState (createSnapshot (applyOps initState []) "r").2.heap 65).isSome ∧
    viewState (applyOps (createSnapshot (applyOps initState []) "r").2
        [ApiOp.updContext "k" "v", ApiOp.setPh Phase.feature,
         ApiOp.updAgent Persona.qa_engineer
           { state := some AgentLifeState.working, currentTasks := some ["t1"] },
         ApiOp.clearShort Persona.qa_engineer]).heap 65 =
      viewState (createSnapshot (applyOps initState []) "r").2.heap 65 := by
  have h := C6_snapshot_deep_copy_isolation []
    [ApiOp.updContext "k" "v", ApiOp.setPh Phase.feature,
     ApiOp.updAgent Persona.qa_engineer
       { state := some AgentLifeState.working, currentTasks := some ["t1"] },
     ApiOp.clearShort Persona.qa_engineer] "r"
    { id := 1, systemState := 65, createdAt := 7, reason := "r" } (by decide)
  exact ⟨by decide, h.1, h.2⟩

/-- C3 (corrected).  `setPhase(phase)` mutates the live root's `phase`
field FIRST (`this.currentState.phase = phase`) and only then calls
`createSnapshot`, so the snapshot stored for the phase change records
the NEW phase - not the `SystemState` as it was before the change; only
the snapshot's reason string `phase_transition_<prev>_to_<new>` carries
the previous phase.  Afterwards the live state carries the new phase. -/
theorem C3_setPhase_snapshots_after_applying (σ : SM) (ph : Phase) (hG : Good σ) :
    ∃ snap p0, viewState σ.heap σ.current = some p0 ∧
      (setPhase σ ph).1 = .ok () ∧
      (setPhase σ ph).2.stateHistory.getLast? = some snap ∧
      snap.reason = "phase_transition_" ++ phaseStr p0.phase ++ "_to_" ++ phaseStr ph ∧
      viewState (setPhase σ ph).2.heap snap.systemState = some { p0 with phase := ph } ∧
      viewState (setPhase σ ph).2.heap (setPhase σ ph).2.current =
        some { p0 with phase := ph } := by
  obtain ⟨so, am, gc, pas, hcs, hamc, hgcc, hvas, hveq⟩ := viewState_unpack hG.1
  set R : SM := { σ with heap := hset σ.heap σ.current (.sys { so with phase := ph }) }
    with hR
  set q : PureState := { id := so.id, phase := ph, agents := pas, globalContext := gc, timestamp := so.timestamp } with hq
  have hview1 : viewState R.heap R.current = some q := by
    show viewState (hset σ.heap σ.current (.sys { so with phase := ph })) σ.current = _
    exact viewState_set_root hcs hveq ph
  have hclt : σ.current < σ.nextAddr := live_lt σ hG σ.current (mem_liveFootprint_root σ)
  have hG1 : Good R := by
    constructor
    · show (viewState R.heap R.current).isSome
      rw [hview1]
      rfl
    · intro x hx
      have hx2 : σ.nextAddr ≤ x := hx
      show hset σ.heap σ.current (.sys { so with phase := ph }) x = none
      exact heapBound_hset σ.heap σ.nextAddr hG.2 σ.current _ hclt x hx2
  obtain ⟨m1, m2, m3, m4, m5, m6, m7, m8, m9, m10⟩ := materializeState_parts R q
  obtain ⟨hPH, hPN, hPC, hPR, hPok⟩ := createSnapshot_proj R
    ("phase_transition_" ++ phaseStr so.phase ++ "_to_" ++ phaseStr ph) q hview1
  have hlast := createSnapshot_last R
    ("phase_transition_" ++ phaseStr so.phase ++ "_to_" ++ phaseStr ph) q hview1
  have hstep : (setPhase σ ph).2 =
      (createSnapshot R
        ("phase_transition_" ++ phaseStr so.phase ++ "_to_" ++ phaseStr ph)).2 := by
    simp only [setPhase, hcs]
    rw [← hR]
    cases hcc : createSnapshot R
        ("phase_transition_" ++ phaseStr so.phase ++ "_to_" ++ phaseStr ph) with
    | mk r2 σ2 =>
      cases r2 with
      | ok u => rfl
      | error e2 => rfl
  have hok : (setPhase σ ph).1 = .ok () := by
    simp only [setPhase, hcs]
    rw [← hR]
    cases hcc : createSnapshot R
        ("phase_transition_" ++ phaseStr so.phase ++ "_to_" ++ phaseStr ph) with
    | mk r2 σ2 =>
      cases r2 with
      | ok u => rfl
      | error e2 =>
        rw [hcc] at hPok
        simp at hPok
  refine ⟨{ id := (materializeState R q).2.nextId, systemState := (materializeState R q).1, createdAt := (materializeState R q).2.clock, reason := "phase_transition_" ++ phaseStr so.phase ++ "_to_" ++ phaseStr ph }, { id := so.id, phase := so.phase, agents := pas, globalContext := gc, timestamp := so.timestamp }, hveq, hok, ?_, ?_, ?_, ?_⟩
  · rw [hstep]
    exact hlast
  · rfl
  · rw [hstep, hPH]
    exact m1
  · have hfrR : ∀ x ∈ stateFootprint R.heap R.current,
        (materializeState R q).2.heap x = R.heap x :=
      fun x hx => m2 x (live_lt R hG1 x hx)
    obtain ⟨hveqR, -⟩ := viewState_frame R.heap
      (materializeState R q).2.heap R.current hfrR
    rw [hstep, hPH, hPC, m5, hveqR, hview1]

/-- C3 at the freshly initialized store, transitioning planning→feature. -/
theorem C3_setPhase_snapshots_after_applying_witness :
    Good initState ∧
    (∃ snap p0, viewState initState.heap initState.current = some p0 ∧
      (setPhase initState Phase.feature).1 = .ok () ∧
      (setPhase initState Phase.feature).2.stateHistory.getLast? = some snap ∧
      snap.reason = "phase_transition_" ++ phaseStr p0.phase ++ "_to_" ++
        phaseStr Phase.feature ∧
      viewState (setPhase initState Phase.feature).2.heap snap.systemState =
        some { p0 with phase := Phase.feature } ∧
      viewState (setPhase initState Phase.feature).2.heap
          (setPhase initState Phase.feature).2.current =
        some { p0 with phase := Phase.feature }) :=
  ⟨good_init, C3_setPhase_snapshots_after_applying initState Phase.feature good_init⟩

/-- The snapshot `setPhase` records during the planning→feature change
carries phase `feature`, not the claimed previous phase `planning`. -/
theorem C3_snapshot_records_new_phase :
    ((setPhase initState Phase.feature).2.stateHistory.getLast?.map (fun s =>
      (viewState (setPhase initState Phase.feature).2.heap s.systemState).map
        PureState.phase)) = some (some Phase.feature) ∧
    some (some Phase.feature) ≠ some (some Phase.planning) := by
  constructor
  · decide
  · decide

/-- C5 (corrected).  `getSystemState` returns `{ ...this.currentState }`:
a SHALLOW copy - a freshly allocated root object whose `agents` map and
`globalContext` record are the very same objects as the live state's.
The copy reads equal to the live state, and scalar root fields are
insulated (a later `setPhase` leaves the returned copy's phase
unchanged), but an in-place `updateGlobalContext` on the live state is
visible through the previously returned copy - refuting the
defensive-copy claim. -/
theorem C5_getSystemState_shallow_copy (σ : SM) (ph : Phase) (k v : String)
    (hG : Good σ) :
    ∃ a p0, (getSystemState σ).1 = .ok a ∧
      viewState σ.heap σ.current = some p0 ∧
      viewState (getSystemState σ).2.heap a = some p0 ∧
      (viewState (updateGlobalContext (getSystemState σ).2 k v).2.heap a).map
          PureState.globalContext = some (alSet p0.globalContext k v) ∧
      (viewState (setPhase (getSystemState σ).2 ph).2.heap a).map PureState.phase =
        some p0.phase := by
  obtain ⟨so, am, gc, pas, hcs, hamc, hgcc, hvas, hveq⟩ := viewState_unpack hG.1
  have hnane : ∀ (y : Nat) (o : Obj), σ.heap y = some o → y ≠ σ.nextAddr := by
    intro y o hy he
    rw [he, hG.2 σ.nextAddr (le_refl _)] at hy
    cases hy
  set H0 : Heap := hset σ.heap σ.nextAddr (.sys so) with hH0
  have hgssr : (getSystemState σ).1 = .ok σ.nextAddr := by
    simp only [getSystemState, hcs, alloc]
  have hgss2 : (getSystemState σ).2 = { σ with heap := H0, nextAddr := σ.nextAddr + 1 } := by
    rw [hH0]
    simp only [getSystemState, hcs, alloc]
  have h0c : H0 σ.current = some (.sys so) := by
    rw [hH0, hset_lookup_ne _ _ _ (hnane _ _ hcs)]
    exact hcs
  have h0root : H0 σ.nextAddr = some (.sys so) := by
    rw [hH0]
    exact hset_lookup_eq _ _ _
  have hfr0 : ∀ x ∈ stateFootprint σ.heap σ.current, H0 x = σ.heap x := by
    intro x hx
    obtain ⟨o, ho⟩ := Option.isSome_iff_exists.mp (footprint_dom σ.heap σ.current hG.1 x hx)
    rw [hH0]
    exact hset_lookup_ne _ _ _ (hnane x o ho)
  obtain ⟨hveq0, hfeq0⟩ := viewState_frame σ.heap H0 σ.current hfr0
  have h0am : H0 so.agents = some (.amap am) := by
    rw [hfr0 so.agents (mem_stateFootprint_agents hcs)]
    exact hamc
  have h0gc : H0 so.globalContext = some (.record gc) := by
    rw [hfr0 so.globalContext (mem_stateFootprint_gc hcs)]
    exact hgcc
  have hv0c : viewState H0 σ.current = some { id := so.id, phase := so.phase, agents := pas, globalContext := gc, timestamp := so.timestamp } := hveq0.trans hveq
  have hvcopy : viewState H0 σ.nextAddr = some { id := so.id, phase := so.phase, agents := pas, globalContext := gc, timestamp := so.timestamp } :=
    (viewState_congr_root h0root h0c).trans hv0c
  have hupd : (updateGlobalContext { σ with heap := H0, nextAddr := σ.nextAddr + 1 } k v).2 =
      { σ with heap := hset H0 so.globalContext (.record (alSet gc k v)), nextAddr := σ.nextAddr + 1 } := by
    simp only [updateGlobalContext, h0c, h0gc]
  have hc01 := heapCompat_write_record H0 so.globalContext gc (alSet gc k v) h0gc
    (fun _ => False)
  have hfr0am : ∀ e ∈ am, ∀ x ∈ agentFootprint σ.heap e.2, H0 x = σ.heap x := by
    intro e he x hx
    exact hfr0 x (mem_stateFootprint_of_agent hcs hamc he x hx)
  obtain ⟨hvam0, -⟩ := viewAgents_frame σ.heap H0 am hfr0am
  have hvam0x : viewAgents H0 am = some pas := hvam0.trans hvas
  have hvsome1 := viewAgents_isSome_compat hc01 am (by rw [hvam0x]; rfl)
  obtain ⟨pas1, hpas1⟩ := Option.isSome_iff_exists.mp hvsome1
  have hnegc : σ.nextAddr ≠ so.globalContext := ne_of_heap_kinds h0root h0gc (by simp)
  have hamgc : so.agents ≠ so.globalContext := ne_of_heap_kinds h0am h0gc (by simp)
  have hH1root : hset H0 so.globalContext (.record (alSet gc k v)) σ.nextAddr =
      some (.sys so) := by
    rw [hset_lookup_ne _ _ _ hnegc]
    exact h0root
  have hH1am : hset H0 so.globalContext (.record (alSet gc k v)) so.agents =
      some (.amap am) := by
    rw [hset_lookup_ne _ _ _ hamgc]
    exact h0am
  have hH1gc : hset H0 so.globalContext (.record (alSet gc k v)) so.globalContext =
      some (.record (alSet gc k v)) := hset_lookup_eq _ _ _
  set H2 : Heap := hset H0 σ.current (.sys { so with phase := ph }) with hH2
  set q : PureState := { id := so.id, phase := ph, agents := pas, globalContext := gc, timestamp := so.timestamp } with hq
  have hview2 : viewState H2 σ.current = some q := by
    rw [hH2]
    exact viewState_set_root h0c hv0c ph
  set R2 : SM := { σ with heap := H2, nextAddr := σ.nextAddr + 1 } with hR2
  have hview2x : viewState R2.heap R2.current = some q := hview2
  obtain ⟨n1, n2, n3, n4, n5, n6, n7, n8, n9, n10⟩ := materializeState_parts R2 q
  obtain ⟨hQH, hQN, hQC, hQR, hQok⟩ := createSnapshot_proj R2
    ("phase_transition_" ++ phaseStr so.phase ++ "_to_" ++ phaseStr ph) q hview2x
  have hstepS : (setPhase { σ with heap := H0, nextAddr := σ.nextAddr + 1 } ph).2 =
      (createSnapshot R2
        ("phase_transition_" ++ phaseStr so.phase ++ "_to_" ++ phaseStr ph)).2 := by
    simp only [setPhase, h0c]
    rw [← hH2, ← hR2]
    cases hcc : createSnapshot R2
        ("phase_transition_" ++ phaseStr so.phase ++ "_to_" ++ phaseStr ph) with
    | mk r2 σ2 =>
      cases r2 with
      | ok u => rfl
      | error e2 => rfl
  have hfr2 : ∀ x ∈ stateFootprint H0 σ.nextAddr, H2 x = H0 x := by
    intro x hx
    simp only [stateFootprint, h0root, h0am, List.mem_cons] at hx
    rcases hx with rfl | rfl | rfl | hx
    · rw [hH2]
      exact hset_lookup_ne _ _ _ (Ne.symm (hnane _ _ hcs))
    · rw [hH2]
      exact hset_lookup_ne _ _ _ (ne_of_heap_kinds h0am h0c (by simp))
    · rw [hH2]
      exact hset_lookup_ne _ _ _ (ne_of_heap_kinds h0gc h0c (by simp))
    · rw [List.mem_flatMap] at hx
      obtain ⟨e, he, hxe⟩ := hx
      have hva2 := viewAgents_mem_isSome H0 e am pas hvam0x he
      obtain ⟨ao3, mo3, st3, lt3, mt3, hac4, hmo4, hst4, hlt4, hmt4, hfp4, -⟩ :=
        viewAgent_unpack hva2
      rw [hfp4] at hxe
      simp only [List.mem_cons, List.not_mem_nil, or_false] at hxe
      have hxc : x ≠ σ.current := by
        rcases hxe with rfl | rfl | rfl | rfl | rfl
        · exact ne_of_heap_kinds hac4 h0c (by simp)
        · exact ne_of_heap_kinds hmo4 h0c (by simp)
        · exact ne_of_heap_kinds hmt4 h0c (by simp)
        · exact ne_of_heap_kinds hst4 h0c (by simp)
        · exact ne_of_heap_kinds hlt4 h0c (by simp)
      rw [hH2]
      exact hset_lookup_ne _ _ _ hxc
  obtain ⟨hv2eq, hf2eq⟩ := viewState_frame H0 H2 σ.nextAddr hfr2
  have hflt : ∀ x ∈ stateFootprint H2 σ.nextAddr, x < σ.nextAddr + 1 := by
    intro x hx
    rw [hf2eq] at hx
    rcases stateFootprint_congr_root h0root h0c x hx with rfl | hx2
    · omega
    · rw [hfeq0] at hx2
      have hlx := live_lt σ hG x hx2
      omega
  have hfr3 : ∀ x ∈ stateFootprint H2 σ.nextAddr,
      (materializeState R2 q).2.heap x = H2 x := by
    intro x hx
    exact n2 x (hflt x hx)
  obtain ⟨hv3eq, -⟩ := viewState_frame H2 (materializeState R2 q).2.heap σ.nextAddr hfr3
  refine ⟨σ.nextAddr, { id := so.id, phase := so.phase, agents := pas, globalContext := gc, timestamp := so.timestamp }, hgssr, hveq, ?_, ?_, ?_⟩
  · rw [hgss2]
    exact hvcopy
  · rw [hgss2, hupd]
    have hval : viewState (hset H0 so.globalContext (.record (alSet gc k v))) σ.nextAddr =
        some { id := so.id, phase := so.phase, agents := pas1, globalContext := alSet gc k v, timestamp := so.timestamp } := by
      simp only [viewState, hH1root, hH1am, hH1gc, hpas1]
    show (viewState (hset H0 so.globalContext (.record (alSet gc k v)))
        σ.nextAddr).map PureState.globalContext = some (alSet gc k v)
    rw [hval]
    rfl
  · rw [hgss2, hstepS, hQH, hv3eq, hv2eq, hvcopy]
    rfl

/-- C5 at the freshly initialized store with a later planning→feature
`setPhase` and a `globalContext["k"] = "v"` write. -/
theorem C5_getSystemState_shallow_copy_witness :
    Good initState ∧
    (∃ a p0, (getSystemState initState).1 = .ok a ∧
      viewState initState.heap initState.current = some p0 ∧
      viewState (getSystemState initState).2.heap a = some p0 ∧
      (viewState (updateGlobalContext (getSystemState initState).2 "k" "v").2.heap a).map
          PureState.globalContext = some (alSet p0.globalContext "k" "v") ∧
      (viewState (setPhase (getSystemState initState).2 Phase.feature).2.heap a).map
          PureState.phase = some p0.phase) :=
  ⟨good_init, C5_getSystemState_shallow_copy initState Phase.feature "k" "v" good_init⟩

/-- The state value `getSystemState` returned (rooted at address 33 on
the fresh store) shows the later `updateGlobalContext` mutation: its
`globalContext` reads `[("k", "v")]` instead of the `[]` it held when
it was returned - not a defensive copy. -/
theorem C5_copy_mutated_through_alias :
    ((viewState (updateGlobalContext (getSystemState initState).2 "k" "v").2.heap 33).map
      PureState.globalContext) = some [("k", "v")] ∧
    ((viewState (getSystemState initState).2.heap 33).map PureState.globalContext) =
      some [] ∧
    some ([("k", "v")] : List (String × String)) ≠ some ([] : List (String × String)) := by
  refine ⟨by decide, by decide, by decide⟩

end Nex
